import Mathlib

/-!
# Page compositing (`ui/pagepainter.cpp`)

A shallow embedding of `PagePainter::paintPageOnPainter` and of its private
helpers.  Conventions of the embedding:

* C `int`/`long` values are `Int`; the products of pixel coordinates formed by
  `scalePixmapOnImage` and the contrast product of the `BlackWhite` mode are
  reduced to 32 bits explicitly (`wrapInt32`, `toUInt32`), every other quantity
  is assumed to stay in range.
* C `double` values are exact rationals (`ℚ`); `(int)` on a double truncates
  towards zero.
* `QMap<int, QPixmap*>` is the list of its entries in iteration order
  (ascending keys, a key occurs once: `KeysAscending`).
* A `QPainter` is the list of the calls made on it, in program order.
* Where C leaves the behaviour undefined the embedding makes a choice: a read
  outside a pixel buffer yields 0, a write outside is dropped, an integer
  division by zero yields 0.  For the rescale and for the `BlackWhite` remapping
  a second definition makes the failure explicit (`scalePixmapOnImageChecked`,
  `blackWhiteValueChecked`: no value where the code reads out of bounds or
  divides by zero).
* Qt value classes follow Qt 4: `QRect` holds inclusive corners, `QPen()` has
  width 0, `QBrush()` is `Qt::NoBrush`.
* What is declared outside `ui/pagepainter.cpp` (settings, flag masks, the
  geometry helpers of `core/area.h`, the icon loader, `KImageEffect::flatten`,
  the Anti-Grain renderer, libm) is collected in `Extern` and `KpdfSettings` and
  taken as a parameter.
-/

namespace PagePainter

/-! ## Qt value types -/

/-- A `QColor`: the three channels and the `isValid()` bit. -/
structure QColor where
  red : Int
  green : Int
  blue : Int
  isValid : Bool
deriving DecidableEq, Repr

/-- The colour `Qt::white`. -/
def QColor.white : QColor := ⟨255, 255, 255, true⟩

/-- The colour `Qt::gray`. -/
def QColor.gray : QColor := ⟨160, 160, 164, true⟩

/-- The colour `Qt::black`. -/
def QColor.black : QColor := ⟨0, 0, 0, true⟩

/-- A `QRect`, stored as Qt stores it: the two corners, both inclusive. -/
structure QRect where
  x1 : Int
  y1 : Int
  x2 : Int
  y2 : Int
deriving DecidableEq, Repr

namespace QRect

/-- The rectangle `QRect( x, y, w, h )`. -/
def ofSize (x y w h : Int) : QRect := ⟨x, y, x + w - 1, y + h - 1⟩

/-- The default-constructed `QRect()`. -/
def null : QRect := ⟨0, 0, -1, -1⟩

def left (r : QRect) : Int := r.x1
def top (r : QRect) : Int := r.y1
def right (r : QRect) : Int := r.x2
def bottom (r : QRect) : Int := r.y2
def width (r : QRect) : Int := r.x2 - r.x1 + 1
def height (r : QRect) : Int := r.y2 - r.y1 + 1

/-- The test `QRect::isEmpty()`. -/
def isEmpty (r : QRect) : Bool := decide (r.x1 > r.x2) || decide (r.y1 > r.y2)

/-- The rectangle `a.intersect( b )`: the common part, `QRect()` when there is none. -/
def intersect (a b : QRect) : QRect :=
  let t : QRect := ⟨max a.x1 b.x1, max a.y1 b.y1, min a.x2 b.x2, min a.y2 b.y2⟩
  if t.isEmpty then null else t

/-- The test `a.intersects( b )`. -/
def intersects (a b : QRect) : Bool :=
  decide (max a.x1 b.x1 ≤ min a.x2 b.x2) && decide (max a.y1 b.y1 ≤ min a.y2 b.y2)

/-- The rectangle after `translate( dx, dy )`. -/
def translate (r : QRect) (dx dy : Int) : QRect := ⟨r.x1 + dx, r.y1 + dy, r.x2 + dx, r.y2 + dy⟩

/-- The rectangle after `adjust( dx1, dy1, dx2, dy2 )`. -/
def adjust (r : QRect) (dx1 dy1 dx2 dy2 : Int) : QRect :=
  ⟨r.x1 + dx1, r.y1 + dy1, r.x2 + dx2, r.y2 + dy2⟩

end QRect

/-- A `QPixmap`: its size and its pixels (ARGB32 words, row after row). -/
structure QPixmap where
  width : Int
  height : Int
  pixels : List Nat
deriving DecidableEq, Repr

/-- A `QImage`: its size and its pixels (ARGB32 words, row after row). -/
structure QImage where
  width : Int
  height : Int
  pixels : List Nat
deriving DecidableEq, Repr

/-- The image `src->toImage()`. -/
def QPixmap.toImage (p : QPixmap) : QImage := ⟨p.width, p.height, p.pixels⟩

/-- The pixmap `QPixmap::fromImage( image )`. -/
def QPixmap.fromImage (i : QImage) : QPixmap := ⟨i.width, i.height, i.pixels⟩

/-- The test `QPixmap::isNull()`: a pixmap without pixels. -/
def QPixmap.isNull (p : QPixmap) : Bool := decide (p.width ≤ 0) || decide (p.height ≤ 0)

/-! ## Machine arithmetic -/

/-- The value of an `int` expression after reduction to 32 bits (two's complement). -/
def wrapInt32 (i : Int) : Int := (i + 2147483648) % 4294967296 - 2147483648

/-- The value of an `int` converted to `unsigned int`. -/
def toUInt32 (i : Int) : Nat := (i % 4294967296).toNat

/-- The conversion `(int)d` of a double: truncation towards zero. -/
def truncToInt (d : ℚ) : Int := if 0 ≤ d then ⌊d⌋ else ⌈d⌉

/-! ## Step 1: the pixmap of the page -/

/-- The member `KPDFPage::m_pixmaps`, in iteration order. -/
abbrev PixmapMap := List (Int × QPixmap)

/-- The invariant of a `QMap`: keys strictly ascending in iteration order. -/
def KeysAscending (m : PixmapMap) : Prop := (m.map Prod.fst).Pairwise (· < ·)

instance (m : PixmapMap) : Decidable (KeysAscending m) := by
  unfold KeysAscending; infer_instance

/-- The local `distance` of the closest-match loop. -/
def distance (scaledWidth : Int) (pix : QPixmap) : Int :=
  let pixWidth := pix.width
  if pixWidth > scaledWidth then pixWidth - scaledWidth else scaledWidth - pixWidth

/-- One turn of the closest-match loop over the state `(pixmap, minDistance)`. -/
def closestStep (scaledWidth : Int) (st : Option QPixmap × Int) (e : Int × QPixmap) :
    Option QPixmap × Int :=
  if st.2 = -1 ∨ distance scaledWidth e.2 < st.2 then (some e.2, distance scaledWidth e.2) else st

/-- Step 1 of `paintPageOnPainter`: the pixmap stored for `pixID`, else the one
of the closest width, else none (the null pointer). -/
def findPixmap (m : PixmapMap) (pixID scaledWidth : Int) : Option QPixmap :=
  if m.any (fun e => e.1 == pixID) then m.lookup pixID
  else if !m.isEmpty then (m.foldl (closestStep scaledWidth) (none, -1)).1
  else none

/-- Step 1B: the test `pixmapRescaleRatio > 20.0 || pixmapRescaleRatio < 0.25`. -/
def rescaleRatioOutOfRange (scaledWidth pixWidth : Int) : Bool :=
  -- scaledWidth / (double)width: a zero width gives an infinity (NaN for 0/0,
  -- which fails both comparisons)
  if pixWidth = 0 then decide (scaledWidth ≠ 0)
  else
    let pixmapRescaleRatio : ℚ := (scaledWidth : ℚ) / (pixWidth : ℚ)
    decide (pixmapRescaleRatio > 20) || decide (pixmapRescaleRatio < 1 / 4)

/-- The condition of step 1B under which the empty page is drawn. -/
def drawsEmptyPage (pixmap : Option QPixmap) (scaledWidth : Int) : Bool :=
  match pixmap with
  | none => true
  | some pm =>
    let pixmapPixels : Int := pm.width * pm.height
    rescaleRatioOutOfRange scaledWidth pm.width ||
      (decide (scaledWidth ≠ pm.width) && decide (pixmapPixels > 6000000))

/-! ## The page and its objects (`core/page.h`, `core/area.h`, `core/annotations.h`) -/

structure NormalizedPoint where
  x : ℚ
  y : ℚ
deriving DecidableEq

structure NormalizedRect where
  left : ℚ
  top : ℚ
  right : ℚ
  bottom : ℚ
deriving DecidableEq

/-- The list type `NormalizedPath`. -/
abbrev NormalizedPath := List NormalizedPoint

inductive SubType where
  | AText | ALine | AGeom | AHighlight | AStamp | AInk
deriving DecidableEq

inductive TextType where
  | Linked | InPlace
deriving DecidableEq

inductive HighlightType where
  | Highlight | Squiggly | Underline | StrikeOut
deriving DecidableEq

/-- The four corners `points[ 0 .. 3 ]` of a `HighlightAnnotation::Quad`. -/
structure Quad where
  p0 : NormalizedPoint
  p1 : NormalizedPoint
  p2 : NormalizedPoint
  p3 : NormalizedPoint
deriving DecidableEq

/-- The corner `quad.points[ i ]`. -/
def Quad.points (q : Quad) (i : Nat) : NormalizedPoint :=
  match i with
  | 0 => q.p0
  | 1 => q.p1
  | 2 => q.p2
  | _ => q.p3

/-- The member `Annotation::style`. -/
structure Style where
  color : QColor
  width : ℚ
  opacity : ℚ
deriving DecidableEq

/-- The fields each annotation class adds to `Annotation`. -/
inductive AnnotationData where
  | text (textType : TextType) (textIcon : String) (inplaceText : String)
      (inplaceAlign : Int) (textFont : String)
  | line (linePoints : List NormalizedPoint) (lineClosed : Bool)
      (lineLeadingFwdPt : ℚ) (lineLeadingBackPt : ℚ)
  | geom
  | highlight (highlightType : HighlightType) (highlightQuads : List Quad)
  | stamp (stampIconName : String)
  | ink (inkPaths : List (List NormalizedPoint))
deriving DecidableEq

structure Annotation where
  flags : Nat
  boundary : NormalizedRect
  style : Style
  data : AnnotationData
deriving DecidableEq

/-- The virtual `Annotation::subType()`. -/
def Annotation.subType (a : Annotation) : SubType :=
  match a.data with
  | .text _ _ _ _ _ => .AText
  | .line _ _ _ _ => .ALine
  | .geom => .AGeom
  | .highlight _ _ => .AHighlight
  | .stamp _ => .AStamp
  | .ink _ => .AInk

/-- A `HighlightAreaRect`: a colour and its list of rectangles. -/
structure HighlightAreaRect where
  color : QColor
  rects : List NormalizedRect
deriving DecidableEq

inductive ObjectType where
  | Link | Image
deriving DecidableEq

/-- An `ObjectRect`; `region` names the painter path `rect->region()`. -/
structure ObjectRect where
  objectType : ObjectType
  region : Nat
deriving DecidableEq

structure KPDFPage where
  width : ℚ
  height : ℚ
  m_pixmaps : PixmapMap
  m_highlights : List HighlightAreaRect
  m_annotations : List Annotation
  m_rects : List ObjectRect

/-! ## Settings and external declarations -/

inductive RenderMode where
  | Inverted | Paper | Recolor | BlackWhite
deriving DecidableEq

/-- The values read from `KpdfSettings` during a call. -/
structure KpdfSettings where
  changeColors : Bool
  renderMode : RenderMode
  paperColor : QColor
  recolorForeground : QColor
  recolorBackground : QColor
  bWContrast : Int
  bWThreshold : Int
  highlightLinks : Bool
  highlightImages : Bool
  debugDrawAnnotationRect : Bool

inductive IconGroup where
  | NoGroup | User
deriving DecidableEq

inductive RasterOperation where
  | Normal | Multiply
deriving DecidableEq

/-- A path of `agg::path_storage`: the vertices in device units and whether
`close_polygon` was called. -/
structure AggPath where
  vertices : List (ℚ × ℚ)
  closed : Bool
deriving DecidableEq

/-- What `ui/pagepainter.cpp` uses and does not define. -/
structure Extern where
  /-- The enumerator `Annotation::Hidden`. -/
  Hidden : Nat
  /-- The enumerators of `PagePainter::PagePainterFlags`. -/
  Accessibility : Nat
  EnhanceLinks : Nat
  EnhanceImages : Nat
  Highlights : Nat
  Annotations : Nat
  /-- The test `NormalizedRect::intersects( const NormalizedRect * )`. -/
  intersectsRect : NormalizedRect → NormalizedRect → Bool
  /-- The test `NormalizedRect::intersects( l, t, r, b )`. -/
  intersects : NormalizedRect → ℚ → ℚ → ℚ → ℚ → Bool
  /-- The rectangle `NormalizedRect::geometry( xScale, yScale )`. -/
  geometry : NormalizedRect → Int → Int → QRect
  /-- The rectangle `ObjectRect::boundingRect( xScale, yScale )`. -/
  boundingRect : ObjectRect → Int → Int → QRect
  /-- The call `KIconLoader::loadIcon( name, group, size, .. )`: the pixmap and
  whether the path it stored is empty. -/
  loadIcon : String → IconGroup → Int → QPixmap × Bool
  /-- The call `QString::toLower()`. -/
  toLower : String → String
  /-- The call `QImage::invertPixels( QImage::InvertRgb )`. -/
  invertPixels : QImage → QImage
  /-- The call `KImageEffect::flatten( image, ca, cb )`. -/
  flatten : QImage → QColor → QColor → QImage
  /-- The Anti-Grain rendering of a filled path in one colour. -/
  aggFill : QImage → AggPath → QColor → RasterOperation → QImage
  /-- The Anti-Grain rendering of the stroke of a path, of the given width. -/
  aggStroke : QImage → AggPath → ℚ → QColor → RasterOperation → QImage
  /-- The libm functions and constants. -/
  atan2 : ℚ → ℚ → ℚ
  cos : ℚ → ℚ
  sin : ℚ → ℚ
  M_PI : ℚ
  M_PI_2 : ℚ
  /-- The colour `QApplication::palette().color( QPalette::Active, QPalette::Highlight )`. -/
  paletteHighlight : QColor

/-- The test `flags & mask` of a bit mask. -/
def hasFlag (flags mask : Nat) : Bool := (flags &&& mask) != 0

/-! ## Step 2: what to paint -/

/-- The three lists of step 2; `none` is the null pointer. -/
structure Overlays where
  bufferedHighlights : Option (List (QColor × NormalizedRect))
  bufferedAnnotations : Option (List Annotation)
  unbufferedAnnotations : Option (List Annotation)
deriving DecidableEq

/-- Appending to a list that is created on first use. -/
def appendTo {α : Type} (l : Option (List α)) (a : α) : Option (List α) :=
  some (l.getD [] ++ [a])

/-- The normalized limits `nXMin, nYMin, nXMax, nYMax`. -/
def normalizedLimits (scaledWidth scaledHeight : Int) (limits : QRect) : ℚ × ℚ × ℚ × ℚ :=
  ((limits.left : ℚ) / (scaledWidth : ℚ), (limits.top : ℚ) / (scaledHeight : ℚ),
   (limits.right : ℚ) / (scaledWidth : ℚ), (limits.bottom : ℚ) / (scaledHeight : ℚ))

/-- The highlight loop of step 2: every rectangle of every highlight that
intersects the limits, with the colour of its highlight. -/
def collectHighlights (X : Extern) (page : KPDFPage) (n : ℚ × ℚ × ℚ × ℚ) :
    List (QColor × NormalizedRect) :=
  let limitRect : NormalizedRect := ⟨n.1, n.2.1, n.2.2.1, n.2.2.2⟩
  page.m_highlights.foldl
    (fun acc h2 => h2.rects.foldl
      (fun acc r => if X.intersectsRect r limitRect then acc ++ [(h2.color, r)] else acc) acc)
    []

/-- The size `TEXTANNOTATION_ICONSIZE`. -/
def TEXTANNOTATION_ICONSIZE : Int := 24

/-- The local `intersects` of the annotation loop: the boundary, narrowed to
the icon for a linked text annotation. -/
def annotationIntersects (X : Extern) (page : KPDFPage) (n : ℚ × ℚ × ℚ × ℚ)
    (ann : Annotation) : Bool :=
  let intersects := X.intersects ann.boundary n.1 n.2.1 n.2.2.1 n.2.2.2
  match ann.data with
  | .text .Linked _ _ _ _ =>
    let iconrect : NormalizedRect :=
      ⟨ann.boundary.left, ann.boundary.top,
       ann.boundary.left + (TEXTANNOTATION_ICONSIZE : ℚ) / page.width,
       ann.boundary.top + (TEXTANNOTATION_ICONSIZE : ℚ) / page.height⟩
    X.intersects iconrect n.1 n.2.1 n.2.2.1 n.2.2.2
  | _ => intersects

/-- The test selecting the buffered list: a line, a highlight or an ink annotation. -/
def isBufferedType (type : SubType) : Bool :=
  type == .ALine || type == .AHighlight || type == .AInk

/-- One turn of the annotation loop of step 2 over the state
`(bufferedAnnotations, unbufferedAnnotations)`. -/
def classifyStep (X : Extern) (page : KPDFPage) (n : ℚ × ℚ × ℚ × ℚ)
    (st : Option (List Annotation) × Option (List Annotation)) (ann : Annotation) :
    Option (List Annotation) × Option (List Annotation) :=
  if hasFlag ann.flags X.Hidden then st
  else if annotationIntersects X page n ann then
    if isBufferedType ann.subType then (appendTo st.1 ann, st.2)
    else (st.1, appendTo st.2 ann)
  else st

/-- Step 2 of `paintPageOnPainter`: the objects to draw. -/
def findOverlays (X : Extern) (page : KPDFPage) (flags : Nat)
    (scaledWidth scaledHeight : Int) (limits : QRect) : Overlays :=
  let canDrawHighlights := hasFlag flags X.Highlights && !page.m_highlights.isEmpty
  let canDrawAnnotations := hasFlag flags X.Annotations && !page.m_annotations.isEmpty
  if canDrawHighlights || canDrawAnnotations then
    let n := normalizedLimits scaledWidth scaledHeight limits
    let bufferedHighlights :=
      if canDrawHighlights then some (collectHighlights X page n) else none
    let lists : Option (List Annotation) × Option (List Annotation) :=
      if canDrawAnnotations then page.m_annotations.foldl (classifyStep X page n) (none, none)
      else (none, none)
    ⟨bufferedHighlights, lists.1, lists.2⟩
  else ⟨none, none, none⟩

/-- Step 3: the local `bufferAccessibility`. -/
def bufferAccessibility (X : Extern) (S : KpdfSettings) (flags : Nat) : Bool :=
  hasFlag flags X.Accessibility && S.changeColors && (S.renderMode != RenderMode.Paper)

/-- Step 3: the local `useBackBuffer`. -/
def useBackBuffer (X : Extern) (S : KpdfSettings) (flags : Nat) (o : Overlays) : Bool :=
  bufferAccessibility X S flags || o.bufferedHighlights.isSome || o.bufferedAnnotations.isSome

/-! ## Pixels (`qrgb.h`) -/

/-- The channel `qRed( rgb )`, bits 16 to 23. -/
def qRed (rgb : Nat) : Int := ((rgb / 65536 % 256 : Nat) : Int)

/-- The channel `qGreen( rgb )`, bits 8 to 15. -/
def qGreen (rgb : Nat) : Int := ((rgb / 256 % 256 : Nat) : Int)

/-- The channel `qBlue( rgb )`, bits 0 to 7. -/
def qBlue (rgb : Nat) : Int := ((rgb % 256 : Nat) : Int)

/-- The channel `qAlpha( rgb )`, bits 24 to 31. -/
def qAlpha (rgb : Nat) : Int := ((rgb / 16777216 % 256 : Nat) : Int)

/-- The word `qRgba( r, g, b, a )`: each argument masked with `0xff`. -/
def qRgba (r g b a : Int) : Nat :=
  (a % 256).toNat * 16777216 + (r % 256).toNat * 65536 + (g % 256).toNat * 256 + (b % 256).toNat

/-- The gray value `qGray( rgb )`. -/
def qGray (rgb : Nat) : Int := (qRed rgb * 11 + qGreen rgb * 16 + qBlue rgb * 5) / 32

/-- The integers `lo, lo + 1, .., hi` a `for` loop runs through. -/
def intRange (lo hi : Int) : List Int :=
  (List.range (hi - lo + 1).toNat).map (fun (k : Nat) => lo + (k : Int))

/-- The write `data[ i ] = f( data[ i ] )`. -/
def updatePixel (data : List Nat) (i : Int) (f : Nat → Nat) : List Nat :=
  if 0 ≤ i then data.modify f i.toNat else data

/-- The new image `QImage( w, h )` after `fill( color )`. -/
def QImage.filled (w h : Int) (color : Nat) : QImage :=
  ⟨w, h, List.replicate (w * h).toNat color⟩

/-! ## Private helpers: pixmap conversion -/

/-- The pixel of a pixmap at column `x` and row `y`; 0 where the pixmap has none. -/
def QPixmap.pixelAt (src : QPixmap) (x y : Int) : Nat :=
  if 0 ≤ x ∧ x < src.width ∧ 0 ≤ y ∧ y < src.height then
    src.pixels.getD (y * src.width + x).toNat 0
  else 0

/-- The helper `PagePainter::cropPixmapOnImage`: the whole pixmap converted at
once, or the portion `r` of it painted on a pixmap of the size of `r`. -/
def cropPixmapOnImage (src : QPixmap) (r : QRect) : QImage :=
  if r = QRect.ofSize 0 0 src.width src.height then src.toImage
  else
    ⟨r.width, r.height,
      ((List.range r.height.toNat).map (fun (y : Nat) =>
        (List.range r.width.toNat).map (fun (x : Nat) =>
          src.pixelAt (r.left + (x : Int)) (r.top + (y : Int))))).flatten⟩

/-- The lookup table `xOffset` of `scalePixmapOnImage`. -/
def scaleXOffset (srcWidth scaledWidth destLeft destWidth : Int) : List Nat :=
  (List.range destWidth.toNat).map (fun (x : Nat) =>
    toUInt32 (Int.tdiv (wrapInt32 (((x : Int) + destLeft) * srcWidth)) scaledWidth))

/-- The local `srcOffset` of `scalePixmapOnImage` for the row `y`. -/
def scaleSrcOffset (srcWidth srcHeight scaledHeight destTop : Int) (y : Nat) : Nat :=
  toUInt32 (srcWidth * Int.tdiv (wrapInt32 ((destTop + (y : Int)) * srcHeight)) scaledHeight)

/-- The helper `PagePainter::scalePixmapOnImage`, as a total function: a read
at an index outside `srcData` is given the value 0 (see
`scalePixmapOnImageChecked` for the function with that failure explicit). -/
def scalePixmapOnImage (src : QPixmap) (scaledWidth scaledHeight : Int) (cropRect : QRect) :
    QImage :=
  let srcWidth := src.width
  let srcHeight := src.height
  let destLeft := cropRect.left
  let destTop := cropRect.top
  let destWidth := cropRect.width
  let destHeight := cropRect.height
  let srcData := src.toImage.pixels
  let xOffset := scaleXOffset srcWidth scaledWidth destLeft destWidth
  ⟨destWidth, destHeight,
    ((List.range destHeight.toNat).map (fun y =>
      let srcOffset := scaleSrcOffset srcWidth srcHeight scaledHeight destTop y
      xOffset.map (fun xo => srcData.getD ((srcOffset + xo) % 4294967296) 0))).flatten⟩

/-- The indices `srcOffset + xOffset[x]` at which `scalePixmapOnImage` reads
`srcData`, in the order of its two loops (`unsigned int` sums). -/
def scaleReadIndices (srcWidth srcHeight scaledWidth scaledHeight : Int) (cropRect : QRect) :
    List Nat :=
  let xOffset := scaleXOffset srcWidth scaledWidth cropRect.left cropRect.width
  ((List.range cropRect.height.toNat).map (fun (y : Nat) =>
    let srcOffset := scaleSrcOffset srcWidth srcHeight scaledHeight cropRect.top y
    xOffset.map (fun xo => (srcOffset + xo) % 4294967296))).flatten

/-- The helper `PagePainter::scalePixmapOnImage` with its failures explicit: no
image when a loop divides by a zero `scaledWidth` or `scaledHeight`, and no
image when one of the reads `srcData[ srcOffset + xOffset[x] ]` falls outside
the pixels of the source (the read is out of bounds and the behaviour is
undefined); otherwise the image of `scalePixmapOnImage`. -/
def scalePixmapOnImageChecked (src : QPixmap) (scaledWidth scaledHeight : Int)
    (cropRect : QRect) : Option QImage :=
  if (0 < cropRect.width ∧ scaledWidth = 0) ∨ (0 < cropRect.height ∧ scaledHeight = 0) then
    none
  else if (scaleReadIndices src.width src.height scaledWidth scaledHeight cropRect).all
      (fun i => decide (i < src.toImage.pixels.length)) then
    some (scalePixmapOnImage src scaledWidth scaledHeight cropRect)
  else none

/-! ## Private helpers: image drawing -/

/-- The inline `qt_div_255`; the shifts are arithmetic. -/
def qt_div_255 (x : Int) : Int := (x + x / 256 + 128) / 256

/-- The body of the loop of `changeImageAlpha` for one pixel. -/
def changeAlphaPixel (destAlpha : Int) (source : Nat) : Nat :=
  let sourceAlpha := qAlpha source
  if sourceAlpha = 255 then qRgba (qRed source) (qGreen source) (qBlue source) destAlpha
  else
    let sourceAlpha := qt_div_255 (destAlpha * sourceAlpha)
    qRgba (qRed source) (qGreen source) (qBlue source) sourceAlpha

/-- The first `width * height` pixels of an image rewritten by `f`. -/
def QImage.mapPixels (image : QImage) (f : Nat → Nat) : QImage :=
  let pixels := (image.width * image.height).toNat
  { image with pixels := (image.pixels.take pixels).map f ++ image.pixels.drop pixels }

/-- The helper `PagePainter::changeImageAlpha`. -/
def changeImageAlpha (image : QImage) (destAlpha : Int) : QImage :=
  image.mapPixels (changeAlphaPixel destAlpha)

/-- The body of the loop of `colorizeImage` for one pixel. -/
def colorizePixel (color : QColor) (destAlpha : Int) (source : Nat) : Nat :=
  let red := color.red
  let green := color.green
  let blue := color.blue
  let sourceSat := qRed source
  let newR := qt_div_255 (sourceSat * red)
  let newG := qt_div_255 (sourceSat * green)
  let newB := qt_div_255 (sourceSat * blue)
  let sourceAlpha := qAlpha source
  if sourceAlpha = 255 then qRgba newR newG newB destAlpha
  else
    let sourceAlpha := if destAlpha < 255 then qt_div_255 (destAlpha * sourceAlpha) else sourceAlpha
    qRgba newR newG newB sourceAlpha

/-- The helper `PagePainter::colorizeImage`. -/
def colorizeImage (grayImage : QImage) (color : QColor) (destAlpha : Int) : QImage :=
  grayImage.mapPixels (colorizePixel color destAlpha)

/-- A `QPen`: its colour and its width as given to the constructor. -/
structure QPen where
  color : QColor
  widthF : ℚ
deriving DecidableEq

/-- The default-constructed `QPen()`: black, of width 0. -/
def QPen.default : QPen := ⟨QColor.black, 0⟩

/-- The accessor `QPen::width()`: the width rounded to an `int`. -/
def QPen.width (pen : QPen) : Int := ⌊pen.widthF + 1 / 2⌋

/-- A `QBrush`: `none` is the default-constructed brush (`Qt::NoBrush`), `some c`
the solid brush a colour converts to. -/
abbrev QBrush := Option QColor

/-- The helper `PagePainter::drawShapeOnImage`. -/
def drawShapeOnImage (X : Extern) (image : QImage) (normPath : NormalizedPath)
    (closeShape : Bool) (pen : QPen) (brush : QBrush) (penWidthMultiplier : ℚ)
    (op : RasterOperation) : QImage :=
  -- safety checks
  let pointsNumber := normPath.length
  if pointsNumber < 2 then image
  else
    let fImageWidth : ℚ := (image.width : ℚ)
    let fImageHeight : ℚ := (image.height : ℚ)
    -- create a 'path'
    let path : AggPath :=
      ⟨normPath.map (fun p => (p.x * fImageWidth, p.y * fImageHeight)), closeShape⟩
    -- fill rect
    let image := match brush with
      | some brushColor => X.aggFill image path brushColor op
      | none => image
    -- stroke outline
    let penWidth : ℚ := (pen.width : ℚ) * penWidthMultiplier
    if penWidth > 1 / 10 then X.aggStroke image path penWidth pen.color op
    else image

/-! ## Step 1B: the empty page -/

/-- A call on a `QPainter`. -/
inductive PainterOp where
  | fillRect (r : QRect) (color : QColor)
  | drawPixmap (x y : Int) (pixmap : QPixmap)
  | drawPixmapRect (x y : Int) (pixmap : QPixmap) (sourceRect : QRect)
  | drawImage (x y : Int) (image : QImage)
  | drawImageRect (x y : Int) (image : QImage) (sx sy sw sh : Int)
  /-- The image of an in-place text annotation: an image of size `bigW x bigH`
  filled with `fill`, the text drawn on it, scaled to `w x h`, framed before
  (`bigger = false`) or after (`bigger = true`) the scaling. -/
  | drawInplaceText (x y : Int) (bigW bigH : Int) (fill : Nat) (textFont : String)
      (inplaceAlign : Int) (inplaceText : String) (bigger : Bool) (w h : Int)
  | setPen (color : QColor)
  | drawLine (x1 y1 x2 y2 : Int)
  | drawRect (r : QRect)
  | translate (dx dy : Int)
  | save
  | scale (sx sy : Int)
  | strokePath (region : Nat) (pen : QPen)
  | restore
deriving DecidableEq

/-- A call on the destination painter: a plain call, or the copy of step 7 of
the back pixmap, made from `backImage` and painted on by `painted`. -/
inductive DestOp where
  | paint (op : PainterOp)
  | drawBackPixmap (x y : Int) (backImage : QImage) (painted : List PainterOp)
deriving DecidableEq

/-- The global `busyPixmap` after the lazy load of step 1B. -/
def loadBusyPixmap (X : Extern) (busyPixmap : Option QPixmap) : QPixmap :=
  match busyPixmap with
  | some pm => pm
  | none => (X.loadIcon "okular" IconGroup.NoGroup 32).1

/-- Step 1B of `paintPageOnPainter`: the calls that draw the empty page. -/
def paintEmptyPage (X : Extern) (S : KpdfSettings) (busyPixmap : Option QPixmap)
    (scaledWidth scaledHeight : Int) (limits : QRect) : List PainterOp :=
  let fill :=
    if S.changeColors && (S.renderMode == RenderMode.Paper) then
      PainterOp.fillRect limits S.paperColor
    else PainterOp.fillRect limits QColor.white
  let busy := loadBusyPixmap X busyPixmap
  -- draw something on the blank page: the okular icon or a cross (as a fallback)
  if !busy.isNull then [fill, PainterOp.drawPixmap 10 10 busy]
  else
    [fill, PainterOp.setPen QColor.gray,
     PainterOp.drawLine 0 0 (scaledWidth - 1) (scaledHeight - 1),
     PainterOp.drawLine 0 (scaledHeight - 1) (scaledWidth - 1) 0]

/-! ## Step 4A: the regular flow -/

/-- Step 4A.1: the page pixmap drawn with the given painter, normal or rescaled. -/
def paintPixmapDirect (pixmap : QPixmap) (scaledWidth scaledHeight : Int) (limits : QRect) :
    List PainterOp :=
  if pixmap.width = scaledWidth ∧ pixmap.height = scaledHeight then
    [PainterOp.drawPixmapRect limits.left limits.top pixmap limits]
  else
    let destImage := scalePixmapOnImage pixmap scaledWidth scaledHeight limits
    [PainterOp.drawImageRect limits.left limits.top destImage 0 0 limits.width limits.height]

/-! ## Step 4B: the buffered flow -/

/-- Step 4B.1: the image over which the buffered flow draws. -/
def initialBackImage (pixmap : QPixmap) (scaledWidth scaledHeight : Int) (limits : QRect) :
    QImage :=
  if pixmap.width = scaledWidth ∧ pixmap.height = scaledHeight then
    cropPixmapOnImage pixmap limits
  else scalePixmapOnImage pixmap scaledWidth scaledHeight limits

/-- The remapping of one gray value in the `BlackWhite` render mode.  The
product `con * ( val - thr )` of two `int`s is reduced to 32 bits; for a gray
value and a `thr` in 0..255 the other products stay below 2^15. -/
def blackWhiteValue (con thr : Int) (gray : Int) : Int :=
  let val := gray
  let val :=
    if val > thr then 128 + Int.tdiv (127 * (val - thr)) (255 - thr)
    else if val < thr then Int.tdiv (128 * val) thr
    else val
  if con > 2 then
    let val := Int.tdiv (wrapInt32 (con * (val - thr))) 2 + thr
    if val > 255 then 255 else if val < 0 then 0 else val
  else val

/-- The body of the `BlackWhite` loop for one pixel. -/
def blackWhitePixel (con thr : Int) (source : Nat) : Nat :=
  let val := blackWhiteValue con thr (qGray source)
  qRgba val val val 255

/-- Step 4B.2: the pixmap modified following the accessibility settings. -/
def applyAccessibility (X : Extern) (S : KpdfSettings) (backImage : QImage) : QImage :=
  match S.renderMode with
  | .Inverted => X.invertPixels backImage
  | .Recolor => X.flatten backImage S.recolorForeground S.recolorBackground
  | .BlackWhite =>
    let con := S.bWContrast
    let thr := 255 - S.bWThreshold
    backImage.mapPixels (blackWhitePixel con thr)
  | .Paper => backImage

/-- The highlight composition of one pixel: highlight colour * destination colour. -/
def highlightPixel (rh gh bh : Int) (val : Nat) : Nat :=
  let newR := Int.tdiv (qRed val * rh) 255
  let newG := Int.tdiv (qGreen val * gh) 255
  let newB := Int.tdiv (qBlue val * bh) 255
  qRgba newR newG newB 255

/-- The two nested loops of step 4B.3 over the rows and columns of `highlightRect`. -/
def highlightRectOnImage (backImage : QImage) (highlightRect : QRect) (rh gh bh : Int) :
    QImage :=
  let data := (intRange highlightRect.top highlightRect.bottom).foldl
    (fun data y =>
      let offset := y * backImage.width
      (intRange highlightRect.left highlightRect.right).foldl
        (fun data x => updatePixel data (x + offset) (highlightPixel rh gh bh)) data)
    backImage.pixels
  { backImage with pixels := data }

/-- Step 4B.3: the highlight rects of the page, composed on the image. -/
def paintHighlights (X : Extern) (bufferedHighlights : List (QColor × NormalizedRect))
    (scaledWidth scaledHeight : Int) (limits : QRect) (backImage : QImage) : QImage :=
  bufferedHighlights.foldl
    (fun backImage h =>
      let r := h.2
      -- find out the rect to highlight on pixmap
      let highlightRect :=
        ((X.geometry r scaledWidth scaledHeight).intersect limits).translate
          (-limits.left) (-limits.top)
      highlightRectOnImage backImage highlightRect h.1.red h.1.green h.1.blue)
    backImage

/-- The constants normalizing page points to the image:
`xOffset, xScale, yOffset, yScale`. -/
structure ImageFrame where
  xOffset : ℚ
  xScale : ℚ
  yOffset : ℚ
  yScale : ℚ

/-- The precalculated constants of step 4B.4. -/
def imageFrame (scaledWidth scaledHeight : Int) (limits : QRect) : ImageFrame :=
  ⟨(limits.left : ℚ) / (scaledWidth : ℚ), (scaledWidth : ℚ) / (limits.width : ℚ),
   (limits.top : ℚ) / (scaledHeight : ℚ), (scaledHeight : ℚ) / (limits.height : ℚ)⟩

/-- A page point normalized to the image. -/
def ImageFrame.normalize (f : ImageFrame) (p : NormalizedPoint) : NormalizedPoint :=
  ⟨(p.x - f.xOffset) * f.xScale, (p.y - f.yOffset) * f.yScale⟩

/-- The default value of the parameter `op` of `drawShapeOnImage`. -/
def defaultRasterOperation : RasterOperation := RasterOperation.Normal

/-- The drawing of a line annotation. -/
def drawLineAnnotation (X : Extern) (page : KPDFPage) (f : ImageFrame) (pageScale : ℚ)
    (a : Annotation) (linePoints : List NormalizedPoint) (lineClosed : Bool)
    (lineLeadingFwdPt lineLeadingBackPt : ℚ) (backImage : QImage) : QImage :=
  let path : NormalizedPath := linePoints.map f.normalize
  let pen : QPen := ⟨a.style.color, a.style.width⟩
  -- draw the line as normalized path into image
  let backImage := drawShapeOnImage X backImage path lineClosed pen none pageScale .Multiply
  match path, linePoints.head?, linePoints.getLast? with
  | [path0, path1], some first, some last =>
    if |lineLeadingFwdPt| > 1 / 10 then
      let delta : NormalizedPoint := ⟨last.x - first.x, first.y - last.y⟩
      let angle := X.atan2 delta.y delta.x
      let angle := if delta.y < 0 then angle + 2 * X.M_PI else angle
      let sign : ℚ := if lineLeadingFwdPt > 0 then 1 else -1
      let LLx := |lineLeadingFwdPt| * X.cos (angle + sign * X.M_PI_2 + 2 * X.M_PI) / page.width
      let LLy := |lineLeadingFwdPt| * X.sin (angle + sign * X.M_PI_2 + 2 * X.M_PI) / page.height
      let start2 : NormalizedPoint :=
        ⟨(first.x + LLx - f.xOffset) * f.xScale, (first.y - LLy - f.yOffset) * f.yScale⟩
      let start3 : NormalizedPoint :=
        ⟨(last.x + LLx - f.xOffset) * f.xScale, (last.y - LLy - f.yOffset) * f.yScale⟩
      -- do we have the extension on the "back"?
      let ends : NormalizedPoint × NormalizedPoint :=
        if |lineLeadingBackPt| > 1 / 10 then
          let LLEx :=
            lineLeadingBackPt * X.cos (angle - sign * X.M_PI_2 + 2 * X.M_PI) / page.width
          let LLEy :=
            lineLeadingBackPt * X.sin (angle - sign * X.M_PI_2 + 2 * X.M_PI) / page.height
          (⟨(first.x + LLEx - f.xOffset) * f.xScale, (first.y - LLEy - f.yOffset) * f.yScale⟩,
           ⟨(last.x + LLEx - f.xOffset) * f.xScale, (last.y - LLEy - f.yOffset) * f.yScale⟩)
        else (path0, path1)
      let path2 : NormalizedPath := [start2, ends.1]
      let path3 : NormalizedPath := [start3, ends.2]
      let backImage := drawShapeOnImage X backImage path2 false pen none pageScale .Multiply
      drawShapeOnImage X backImage path3 false pen none pageScale .Multiply
    else backImage
  | _, _, _ => backImage

/-- The drawing of one quad of a highlight annotation. -/
def drawHighlightQuad (X : Extern) (f : ImageFrame) (pageScale : ℚ) (a : Annotation)
    (type : HighlightType) (backImage : QImage) (quad : Quad) : QImage :=
  -- normalize page point to image
  let q0 := f.normalize (quad.points 0)
  let q1 := f.normalize (quad.points 1)
  let q2 := f.normalize (quad.points 2)
  let q3 := f.normalize (quad.points 3)
  match type with
  -- highlight the whole rect
  | .Highlight =>
    drawShapeOnImage X backImage [q0, q1, q2, q3] true QPen.default (some a.style.color)
      pageScale .Multiply
  -- highlight the bottom part of the rect
  | .Squiggly =>
    let r0 : NormalizedPoint := ⟨(q0.x + q3.x) / 2, (q0.y + q3.y) / 2⟩
    let r1 : NormalizedPoint := ⟨(q1.x + q2.x) / 2, (q1.y + q2.y) / 2⟩
    drawShapeOnImage X backImage [r0, r1, q2, q3] true QPen.default (some a.style.color)
      pageScale .Multiply
  -- make a line at 3/4 of the height
  | .Underline =>
    let r0 : NormalizedPoint := ⟨(q0.x + 3 * q3.x) / 4, (q0.y + 3 * q3.y) / 4⟩
    let r1 : NormalizedPoint := ⟨(q1.x + 3 * q2.x) / 4, (q1.y + 3 * q2.y) / 4⟩
    drawShapeOnImage X backImage [r0, r1] false ⟨a.style.color, 2⟩ none pageScale
      defaultRasterOperation
  -- make a line at 1/2 of the height
  | .StrikeOut =>
    let r0 : NormalizedPoint := ⟨(q0.x + q3.x) / 2, (q0.y + q3.y) / 2⟩
    let r1 : NormalizedPoint := ⟨(q1.x + q2.x) / 2, (q1.y + q2.y) / 2⟩
    drawShapeOnImage X backImage [r0, r1] false ⟨a.style.color, 2⟩ none pageScale
      defaultRasterOperation

/-- The body of the loop of step 4B.4: one composited annotation drawn on the image. -/
def bufferedAnnotationBody (X : Extern) (page : KPDFPage) (f : ImageFrame) (pageScale : ℚ)
    (backImage : QImage) (a : Annotation) : QImage :=
  match a.data with
  | .line linePoints lineClosed lineLeadingFwdPt lineLeadingBackPt =>
    drawLineAnnotation X page f pageScale a linePoints lineClosed lineLeadingFwdPt
      lineLeadingBackPt backImage
  | .geom => backImage
  | .highlight type highlightQuads =>
    highlightQuads.foldl (drawHighlightQuad X f pageScale a type) backImage
  | .ink inkPaths =>
    inkPaths.foldl
      (fun backImage inkPath =>
        drawShapeOnImage X backImage (inkPath.map f.normalize) false
          ⟨a.style.color, a.style.width⟩ none pageScale defaultRasterOperation)
      backImage
  | _ => backImage

/-- Step 4B.4: the composited annotations painted on the image. -/
def paintBufferedAnnotations (X : Extern) (page : KPDFPage)
    (bufferedAnnotations : List Annotation) (scaledWidth scaledHeight : Int) (limits : QRect)
    (backImage : QImage) : QImage :=
  let pageScale : ℚ := (scaledWidth : ℚ) / page.width
  let f := imageFrame scaledWidth scaledHeight limits
  bufferedAnnotations.foldl (bufferedAnnotationBody X page f pageScale) backImage

/-- Step 4B.2, under its guard `if ( bufferAccessibility )`. -/
def accessibilityStage (X : Extern) (S : KpdfSettings) (flags : Nat) (backImage : QImage) :
    QImage :=
  if bufferAccessibility X S flags then applyAccessibility X S backImage else backImage

/-- Step 4B.3, under its guard `if ( bufferedHighlights )`. -/
def highlightStage (X : Extern) (o : Overlays) (scaledWidth scaledHeight : Int)
    (limits : QRect) (backImage : QImage) : QImage :=
  match o.bufferedHighlights with
  | some hs => paintHighlights X hs scaledWidth scaledHeight limits backImage
  | none => backImage

/-- Step 4B.4, under its guard `if ( bufferedAnnotations )`. -/
def annotationStage (X : Extern) (page : KPDFPage) (o : Overlays)
    (scaledWidth scaledHeight : Int) (limits : QRect) (backImage : QImage) : QImage :=
  match o.bufferedAnnotations with
  | some as => paintBufferedAnnotations X page as scaledWidth scaledHeight limits backImage
  | none => backImage

/-- Steps 4B.1 to 4B.4: the image the back pixmap is made from. -/
def buildBackImage (X : Extern) (S : KpdfSettings) (page : KPDFPage) (pixmap : QPixmap)
    (flags : Nat) (o : Overlays) (scaledWidth scaledHeight : Int) (limits : QRect) : QImage :=
  -- 4B.1. draw the page pixmap: normal or scaled
  let backImage := initialBackImage pixmap scaledWidth scaledHeight limits
  -- 4B.2. modify pixmap following accessibility settings
  let backImage := accessibilityStage X S flags backImage
  -- 4B.3. highlight rects in page
  let backImage := highlightStage X o scaledWidth scaledHeight limits backImage
  -- 4B.4. paint annotations [COMPOSITED ONES]
  annotationStage X page o scaledWidth scaledHeight limits backImage

/-! ## Step 5: the opaque annotations, on the active painter -/

/-- The local `opacity`: `(unsigned int)( 255.0 * a->style.opacity )`. -/
def annotationOpacity (a : Annotation) : Int := ((truncToInt (255 * a.style.opacity)).toNat : Int)

/-- The icon of a linked text or stamp annotation: the user icon, else the one
of no group. -/
def loadAnnotationIcon (X : Extern) (name : String) (size : Int) : QPixmap :=
  let r := X.loadIcon (X.toLower name) IconGroup.User size
  if r.2 then (X.loadIcon (X.toLower name) IconGroup.NoGroup size).1 else r.1

/-- The rectangle `innerRect`: `annotRect` relative to `annotBoundary`. -/
def innerRectOf (annotRect annotBoundary : QRect) : QRect :=
  QRect.ofSize (annotRect.left - annotBoundary.left) (annotRect.top - annotBoundary.top)
    annotRect.width annotRect.height

/-- The body of the loop of step 5: the calls one annotation of the unbuffered
list causes on the active painter, whose device is `deviceWidth` wide. -/
def unbufferedAnnotationBody (X : Extern) (S : KpdfSettings) (page : KPDFPage)
    (deviceWidth scaledWidth scaledHeight : Int) (limits : QRect) (a : Annotation) :
    List PainterOp :=
  -- honour opacity settings on supported types
  let opacity := annotationOpacity a
  if opacity ≤ 0 then []
  else
    -- get annotation boundary and drawn rect
    let annotBoundary := X.geometry a.boundary scaledWidth scaledHeight
    let annotRect := annotBoundary.intersect limits
    let innerRect := innerRectOf annotRect annotBoundary
    let drawn : List PainterOp :=
      match a.data with
      -- draw TextAnnotation
      | .text .InPlace _ inplaceText inplaceAlign textFont =>
        let bigRect := X.geometry a.boundary (truncToInt page.width) (truncToInt page.height)
        let bigger : Bool := decide ((deviceWidth : ℚ) > page.width)
        let fill := qRgba a.style.color.red a.style.color.green a.style.color.blue 255
        [PainterOp.drawInplaceText annotBoundary.left annotBoundary.top bigRect.width
          bigRect.height fill textFont inplaceAlign inplaceText bigger annotBoundary.width
          annotBoundary.height]
      | .text .Linked textIcon _ _ _ =>
        -- get pixmap, colorize and alpha-blend it
        let pixmap := loadAnnotationIcon X textIcon 32
        let annotBoundary2 := QRect.ofSize annotBoundary.left annotBoundary.top
          TEXTANNOTATION_ICONSIZE TEXTANNOTATION_ICONSIZE
        let annotRect2 := annotBoundary2.intersect limits
        let innerRect2 := innerRectOf annotRect2 annotBoundary2
        let scaledImage := scalePixmapOnImage pixmap TEXTANNOTATION_ICONSIZE
          TEXTANNOTATION_ICONSIZE innerRect2
        let scaledImage :=
          if a.style.color.isValid then colorizeImage scaledImage a.style.color opacity
          else scaledImage
        -- draw the mangled image to painter
        [PainterOp.drawPixmap annotRect.left annotRect.top (QPixmap.fromImage scaledImage)]
      -- draw StampAnnotation
      | .stamp stampIconName =>
        -- get pixmap and alpha blend it if needed
        let pixmap := loadAnnotationIcon X stampIconName
          (min annotBoundary.width annotBoundary.height)
        let scaledImage := scalePixmapOnImage pixmap annotBoundary.width annotBoundary.height
          innerRect
        let scaledImage :=
          if opacity < 255 then changeImageAlpha scaledImage opacity else scaledImage
        [PainterOp.drawPixmap annotRect.left annotRect.top (QPixmap.fromImage scaledImage)]
      -- draw GeomAnnotation
      | _ =>
        let c := a.style.color
        let color := qRgba c.red c.green c.blue opacity
        let rectImage := QImage.filled innerRect.width innerRect.height color
        [PainterOp.drawImage annotRect.left annotRect.top rectImage]
    -- draw extents rectangle
    if S.debugDrawAnnotationRect then
      drawn ++ [PainterOp.setPen a.style.color, PainterOp.drawRect annotBoundary]
    else drawn

/-- Step 5 of `paintPageOnPainter`. -/
def paintUnbufferedAnnotations (X : Extern) (S : KpdfSettings) (page : KPDFPage)
    (deviceWidth scaledWidth scaledHeight : Int) (limits : QRect)
    (unbufferedAnnotations : Option (List Annotation)) : List PainterOp :=
  match unbufferedAnnotations with
  | some as =>
    as.foldl
      (fun ops a =>
        ops ++ unbufferedAnnotationBody X S page deviceWidth scaledWidth scaledHeight limits a)
      []
  | none => []

/-! ## Step 6: the borders of links and images, on the active painter -/

/-- Step 6 of `paintPageOnPainter`. -/
def paintBorders (X : Extern) (S : KpdfSettings) (page : KPDFPage) (flags : Nat)
    (scaledWidth scaledHeight : Int) (limits : QRect) : List PainterOp :=
  let enhanceLinks := hasFlag flags X.EnhanceLinks && S.highlightLinks
  let enhanceImages := hasFlag flags X.EnhanceImages && S.highlightImages
  if enhanceLinks || enhanceImages then
    let normalColor := X.paletteHighlight
    -- enlarging limits for intersection is like growing the 'rectGeometry' below
    let limitsEnlarged := limits.adjust (-2) (-2) 2 2
    -- draw rects that are inside the 'limits' paint region as opaque rects
    let strokes := page.m_rects.foldl
      (fun ops rect =>
        if (enhanceLinks && (rect.objectType == ObjectType.Link)) ||
           (enhanceImages && (rect.objectType == ObjectType.Image)) then
          if limitsEnlarged.intersects (X.boundingRect rect scaledWidth scaledHeight) then
            ops ++ [PainterOp.strokePath rect.region ⟨normalColor, 0⟩]
          else ops
        else ops)
      []
    [PainterOp.save, PainterOp.scale scaledWidth scaledHeight] ++ strokes ++ [PainterOp.restore]
  else []

/-! ## The entry point -/

/-- Steps 2 to 7 of `paintPageOnPainter`: the calls on the destination painter
once the pixmap of the page is known. -/
def paintWithPixmap (X : Extern) (S : KpdfSettings) (destDeviceWidth : Int) (page : KPDFPage)
    (pixmap : QPixmap) (flags : Nat) (scaledWidth scaledHeight : Int) (limits : QRect) :
    List DestOp :=
  -- 2 - find out what to paint
  let o := findOverlays X page flags scaledWidth scaledHeight limits
  -- 3 - enable backbuffering if direct image manipulation is needed
  if !useBackBuffer X S flags o then
    -- 4A - regular flow: the active painter is the one passed to this method
    let ops :=
      paintPixmapDirect pixmap scaledWidth scaledHeight limits ++
      paintUnbufferedAnnotations X S page destDeviceWidth scaledWidth scaledHeight limits
        o.unbufferedAnnotations ++
      paintBorders X S page flags scaledWidth scaledHeight limits
    ops.map DestOp.paint
  else
    -- 4B - buffered flow: image painting + operations, a painter over the back pixmap
    let backImage := buildBackImage X S page pixmap flags o scaledWidth scaledHeight limits
    let painted :=
      [PainterOp.translate (-limits.left) (-limits.top)] ++
      paintUnbufferedAnnotations X S page backImage.width scaledWidth scaledHeight limits
        o.unbufferedAnnotations ++
      paintBorders X S page flags scaledWidth scaledHeight limits
    -- 7 - copy the back pixmap on the destination painter
    [DestOp.drawBackPixmap limits.left limits.top backImage painted]

/-- The outcome of a call: the global `busyPixmap` and the calls made on the
destination painter. -/
structure PaintResult where
  busyPixmap : Option QPixmap
  dest : List DestOp
deriving DecidableEq

/-- The function `PagePainter::paintPageOnPainter`; `busyPixmap` is the global of
that name before the call and `destDeviceWidth` the width of the device of
`destPainter`. -/
def paintPageOnPainter (X : Extern) (S : KpdfSettings) (busyPixmap : Option QPixmap)
    (destDeviceWidth : Int) (page : KPDFPage) (pixID : Int) (flags : Nat)
    (scaledWidth scaledHeight : Int) (limits : QRect) : PaintResult :=
  -- 1 - retrieve the 'page+id' pixmap or a similar 'page' one
  let pixmap := findPixmap page.m_pixmaps pixID scaledWidth
  -- 1B - if no pixmap, draw empty page
  if drawsEmptyPage pixmap scaledWidth then
    ⟨some (loadBusyPixmap X busyPixmap),
     (paintEmptyPage X S busyPixmap scaledWidth scaledHeight limits).map DestOp.paint⟩
  else
    match pixmap with
    | some pm =>
      ⟨busyPixmap,
       paintWithPixmap X S destDeviceWidth page pm flags scaledWidth scaledHeight limits⟩
    | none => ⟨busyPixmap, []⟩
/-! ## Specification-side definitions -/

/-- The rejection policy in the words of the specification, for a target width
`s` and a bitmap of width `w` and height `h`: the ratio of target width to
bitmap width exceeds 20 or is below 1/4, or the widths differ and the bitmap
area exceeds 6,000,000. -/
def RejectedBySpec (s w h : Int) : Prop :=
  (s : ℚ) / (w : ℚ) > 20 ∨ (s : ℚ) / (w : ℚ) < 1 / 4 ∨ (s ≠ w ∧ w * h > 6000000)

/-- An annotation that takes part in the painting of the viewport `n`: not
hidden, and its hit-test rectangle intersects the viewport. -/
def isVisibleIn (X : Extern) (page : KPDFPage) (n : ℚ × ℚ × ℚ × ℚ) (a : Annotation) : Bool :=
  !hasFlag a.flags X.Hidden && annotationIntersects X page n a

/-- A list pointer that is null until the first element is appended. -/
def lazyList {α : Type} (l : List α) : Option (List α) :=
  if l.isEmpty then none else some l

/-! ## A reference environment

Concrete values for the declarations `Extern` stands for, on which the
functions above can be evaluated. -/

/-- Modelled from the spec: the test `NormalizedRect::intersects( l, t, r, b )`
of core/area.h, which is not under src: "axis-aligned rectangle overlap in
normalized space". -/
def refIntersects (rect : NormalizedRect) (l t r b : ℚ) : Bool :=
  decide (l ≤ rect.right) && decide (r ≥ rect.left) &&
    decide (t ≤ rect.bottom) && decide (b ≥ rect.top)

/-- Modelled from the spec: the rectangle `NormalizedRect::geometry( xScale, yScale )`
of core/area.h, which is not under src: normalized coordinates are "converted
to device pixels by multiplying by the requested scaled width/height". -/
def refGeometry (rect : NormalizedRect) (xScale yScale : Int) : QRect :=
  let l := truncToInt (rect.left * (xScale : ℚ))
  let t := truncToInt (rect.top * (yScale : ℚ))
  let r := truncToInt (rect.right * (xScale : ℚ))
  let b := truncToInt (rect.bottom * (yScale : ℚ))
  QRect.ofSize l t (r - l + 1) (b - t + 1)

/-- Modelled from the spec: the renderer behind `drawShapeOnImage`, which is not
under src, without anti-aliasing and on the bounding box of the path: "Multiply
mode composites existing destination color times new color", "Normal mode
overwrites". -/
def refAggFill (image : QImage) (path : AggPath) (color : QColor) (op : RasterOperation) :
    QImage :=
  let xs := path.vertices.map Prod.fst
  let ys := path.vertices.map Prod.snd
  let inBox (i : Nat) : Bool :=
    let x : ℚ := (((i : Int) % image.width : Int) : ℚ) + 1 / 2
    let y : ℚ := (((i : Int) / image.width : Int) : ℚ) + 1 / 2
    xs.any (fun v => decide (v ≤ x)) && xs.any (fun v => decide (x ≤ v)) &&
      ys.any (fun v => decide (v ≤ y)) && ys.any (fun v => decide (y ≤ v))
  let blend (p : Nat) : Nat :=
    match op with
    | .Multiply =>
      qRgba (qRed p * color.red / 255) (qGreen p * color.green / 255)
        (qBlue p * color.blue / 255) (qAlpha p)
    | .Normal => qRgba color.red color.green color.blue 255
  { image with
    pixels := (List.range image.pixels.length).zipWith
      (fun i p => if inBox i then blend p else p) image.pixels }

/-- Modelled from the spec: the values `Extern` stands for. The masks are distinct
bits, the geometry helpers are `refIntersects` and `refGeometry`, no icon is
installed, "Invert: complement each RGB channel, alpha untouched", shapes are
rendered by `refAggFill` and strokes are not rendered. -/
def refExtern : Extern where
  Hidden := 1
  Accessibility := 1
  EnhanceLinks := 2
  EnhanceImages := 4
  Highlights := 8
  Annotations := 32
  intersectsRect := fun r l => refIntersects r l.left l.top l.right l.bottom
  intersects := refIntersects
  geometry := refGeometry
  boundingRect := fun _ _ _ => QRect.null
  loadIcon := fun _ _ _ => (⟨0, 0, []⟩, true)
  toLower := fun s => s
  invertPixels := fun image =>
    image.mapPixels (fun p => qRgba (255 - qRed p) (255 - qGreen p) (255 - qBlue p) (qAlpha p))
  flatten := fun image _ _ => image
  aggFill := refAggFill
  aggStroke := fun image _ _ _ _ => image
  atan2 := fun _ _ => 0
  cos := fun _ => 1
  sin := fun _ => 0
  M_PI := 355 / 113
  M_PI_2 := 355 / 226
  paletteHighlight := ⟨0, 0, 128, true⟩

/-- The settings of a fresh configuration: no colour change, no enhancement. -/
def refSettings : KpdfSettings where
  changeColors := false
  renderMode := RenderMode.Inverted
  paperColor := QColor.white
  recolorForeground := QColor.black
  recolorBackground := QColor.white
  bWContrast := 2
  bWThreshold := 127
  highlightLinks := false
  highlightImages := false
  debugDrawAnnotationRect := false

/-- The position and the pixels a call on the destination painter copies there,
for the calls that only copy a pixmap: the source rectangle of a pixmap, or
the back pixmap with nothing painted on it. -/
def DestOp.copied : DestOp → Option (Int × Int × QImage)
  | .paint (.drawPixmapRect x y pixmap sourceRect) =>
    some (x, y, cropPixmapOnImage pixmap sourceRect)
  | .drawBackPixmap x y backImage [.translate _ _] => some (x, y, backImage)
  | _ => none

/-- The page with its list of annotations replaced. -/
def KPDFPage.withAnnotations (page : KPDFPage) (annotations : List Annotation) : KPDFPage :=
  { page with m_annotations := annotations }

/-- The annotation with its opacity replaced. -/
def Annotation.withOpacity (a : Annotation) (opacity : ℚ) : Annotation :=
  { a with style := { a.style with opacity := opacity } }

/-! ## Example data -/

/-- An opaque white pixel. -/
def whitePixel : Nat := 4294967295

/-- A white pixmap of 2 x 2 pixels. -/
def examplePixmap : QPixmap := ⟨2, 2, [whitePixel, whitePixel, whitePixel, whitePixel]⟩

/-- A page of 2 x 2 points with `examplePixmap` stored under id 0. -/
def examplePage (highlights : List HighlightAreaRect) (annotations : List Annotation) :
    KPDFPage :=
  ⟨2, 2, [(0, examplePixmap)], highlights, annotations, []⟩

/-- The whole of a page scaled to 2 x 2 pixels. -/
def wholePage : QRect := QRect.ofSize 0 0 2 2

/-- A white pixmap of 10400 x 500 pixels: at the scaled width 208000 its
rescale ratio is 20 and it holds 5200000 pixels, so step 1B lets it through. -/
def widePixmap : QPixmap := ⟨10400, 500, List.replicate 5200000 whitePixel⟩

/-- A red highlight annotation over the whole page. -/
def redHighlight (flags : Nat) (opacity : ℚ) : Annotation :=
  ⟨flags, ⟨0, 0, 1, 1⟩, ⟨⟨255, 0, 0, true⟩, 1, opacity⟩,
   .highlight .Highlight [⟨⟨0, 0⟩, ⟨1, 0⟩, ⟨1, 1⟩, ⟨0, 1⟩⟩]⟩

/-- A blue geometric annotation over the whole page. -/
def blueSquare (flags : Nat) (opacity : ℚ) : Annotation :=
  ⟨flags, ⟨0, 0, 1, 1⟩, ⟨⟨0, 0, 255, true⟩, 1, opacity⟩, .geom⟩


/-! ## Specification-side definitions for the resampler and the highlights -/

/-- The test `QRect::contains( x, y )`. -/
def QRect.contains (r : QRect) (x y : Int) : Bool :=
  decide (r.x1 ≤ x) && decide (x ≤ r.x2) && decide (r.y1 ≤ y) && decide (y ≤ r.y2)

/-- The rescale in the words of the specification: the image of the size of the
crop window whose pixel at `(x, y)` is the source pixel at column
`floor((x + destLeft) * srcW / scaledW)` and row
`floor((y + destTop) * srcH / scaledH)`, in unbounded integers. -/
def rescaleBySpec (src : QPixmap) (scaledW scaledH : Int) (cropRect : QRect) : QImage :=
  ⟨cropRect.width, cropRect.height,
    ((List.range cropRect.height.toNat).map (fun (y : Nat) =>
      (List.range cropRect.width.toNat).map (fun (x : Nat) =>
        src.pixelAt ((((x : Int) + cropRect.left) * src.width) / scaledW)
          ((((y : Int) + cropRect.top) * src.height) / scaledH)))).flatten⟩

/-- A pixel of a `Format_RGB32` image: a 32-bit word whose alpha byte is 255. -/
def IsOpaquePixel (p : Nat) : Prop := qAlpha p = 255 ∧ p < 4294967296

instance (p : Nat) : Decidable (IsOpaquePixel p) := by
  unfold IsOpaquePixel; infer_instance

/-! ## The remapping with checked divisions -/

/-- The C division `a / b` with its failure made explicit: no value when the
divisor is zero. -/
def checkedDiv (a b : Int) : Option Int :=
  if b = 0 then none else some (Int.tdiv a b)

/-- The remapping of one gray value in the `BlackWhite` render mode, as
`blackWhiteValue`, with every division checked: no value when a division is
reached with a zero divisor. -/
def blackWhiteValueChecked (con thr : Int) (gray : Int) : Option Int :=
  let val := gray
  let remapped : Option Int :=
    if val > thr then (checkedDiv (127 * (val - thr)) (255 - thr)).map (fun q => 128 + q)
    else if val < thr then checkedDiv (128 * val) thr
    else some val
  remapped.bind (fun val =>
    if con > 2 then
      (checkedDiv (wrapInt32 (con * (val - thr))) 2).map (fun q =>
        let val := q + thr
        if val > 255 then 255 else if val < 0 then 0 else val)
    else some val)

/-! # Properties -/

section Selection

theorem distance_nonneg (sw : Int) (p : QPixmap) : 0 ≤ distance sw p := by
  by_cases h : p.width > sw <;> simp [distance, h] <;> omega

theorem distance_eq_abs (sw : Int) (p : QPixmap) : distance sw p = |p.width - sw| := by
  by_cases h : p.width > sw
  · simp only [distance, h, if_true]
    rw [abs_of_pos (by omega)]
  · simp only [distance, h, if_false]
    rw [abs_of_nonpos (by omega)]
    omega

/-- The closest-match loop, started on a state that holds the first closest
entry of what was visited, ends on the first closest entry of the whole. -/
theorem foldl_closestStep (sw : Int) (l : PixmapMap) :
    ∀ (l1 : PixmapMap) (e : Int × QPixmap) (l2 : PixmapMap),
      (∀ x ∈ l1, distance sw e.2 < distance sw x.2) →
      (∀ x ∈ l2, distance sw e.2 ≤ distance sw x.2) →
      ∃ k1 c k2, l1 ++ e :: l2 ++ l = k1 ++ c :: k2 ∧
        l.foldl (closestStep sw) (some e.2, distance sw e.2) = (some c.2, distance sw c.2) ∧
        (∀ x ∈ k1, distance sw c.2 < distance sw x.2) ∧
        (∀ x ∈ k2, distance sw c.2 ≤ distance sw x.2) := by
  induction l with
  | nil =>
    intro l1 e l2 h1 h2
    exact ⟨l1, e, l2, by simp, rfl, h1, h2⟩
  | cons a l ih =>
    intro l1 e l2 h1 h2
    have hd := distance_nonneg sw e.2
    by_cases hlt : distance sw a.2 < distance sw e.2
    · have hstep : closestStep sw (some e.2, distance sw e.2) a = (some a.2, distance sw a.2) := by
        simp [closestStep, hlt]
      obtain ⟨k1, c, k2, hk, hf, hk1, hk2⟩ := ih (l1 ++ e :: l2) a [] (by
        intro x hx
        rcases List.mem_append.1 hx with hx | hx
        · exact lt_trans hlt (h1 x hx)
        · rcases List.mem_cons.1 hx with hx | hx
          · subst hx; exact hlt
          · exact lt_of_lt_of_le hlt (h2 x hx)) (by simp)
      refine ⟨k1, c, k2, ?_, ?_, hk1, hk2⟩
      · rw [← hk]; simp
      · rw [List.foldl_cons, hstep]; exact hf
    · have hstep : closestStep sw (some e.2, distance sw e.2) a = (some e.2, distance sw e.2) := by
        have hne : distance sw e.2 ≠ -1 := by omega
        simp [closestStep, hlt, hne]
      obtain ⟨k1, c, k2, hk, hf, hk1, hk2⟩ := ih l1 e (l2 ++ [a]) h1 (by
        intro x hx
        rcases List.mem_append.1 hx with hx | hx
        · exact h2 x hx
        · simp at hx; subst hx; omega)
      refine ⟨k1, c, k2, ?_, ?_, hk1, hk2⟩
      · rw [← hk]; simp
      · rw [List.foldl_cons, hstep]; exact hf

theorem lookup_of_mem (m : PixmapMap) (hm : KeysAscending m) (pixID : Int) (p : QPixmap)
    (h : (pixID, p) ∈ m) : m.lookup pixID = some p := by
  induction m with
  | nil => simp at h
  | cons a l ih =>
    obtain ⟨k, q⟩ := a
    unfold KeysAscending at hm
    simp only [List.map_cons, List.pairwise_cons] at hm
    rcases List.mem_cons.1 h with h | h
    · cases h
      simp [List.lookup]
    · have hk : k < pixID := hm.1 pixID (List.mem_map.2 ⟨(pixID, p), h, rfl⟩)
      have hne : (pixID == k) = false := by
        rw [beq_eq_false_iff_ne]; omega
      simp only [List.lookup, hne]
      exact ih hm.2 h

theorem any_key_iff (m : PixmapMap) (pixID : Int) :
    m.any (fun e => e.1 == pixID) = true ↔ ∃ p, (pixID, p) ∈ m := by
  simp only [List.any_eq_true, beq_iff_eq]
  constructor
  · rintro ⟨⟨k, p⟩, hmem, hk⟩
    simp only at hk
    subst hk
    exact ⟨p, hmem⟩
  · rintro ⟨p, hp⟩
    exact ⟨(pixID, p), hp, rfl⟩

/-- When the requested id is absent from a non-empty map, the selection is the
first closest entry. -/
theorem findPixmap_of_absent (m : PixmapMap) (pixID scaledWidth : Int)
    (habs : pixID ∉ m.map Prod.fst) (hne : m ≠ []) :
    ∃ l1 e l2, m = l1 ++ e :: l2 ∧ findPixmap m pixID scaledWidth = some e.2 ∧
      (∀ x ∈ l1, distance scaledWidth e.2 < distance scaledWidth x.2) ∧
      (∀ x ∈ l2, distance scaledWidth e.2 ≤ distance scaledWidth x.2) := by
  have hany : m.any (fun e => e.1 == pixID) = false := by
    rw [Bool.eq_false_iff]
    intro h
    obtain ⟨p, hp⟩ := (any_key_iff m pixID).1 h
    exact habs (List.mem_map.2 ⟨(pixID, p), hp, rfl⟩)
  cases m with
  | nil => exact absurd rfl hne
  | cons a l =>
    have hstep : closestStep scaledWidth (none, -1) a = (some a.2, distance scaledWidth a.2) := by
      simp [closestStep]
    obtain ⟨k1, c, k2, hk, hf, hk1, hk2⟩ :=
      foldl_closestStep scaledWidth l [] a [] (by simp) (by simp)
    refine ⟨k1, c, k2, ?_, ?_, hk1, hk2⟩
    · rw [← hk]; simp
    · simp only [findPixmap, hany, List.isEmpty_cons, List.foldl_cons, hstep, hf]
      simp

/-- C1: bitmap selection. In a map with ascending keys, the pixmap stored under
the requested id is selected when there is one, whatever its width; otherwise,
in a non-empty map, the selected pixmap is the first entry in iteration order
whose |width - scaledWidth| is minimal (strictly smaller than for every entry
before it, at most what it is for every entry after it); in an empty map
nothing is selected. -/
theorem findPixmap_selects (m : PixmapMap) (pixID scaledWidth : Int) (hm : KeysAscending m) :
    (∀ p, (pixID, p) ∈ m → findPixmap m pixID scaledWidth = some p) ∧
    (pixID ∉ m.map Prod.fst → m ≠ [] →
      ∃ l1 e l2, m = l1 ++ e :: l2 ∧ findPixmap m pixID scaledWidth = some e.2 ∧
        (∀ x ∈ l1, |e.2.width - scaledWidth| < |x.2.width - scaledWidth|) ∧
        (∀ x ∈ l2, |e.2.width - scaledWidth| ≤ |x.2.width - scaledWidth|)) ∧
    (m = [] → findPixmap m pixID scaledWidth = none) := by
  refine ⟨?_, ?_, ?_⟩
  · intro p hp
    have hany : m.any (fun e => e.1 == pixID) = true := (any_key_iff m pixID).2 ⟨p, hp⟩
    simp only [findPixmap, hany, if_true]
    exact lookup_of_mem m hm pixID p hp
  · intro habs hne
    obtain ⟨l1, e, l2, hm, hf, h1, h2⟩ := findPixmap_of_absent m pixID scaledWidth habs hne
    refine ⟨l1, e, l2, hm, hf, ?_, ?_⟩
    · intro x hx
      rw [← distance_eq_abs, ← distance_eq_abs]
      exact h1 x hx
    · intro x hx
      rw [← distance_eq_abs, ← distance_eq_abs]
      exact h2 x hx
  · intro h
    subst h
    simp [findPixmap]

/-- C1, checked on a map of three pixmaps of widths 3, 1 and 3 asked for id 9 at width 2. -/
theorem findPixmap_selects_witness :
    KeysAscending [(1, ⟨3, 1, [0, 0, 0]⟩), (2, ⟨1, 1, [7]⟩), (5, ⟨3, 1, [1, 1, 1]⟩)] ∧
    findPixmap [(1, ⟨3, 1, [0, 0, 0]⟩), (2, ⟨1, 1, [7]⟩), (5, ⟨3, 1, [1, 1, 1]⟩)] 5 2
      = some ⟨3, 1, [1, 1, 1]⟩ ∧
    findPixmap [(1, ⟨3, 1, [0, 0, 0]⟩), (2, ⟨1, 1, [7]⟩), (5, ⟨3, 1, [1, 1, 1]⟩)] 9 2
      = some ⟨3, 1, [0, 0, 0]⟩ :=
  ⟨by decide,
   (findPixmap_selects [(1, ⟨3, 1, [0, 0, 0]⟩), (2, ⟨1, 1, [7]⟩), (5, ⟨3, 1, [1, 1, 1]⟩)] 5 2
      (by decide)).1 _ (by decide),
   by decide⟩

/-- C2 as stated fails: asked for id 1 at width 2, a page holding a pixmap of
width 1 under id 1 and a pixmap of width 2 under id 2 is painted from the
pixmap of id 1, which passes the test of step 1B and whose width is at
distance 1 from the target, while the width of the pixmap of id 2 is at
distance 0. -/
theorem findPixmap_exact_id_not_closest :
    findPixmap [(1, ⟨1, 1, [4294967295]⟩), (2, ⟨2, 1, [4294967295, 4294967295]⟩)] 1 2
      = some ⟨1, 1, [4294967295]⟩ ∧
    drawsEmptyPage (some ⟨1, 1, [4294967295]⟩) 2 = false ∧
    ¬ (∀ e ∈ [((1 : Int), (⟨1, 1, [4294967295]⟩ : QPixmap)),
              (2, ⟨2, 1, [4294967295, 4294967295]⟩)],
        |(⟨1, 1, [4294967295]⟩ : QPixmap).width - 2| ≤ |e.2.width - 2|) := by
  refine ⟨by decide, by decide!, ?_⟩
  intro h
  have h2 := h (2, ⟨2, 1, [4294967295, 4294967295]⟩) (by simp)
  norm_num at h2

/-- C2, amended: when the requested id is not in the map, a pixmap that is
selected (hence also one that passes the test of step 1B) minimizes
|width - scaledWidth| over all pixmaps of the page. -/
theorem findPixmap_closest_of_absent (m : PixmapMap) (pixID scaledWidth : Int) (p : QPixmap)
    (habs : pixID ∉ m.map Prod.fst) (hsel : findPixmap m pixID scaledWidth = some p) :
    ∀ e ∈ m, |p.width - scaledWidth| ≤ |e.2.width - scaledWidth| := by
  have hne : m ≠ [] := by
    rintro rfl
    simp [findPixmap] at hsel
  obtain ⟨l1, c, l2, hm, hf, h1, h2⟩ := findPixmap_of_absent m pixID scaledWidth habs hne
  rw [hf] at hsel
  cases hsel
  intro e he
  rw [← distance_eq_abs, ← distance_eq_abs]
  rw [hm] at he
  rcases List.mem_append.1 he with he | he
  · exact le_of_lt (h1 e he)
  · rcases List.mem_cons.1 he with he | he
    · subst he; exact le_refl _
    · exact h2 e he

/-- C2 amended, checked on two pixmaps of widths 1 and 2 asked for id 7 at width 2. -/
theorem findPixmap_closest_of_absent_witness :
    (7 : Int) ∉ ([(1, ⟨1, 1, [4294967295]⟩), (2, ⟨2, 1, [4294967295, 4294967295]⟩)] :
      PixmapMap).map Prod.fst ∧
    findPixmap [(1, ⟨1, 1, [4294967295]⟩), (2, ⟨2, 1, [4294967295, 4294967295]⟩)] 7 2
      = some ⟨2, 1, [4294967295, 4294967295]⟩ ∧
    ∀ e ∈ [((1 : Int), (⟨1, 1, [4294967295]⟩ : QPixmap)),
           (2, ⟨2, 1, [4294967295, 4294967295]⟩)],
      |(⟨2, 1, [4294967295, 4294967295]⟩ : QPixmap).width - 2| ≤ |e.2.width - 2| :=
  ⟨by decide, by decide,
   findPixmap_closest_of_absent
     [(1, ⟨1, 1, [4294967295]⟩), (2, ⟨2, 1, [4294967295, 4294967295]⟩)] 7 2
     ⟨2, 1, [4294967295, 4294967295]⟩ (by decide) (by decide)⟩

end Selection

section Placeholder

/-- C3: rejection policy. For a selected pixmap of positive width the empty page
is drawn exactly when the ratio of the target width to the pixmap width
exceeds 20 or is below 1/4, or the widths differ and the pixmap has more
than 6,000,000 pixels; the call then yields the placeholder, and in every
other case it paints from the pixmap. -/
theorem drawsEmptyPage_iff_policy (X : Extern) (S : KpdfSettings) (busyPixmap : Option QPixmap)
    (destDeviceWidth : Int) (page : KPDFPage) (pixID : Int) (flags : Nat)
    (scaledWidth scaledHeight : Int) (limits : QRect) (pm : QPixmap)
    (hsel : findPixmap page.m_pixmaps pixID scaledWidth = some pm) (hw : 0 < pm.width) :
    (drawsEmptyPage (some pm) scaledWidth = true ↔
      RejectedBySpec scaledWidth pm.width pm.height) ∧
    (RejectedBySpec scaledWidth pm.width pm.height →
      paintPageOnPainter X S busyPixmap destDeviceWidth page pixID flags scaledWidth
          scaledHeight limits
        = ⟨some (loadBusyPixmap X busyPixmap),
           (paintEmptyPage X S busyPixmap scaledWidth scaledHeight limits).map DestOp.paint⟩) ∧
    (¬ RejectedBySpec scaledWidth pm.width pm.height →
      paintPageOnPainter X S busyPixmap destDeviceWidth page pixID flags scaledWidth
          scaledHeight limits
        = ⟨busyPixmap,
           paintWithPixmap X S destDeviceWidth page pm flags scaledWidth scaledHeight limits⟩) := by
  have hiff : drawsEmptyPage (some pm) scaledWidth = true ↔
      RejectedBySpec scaledWidth pm.width pm.height := by
    have hne : pm.width ≠ 0 := by omega
    simp only [drawsEmptyPage, rescaleRatioOutOfRange, hne, if_false, RejectedBySpec,
      Bool.or_eq_true, Bool.and_eq_true, decide_eq_true_eq, or_assoc]
  refine ⟨hiff, ?_, ?_⟩
  · intro hr
    have hd := hiff.2 hr
    simp only [paintPageOnPainter, hsel, hd, if_true]
  · intro hr
    have hd : drawsEmptyPage (some pm) scaledWidth = false := by
      rw [Bool.eq_false_iff]
      exact fun h => hr (hiff.1 h)
    simp [paintPageOnPainter, hsel, hd]

/-- C3, checked on the example page painted at its own size. -/
theorem drawsEmptyPage_iff_policy_witness :
    findPixmap (examplePage [] []).m_pixmaps 0 2 = some examplePixmap ∧
    0 < examplePixmap.width ∧
    (drawsEmptyPage (some examplePixmap) 2 = true ↔
      RejectedBySpec 2 examplePixmap.width examplePixmap.height) :=
  ⟨by decide, by decide,
   (drawsEmptyPage_iff_policy refExtern refSettings none 2 (examplePage [] []) 0 0 2 2
      wholePage examplePixmap (by decide) (by decide)).1⟩

/-- C4: placeholder path. When the page has no pixmap, or none is selected, or
the selected one is rejected, the calls on the destination are the fill of
`limits` (with the paper colour when colours are changed and the render mode
is Paper, with white otherwise) followed by the busy pixmap at (10,10) or,
when that pixmap is null, by the two diagonals of the scaled page; the
outcome is the same for every page with the same pixmaps, whatever its
highlights, annotations and rects, and for every flags. -/
theorem paintEmptyPage_only (X : Extern) (S : KpdfSettings) (busyPixmap : Option QPixmap)
    (destDeviceWidth : Int) (page : KPDFPage) (pixID : Int) (flags : Nat)
    (scaledWidth scaledHeight : Int) (limits : QRect)
    (h : page.m_pixmaps = [] ∨
      drawsEmptyPage (findPixmap page.m_pixmaps pixID scaledWidth) scaledWidth = true) :
    (paintPageOnPainter X S busyPixmap destDeviceWidth page pixID flags scaledWidth
        scaledHeight limits).dest
      = DestOp.paint (PainterOp.fillRect limits
          (if S.changeColors = true ∧ S.renderMode = RenderMode.Paper then S.paperColor
           else QColor.white)) ::
        (if (loadBusyPixmap X busyPixmap).isNull = false then
          [DestOp.paint (PainterOp.drawPixmap 10 10 (loadBusyPixmap X busyPixmap))]
         else
          [DestOp.paint (PainterOp.setPen QColor.gray),
           DestOp.paint (PainterOp.drawLine 0 0 (scaledWidth - 1) (scaledHeight - 1)),
           DestOp.paint (PainterOp.drawLine 0 (scaledHeight - 1) (scaledWidth - 1) 0)]) ∧
    ∀ (destDeviceWidth2 : Int) (page2 : KPDFPage) (flags2 : Nat),
      page2.m_pixmaps = page.m_pixmaps →
      paintPageOnPainter X S busyPixmap destDeviceWidth2 page2 pixID flags2 scaledWidth
          scaledHeight limits
        = paintPageOnPainter X S busyPixmap destDeviceWidth page pixID flags scaledWidth
          scaledHeight limits := by
  have hd : drawsEmptyPage (findPixmap page.m_pixmaps pixID scaledWidth) scaledWidth = true := by
    rcases h with h | h
    · rw [h]; rfl
    · exact h
  constructor
  · simp only [paintPageOnPainter, hd, if_true, paintEmptyPage]
    by_cases hc : S.changeColors = true ∧ S.renderMode = RenderMode.Paper
    · by_cases hn : (loadBusyPixmap X busyPixmap).isNull = false
      · simp [hc, hn]
      · simp [hc, hn]
    · by_cases hn : (loadBusyPixmap X busyPixmap).isNull = false
      · simp [hc, hn]
      · simp [hc, hn]
  · intro dw2 page2 flags2 hp
    simp only [paintPageOnPainter, hp, hd, if_true]

/-- C4, checked on a page without pixmaps and a configuration without icons. -/
theorem paintEmptyPage_only_witness :
    (paintPageOnPainter refExtern refSettings none 2 ⟨2, 2, [], [], [], []⟩ 0 0 2 2
        wholePage).dest
      = [DestOp.paint (PainterOp.fillRect wholePage QColor.white),
         DestOp.paint (PainterOp.setPen QColor.gray),
         DestOp.paint (PainterOp.drawLine 0 0 1 1),
         DestOp.paint (PainterOp.drawLine 0 1 1 0)] :=
  (paintEmptyPage_only refExtern refSettings none 2 ⟨2, 2, [], [], [], []⟩ 0 0 2 2 wholePage
    (Or.inl rfl)).1

end Placeholder

section FastPath

end FastPath

section OverlaySelection

theorem lazyList_getD {α : Type} (l : List α) : (lazyList l).getD [] = l := by
  cases l <;> simp [lazyList]

theorem appendTo_lazyList {α : Type} (l : List α) (a : α) :
    appendTo (lazyList l) a = lazyList (l ++ [a]) := by
  rw [appendTo, lazyList_getD]
  simp [lazyList]

/-- The annotation loop of step 2 appends, in page order, the visible
annotations of the buffered types to the first list and the other visible
annotations to the second. -/
theorem foldl_classifyStep (X : Extern) (page : KPDFPage) (n : ℚ × ℚ × ℚ × ℚ)
    (l : List Annotation) :
    ∀ b u : List Annotation,
      l.foldl (classifyStep X page n) (lazyList b, lazyList u)
        = (lazyList (b ++ l.filter
              (fun a => isVisibleIn X page n a && isBufferedType a.subType)),
           lazyList (u ++ l.filter
              (fun a => isVisibleIn X page n a && !isBufferedType a.subType))) := by
  induction l with
  | nil => intro b u; simp
  | cons a l ih =>
    intro b u
    rw [List.foldl_cons]
    by_cases hh : hasFlag a.flags X.Hidden = true
    · have hs : classifyStep X page n (lazyList b, lazyList u) a = (lazyList b, lazyList u) := by
        simp [classifyStep, hh]
      rw [hs, ih]
      simp [isVisibleIn, hh]
    · by_cases hi : annotationIntersects X page n a = true
      · by_cases ht : isBufferedType a.subType = true
        · have hs : classifyStep X page n (lazyList b, lazyList u) a
              = (lazyList (b ++ [a]), lazyList u) := by
            simp [classifyStep, hh, hi, ht, appendTo_lazyList]
          rw [hs, ih]
          simp [isVisibleIn, hh, hi, ht]
        · have hs : classifyStep X page n (lazyList b, lazyList u) a
              = (lazyList b, lazyList (u ++ [a])) := by
            simp [classifyStep, hh, hi, ht, appendTo_lazyList]
          rw [hs, ih]
          simp [isVisibleIn, hh, hi, ht]
      · have hs : classifyStep X page n (lazyList b, lazyList u) a = (lazyList b, lazyList u) := by
          simp [classifyStep, hh, hi]
        rw [hs, ih]
        simp [isVisibleIn, hh, hi]

/-- The three lists of step 2 in closed form. -/
theorem findOverlays_eq (X : Extern) (page : KPDFPage) (flags : Nat)
    (scaledWidth scaledHeight : Int) (limits : QRect) :
    findOverlays X page flags scaledWidth scaledHeight limits
      = ⟨if hasFlag flags X.Highlights = true ∧ page.m_highlights ≠ [] then
           some (collectHighlights X page (normalizedLimits scaledWidth scaledHeight limits))
         else none,
         if hasFlag flags X.Annotations = true then
           lazyList (page.m_annotations.filter (fun a =>
             isVisibleIn X page (normalizedLimits scaledWidth scaledHeight limits) a &&
               isBufferedType a.subType))
         else none,
         if hasFlag flags X.Annotations = true then
           lazyList (page.m_annotations.filter (fun a =>
             isVisibleIn X page (normalizedLimits scaledWidth scaledHeight limits) a &&
               !isBufferedType a.subType))
         else none⟩ := by
  have hfold := foldl_classifyStep X page (normalizedLimits scaledWidth scaledHeight limits)
    page.m_annotations [] []
  have hnil : (lazyList ([] : List Annotation)) = none := rfl
  rw [hnil] at hfold
  simp only [List.nil_append] at hfold
  have hlists :
      (if (hasFlag flags X.Annotations && !page.m_annotations.isEmpty) = true then
          page.m_annotations.foldl
            (classifyStep X page (normalizedLimits scaledWidth scaledHeight limits)) (none, none)
        else (none, none))
      = (if hasFlag flags X.Annotations = true then
           lazyList (page.m_annotations.filter (fun a =>
             isVisibleIn X page (normalizedLimits scaledWidth scaledHeight limits) a &&
               isBufferedType a.subType))
         else none,
         if hasFlag flags X.Annotations = true then
           lazyList (page.m_annotations.filter (fun a =>
             isVisibleIn X page (normalizedLimits scaledWidth scaledHeight limits) a &&
               !isBufferedType a.subType))
         else none) := by
    by_cases hA : hasFlag flags X.Annotations = true
    · by_cases he : page.m_annotations = []
      · simp [hA, he, lazyList]
      · have hE : page.m_annotations.isEmpty = false := by
          cases hp : page.m_annotations with
          | nil => exact absurd hp he
          | cons a l => rfl
        simp only [hA, hE, Bool.not_false, Bool.and_self, if_true, hfold]
    · simp [hA]
  have hhl : (hasFlag flags X.Highlights && !page.m_highlights.isEmpty) = true ↔
      (hasFlag flags X.Highlights = true ∧ page.m_highlights ≠ []) := by
    cases page.m_highlights <;> simp
  unfold findOverlays
  simp only [hlists]
  by_cases hH : (hasFlag flags X.Highlights && !page.m_highlights.isEmpty) = true
  · have hH2 := hhl.1 hH
    simp [hH, hH2]
  · have hH2 : ¬ (hasFlag flags X.Highlights = true ∧ page.m_highlights ≠ []) :=
      fun h => hH (hhl.2 h)
    rw [Bool.not_eq_true] at hH
    by_cases hA : hasFlag flags X.Annotations = true
    · by_cases he : page.m_annotations = []
      · simp [hH, hH2, hA, he, lazyList]
      · have hE : page.m_annotations.isEmpty = false := by
          cases hp : page.m_annotations with
          | nil => exact absurd hp he
          | cons a l => rfl
        simp [hH, hH2, hA, hE]
    · simp [hH, hH2, hA]

end OverlaySelection

section BufferDecision

/-- The back buffer is used exactly when accessibility is active, or the
Highlights flag is set on a page that has highlights, or the buffered list of
annotations is not empty. -/
theorem useBackBuffer_iff (X : Extern) (S : KpdfSettings) (page : KPDFPage) (flags : Nat)
    (scaledWidth scaledHeight : Int) (limits : QRect) :
    useBackBuffer X S flags (findOverlays X page flags scaledWidth scaledHeight limits) = true ↔
      (bufferAccessibility X S flags = true ∨
       (hasFlag flags X.Highlights = true ∧ page.m_highlights ≠ []) ∨
       (findOverlays X page flags scaledWidth scaledHeight limits).bufferedAnnotations.getD []
         ≠ []) := by
  rw [findOverlays_eq]
  simp only [useBackBuffer, Bool.or_eq_true, or_assoc]
  by_cases hH : hasFlag flags X.Highlights = true ∧ page.m_highlights ≠ []
  · simp [hH]
  · by_cases hA : hasFlag flags X.Annotations = true
    · cases hf : page.m_annotations.filter (fun a =>
          isVisibleIn X page (normalizedLimits scaledWidth scaledHeight limits) a &&
            isBufferedType a.subType) <;> simp [hH, hA, hf, lazyList]
    · simp [hH, hA]

/-- C6 fails on the code: with the Highlights flag set on a page whose only
highlight lies outside the viewport, and nothing else asking for it,
accessibility is inactive, the list of highlight spans is empty (but
allocated), there is no buffered annotation, and yet the back buffer is used:
the destination receives the back pixmap instead of the pixmap of the page. -/
theorem useBackBuffer_without_spans :
    bufferAccessibility refExtern refSettings 8 = false ∧
    (findOverlays refExtern (examplePage [⟨QColor.gray, [⟨3 / 4, 3 / 4, 1, 1⟩]⟩] []) 8 2 2
      (QRect.ofSize 0 0 1 1)).bufferedHighlights = some [] ∧
    (findOverlays refExtern (examplePage [⟨QColor.gray, [⟨3 / 4, 3 / 4, 1, 1⟩]⟩] []) 8 2 2
      (QRect.ofSize 0 0 1 1)).bufferedAnnotations = none ∧
    useBackBuffer refExtern refSettings 8
      (findOverlays refExtern (examplePage [⟨QColor.gray, [⟨3 / 4, 3 / 4, 1, 1⟩]⟩] []) 8 2 2
        (QRect.ofSize 0 0 1 1)) = true ∧
    (paintPageOnPainter refExtern refSettings none 2
      (examplePage [⟨QColor.gray, [⟨3 / 4, 3 / 4, 1, 1⟩]⟩] []) 0 8 2 2
      (QRect.ofSize 0 0 1 1)).dest
      = [DestOp.drawBackPixmap 0 0 ⟨1, 1, [whitePixel]⟩ [PainterOp.translate 0 0]] := by
  decide!

end BufferDecision

section Classification

/-- C8: hidden annotations. For every page, viewport and flags, an annotation
whose Hidden flag is set is in neither the buffered nor the unbuffered list. -/
theorem hidden_not_listed (X : Extern) (page : KPDFPage) (flags : Nat)
    (scaledWidth scaledHeight : Int) (limits : QRect) (a : Annotation)
    (hh : hasFlag a.flags X.Hidden = true) :
    a ∉ (findOverlays X page flags scaledWidth scaledHeight limits).bufferedAnnotations.getD []
    ∧ a ∉
      (findOverlays X page flags scaledWidth scaledHeight limits).unbufferedAnnotations.getD []
    := by
  rw [findOverlays_eq]
  by_cases hA : hasFlag flags X.Annotations = true
  · simp [hA, lazyList_getD, isVisibleIn, hh]
  · simp [hA]

/-- C8, checked on a page with a hidden highlight and a hidden square in view. -/
theorem hidden_not_listed_witness :
    hasFlag (redHighlight 1 1).flags refExtern.Hidden = true ∧
    redHighlight 1 1 ∉
      (findOverlays refExtern (examplePage [] [redHighlight 1 1, blueSquare 0 1]) 32 2 2
        wholePage).bufferedAnnotations.getD [] ∧
    redHighlight 1 1 ∉
      (findOverlays refExtern (examplePage [] [redHighlight 1 1, blueSquare 0 1]) 32 2 2
        wholePage).unbufferedAnnotations.getD [] :=
  ⟨by decide,
   hidden_not_listed refExtern (examplePage [] [redHighlight 1 1, blueSquare 0 1]) 32 2 2
     wholePage (redHighlight 1 1) (by decide)⟩

/-- C9: overlay classification. With the Annotations flag set, the buffered
list is the page's list of annotations restricted, in page order, to those
that are not hidden, whose hit-test rectangle intersects the normalized
limits and whose subtype is Line, Highlight or Ink, and the unbuffered list
is the page's list restricted to those that are not hidden, intersect and
have another subtype; no annotation is in both lists. Without the flag both
lists are absent. -/
theorem overlay_classification (X : Extern) (page : KPDFPage) (flags : Nat)
    (scaledWidth scaledHeight : Int) (limits : QRect) :
    (hasFlag flags X.Annotations = true →
      (findOverlays X page flags scaledWidth scaledHeight limits).bufferedAnnotations.getD []
        = page.m_annotations.filter (fun a =>
            !hasFlag a.flags X.Hidden &&
            annotationIntersects X page (normalizedLimits scaledWidth scaledHeight limits) a &&
            (a.subType == .ALine || a.subType == .AHighlight || a.subType == .AInk)) ∧
      (findOverlays X page flags scaledWidth scaledHeight limits).unbufferedAnnotations.getD []
        = page.m_annotations.filter (fun a =>
            !hasFlag a.flags X.Hidden &&
            annotationIntersects X page (normalizedLimits scaledWidth scaledHeight limits) a &&
            !(a.subType == .ALine || a.subType == .AHighlight || a.subType == .AInk))) ∧
    (hasFlag flags X.Annotations = false →
      (findOverlays X page flags scaledWidth scaledHeight limits).bufferedAnnotations = none ∧
      (findOverlays X page flags scaledWidth scaledHeight limits).unbufferedAnnotations = none) ∧
    (∀ a,
      a ∈ (findOverlays X page flags scaledWidth scaledHeight limits).bufferedAnnotations.getD []
      → a ∉
      (findOverlays X page flags scaledWidth scaledHeight limits).unbufferedAnnotations.getD [])
    := by
  rw [findOverlays_eq]
  refine ⟨?_, ?_, ?_⟩
  · intro hA
    simp only [hA, if_true, lazyList_getD]
    exact ⟨rfl, rfl⟩
  · intro hA
    simp [hA]
  · intro a
    by_cases hA : hasFlag flags X.Annotations = true
    · simp only [hA, if_true, lazyList_getD, List.mem_filter, Bool.and_eq_true,
        Bool.not_eq_true', not_and]
      rintro ⟨_, _, ht⟩ _ _
      simp [ht]
    · simp [hA]

/-- C9, checked on a page with a highlight, a square and a hidden square in view. -/
theorem overlay_classification_witness :
    hasFlag 32 refExtern.Annotations = true ∧
    (findOverlays refExtern
        (examplePage [] [blueSquare 0 1, redHighlight 0 1, blueSquare 1 1]) 32 2 2
        wholePage).bufferedAnnotations = some [redHighlight 0 1] ∧
    (findOverlays refExtern
        (examplePage [] [blueSquare 0 1, redHighlight 0 1, blueSquare 1 1]) 32 2 2
        wholePage).unbufferedAnnotations = some [blueSquare 0 1] ∧
    ∀ a,
      a ∈ (findOverlays refExtern
        (examplePage [] [blueSquare 0 1, redHighlight 0 1, blueSquare 1 1]) 32 2 2
        wholePage).bufferedAnnotations.getD [] →
      a ∉ (findOverlays refExtern
        (examplePage [] [blueSquare 0 1, redHighlight 0 1, blueSquare 1 1]) 32 2 2
        wholePage).unbufferedAnnotations.getD [] :=
  ⟨by decide, by decide!, by decide!,
   (overlay_classification refExtern
      (examplePage [] [blueSquare 0 1, redHighlight 0 1, blueSquare 1 1]) 32 2 2
      wholePage).2.2⟩

end Classification

section Opacity

theorem foldl_append_ops {α β : Type} (f : α → List β) (l : List α) :
    ∀ init : List β, l.foldl (fun ops a => ops ++ f a) init = init ++ (l.map f).flatten := by
  induction l with
  | nil => intro init; simp
  | cons a l ih => intro init; simp [ih]

/-- Step 5 paints, in list order, what the body of its loop paints for each
annotation of the unbuffered list. -/
theorem paintUnbufferedAnnotations_lazyList (X : Extern) (S : KpdfSettings) (page : KPDFPage)
    (deviceWidth scaledWidth scaledHeight : Int) (limits : QRect) (l : List Annotation) :
    paintUnbufferedAnnotations X S page deviceWidth scaledWidth scaledHeight limits (lazyList l)
      = (l.map (unbufferedAnnotationBody X S page deviceWidth scaledWidth scaledHeight
          limits)).flatten := by
  cases l with
  | nil => rfl
  | cons a l =>
    show List.foldl (fun ops a =>
        ops ++ unbufferedAnnotationBody X S page deviceWidth scaledWidth scaledHeight limits a)
      [] (a :: l) = _
    rw [foldl_append_ops]
    simp

/-- An annotation of opacity 0 is skipped by the body of the loop of step 5. -/
theorem unbufferedAnnotationBody_opacity_zero (X : Extern) (S : KpdfSettings) (page : KPDFPage)
    (deviceWidth scaledWidth scaledHeight : Int) (limits : QRect) (a : Annotation)
    (hop : a.style.opacity = 0) :
    unbufferedAnnotationBody X S page deviceWidth scaledWidth scaledHeight limits a = [] := by
  simp [unbufferedAnnotationBody, annotationOpacity, hop, truncToInt]

/-- The body of the loop of step 4B.4 does not read the opacity of the annotation. -/
theorem bufferedAnnotationBody_withOpacity (X : Extern) (page : KPDFPage) (f : ImageFrame)
    (pageScale : ℚ) (backImage : QImage) (a : Annotation) (opacity : ℚ) :
    bufferedAnnotationBody X page f pageScale backImage (a.withOpacity opacity)
      = bufferedAnnotationBody X page f pageScale backImage a := by
  obtain ⟨flags, boundary, style, data⟩ := a
  cases data <;> rfl

/-- C7 as stated fails: a red highlight annotation of opacity 0 that is not
hidden and covers the example page is composited into the back pixmap, which
is copied to the destination with every pixel red, while without the
annotation the white pixmap of the page is copied there. -/
theorem opacity_zero_highlight_painted :
    (redHighlight 0 0).style.opacity = 0 ∧
    hasFlag (redHighlight 0 0).flags refExtern.Hidden = false ∧
    (paintPageOnPainter refExtern refSettings none 2 (examplePage [] [redHighlight 0 0]) 0 32
        2 2 wholePage).dest.map DestOp.copied
      = [some (0, 0, ⟨2, 2, [4294901760, 4294901760, 4294901760, 4294901760]⟩)] ∧
    (paintPageOnPainter refExtern refSettings none 2 (examplePage [] []) 0 32
        2 2 wholePage).dest.map DestOp.copied
      = [some (0, 0, ⟨2, 2, [4294967295, 4294967295, 4294967295, 4294967295]⟩)] := by
  decide!

/-- C7, amended: for every page, viewport and flags, an annotation of opacity 0
whose subtype is Text, Stamp or Geometric paints nothing: the call yields the
same outcome with the annotation in the page's list as with the annotation
removed from it. -/
theorem opacity_zero_unbuffered_noop (X : Extern) (S : KpdfSettings)
    (busyPixmap : Option QPixmap) (destDeviceWidth : Int) (page : KPDFPage)
    (before after : List Annotation) (a : Annotation) (pixID : Int) (flags : Nat)
    (scaledWidth scaledHeight : Int) (limits : QRect)
    (hop : a.style.opacity = 0)
    (ht : a.subType = .AText ∨ a.subType = .AStamp ∨ a.subType = .AGeom) :
    paintPageOnPainter X S busyPixmap destDeviceWidth
        (page.withAnnotations (before ++ a :: after)) pixID flags scaledWidth scaledHeight limits
      = paintPageOnPainter X S busyPixmap destDeviceWidth
        (page.withAnnotations (before ++ after)) pixID flags scaledWidth scaledHeight limits := by
  have hnb : isBufferedType a.subType = false := by
    rcases ht with h | h | h <;> rw [h] <;> rfl
  have hvis : ∀ (l : List Annotation) (n : ℚ × ℚ × ℚ × ℚ),
      isVisibleIn X (page.withAnnotations l) n = isVisibleIn X page n := fun _ _ => rfl
  have hbody : ∀ (l : List Annotation) (dw : Int),
      unbufferedAnnotationBody X S (page.withAnnotations l) dw scaledWidth scaledHeight limits
        = unbufferedAnnotationBody X S page dw scaledWidth scaledHeight limits :=
    fun _ _ => rfl
  have hann : ∀ l : List Annotation, (page.withAnnotations l).m_annotations = l := fun _ => rfl
  have hB : (findOverlays X (page.withAnnotations (before ++ a :: after)) flags scaledWidth
        scaledHeight limits).bufferedAnnotations
      = (findOverlays X (page.withAnnotations (before ++ after)) flags scaledWidth
        scaledHeight limits).bufferedAnnotations := by
    rw [findOverlays_eq, findOverlays_eq]
    simp only [hvis, hann, List.filter_append, List.filter_cons, hnb, Bool.and_false]
    simp
  have hH : (findOverlays X (page.withAnnotations (before ++ a :: after)) flags scaledWidth
        scaledHeight limits).bufferedHighlights
      = (findOverlays X (page.withAnnotations (before ++ after)) flags scaledWidth
        scaledHeight limits).bufferedHighlights := by
    rw [findOverlays_eq, findOverlays_eq]
    rfl
  have hU : ∀ dw : Int,
      paintUnbufferedAnnotations X S (page.withAnnotations (before ++ a :: after)) dw
          scaledWidth scaledHeight limits
          (findOverlays X (page.withAnnotations (before ++ a :: after)) flags scaledWidth
            scaledHeight limits).unbufferedAnnotations
      = paintUnbufferedAnnotations X S (page.withAnnotations (before ++ after)) dw
          scaledWidth scaledHeight limits
          (findOverlays X (page.withAnnotations (before ++ after)) flags scaledWidth
            scaledHeight limits).unbufferedAnnotations := by
    intro dw
    rw [findOverlays_eq, findOverlays_eq]
    by_cases hA : hasFlag flags X.Annotations = true
    · simp only [hA, if_true, paintUnbufferedAnnotations_lazyList, hbody, hvis]
      have hzero := unbufferedAnnotationBody_opacity_zero X S page dw scaledWidth scaledHeight
        limits a hop
      by_cases hv : isVisibleIn X page (normalizedLimits scaledWidth scaledHeight limits) a = true
      · simp [hann, List.filter_cons, hnb, hv, hzero]
      · simp [hann, List.filter_cons, hnb, hv]
    · simp only [hA]
      rfl
  have hW : ∀ pm : QPixmap,
      paintWithPixmap X S destDeviceWidth (page.withAnnotations (before ++ a :: after)) pm flags
          scaledWidth scaledHeight limits
      = paintWithPixmap X S destDeviceWidth (page.withAnnotations (before ++ after)) pm flags
          scaledWidth scaledHeight limits := by
    intro pm
    have hbuf : useBackBuffer X S flags
          (findOverlays X (page.withAnnotations (before ++ a :: after)) flags scaledWidth
            scaledHeight limits)
        = useBackBuffer X S flags
          (findOverlays X (page.withAnnotations (before ++ after)) flags scaledWidth
            scaledHeight limits) := by
      simp only [useBackBuffer, hB, hH]
    have himg : buildBackImage X S (page.withAnnotations (before ++ a :: after)) pm flags
          (findOverlays X (page.withAnnotations (before ++ a :: after)) flags scaledWidth
            scaledHeight limits) scaledWidth scaledHeight limits
        = buildBackImage X S (page.withAnnotations (before ++ after)) pm flags
          (findOverlays X (page.withAnnotations (before ++ after)) flags scaledWidth
            scaledHeight limits) scaledWidth scaledHeight limits := by
      simp only [buildBackImage, highlightStage, annotationStage, hB, hH]
      rfl
    have hbord : paintBorders X S (page.withAnnotations (before ++ a :: after)) flags
          scaledWidth scaledHeight limits
        = paintBorders X S (page.withAnnotations (before ++ after)) flags scaledWidth
          scaledHeight limits := rfl
    simp only [paintWithPixmap, hbuf, himg, hU, hbord]
  simp only [paintPageOnPainter, hW]
  rfl

/-- C7 amended, checked on the example page with a blue square of opacity 0
between two highlights. -/
theorem opacity_zero_unbuffered_noop_witness :
    (blueSquare 0 0).style.opacity = 0 ∧
    ((blueSquare 0 0).subType = .AText ∨ (blueSquare 0 0).subType = .AStamp ∨
      (blueSquare 0 0).subType = .AGeom) ∧
    paintPageOnPainter refExtern refSettings none 2
        ((examplePage [] []).withAnnotations
          ([redHighlight 0 1] ++ blueSquare 0 0 :: [redHighlight 0 0])) 0 32 2 2 wholePage
      = paintPageOnPainter refExtern refSettings none 2
        ((examplePage [] []).withAnnotations ([redHighlight 0 1] ++ [redHighlight 0 0]))
        0 32 2 2 wholePage :=
  ⟨by decide!, by decide,
   opacity_zero_unbuffered_noop refExtern refSettings none 2 (examplePage [] [])
     [redHighlight 0 1] [redHighlight 0 0] (blueSquare 0 0) 0 32 2 2 wholePage
     (by decide!) (by decide)⟩

end Opacity

section StageOrder

/-- C10 as stated fails: painting the example page with a red highlight and an
opaque blue square, the only call on the destination is the copy of the back
pixmap; the square, a direct annotation, is not painted on the destination
after that copy but on the back pixmap before it. -/
theorem direct_annotation_painted_before_copy :
    (findOverlays refExtern (examplePage [] [redHighlight 0 1, blueSquare 0 1]) 32 2 2
      wholePage).unbufferedAnnotations = some [blueSquare 0 1] ∧
    (paintPageOnPainter refExtern refSettings none 2
      (examplePage [] [redHighlight 0 1, blueSquare 0 1]) 0 32 2 2 wholePage).dest
      = [DestOp.drawBackPixmap 0 0
          ⟨2, 2, [4294901760, 4294901760, 4294901760, 4294901760]⟩
          [PainterOp.translate 0 0,
           PainterOp.drawImage 0 0
             ⟨2, 2, [4278190335, 4278190335, 4278190335, 4278190335]⟩]] := by
  decide!

/-- C10, amended: in every call that paints from a pixmap and uses the back
buffer, the image is made from the pixmap (cropped or rescaled), then
transformed for accessibility, then composed with the highlight spans, then
with the buffered annotations; the unbuffered annotations and then the
borders of links and images are painted on the back pixmap made from that
image; the copy of the back pixmap, at the top left of `limits`, comes last
and is the only call on the destination. -/
theorem buffered_flow_order (X : Extern) (S : KpdfSettings) (busyPixmap : Option QPixmap)
    (destDeviceWidth : Int) (page : KPDFPage) (pixID : Int) (flags : Nat)
    (scaledWidth scaledHeight : Int) (limits : QRect) (pm : QPixmap)
    (hsel : findPixmap page.m_pixmaps pixID scaledWidth = some pm)
    (hacc : drawsEmptyPage (some pm) scaledWidth = false)
    (hbuf : useBackBuffer X S flags
      (findOverlays X page flags scaledWidth scaledHeight limits) = true) :
    (paintPageOnPainter X S busyPixmap destDeviceWidth page pixID flags scaledWidth
        scaledHeight limits).dest
      = [DestOp.drawBackPixmap limits.left limits.top
          (annotationStage X page (findOverlays X page flags scaledWidth scaledHeight limits)
            scaledWidth scaledHeight limits
            (highlightStage X (findOverlays X page flags scaledWidth scaledHeight limits)
              scaledWidth scaledHeight limits
              (accessibilityStage X S flags
                (initialBackImage pm scaledWidth scaledHeight limits))))
          (PainterOp.translate (-limits.left) (-limits.top) ::
            (paintUnbufferedAnnotations X S page
                (buildBackImage X S page pm flags
                  (findOverlays X page flags scaledWidth scaledHeight limits)
                  scaledWidth scaledHeight limits).width
                scaledWidth scaledHeight limits
                (findOverlays X page flags scaledWidth scaledHeight limits).unbufferedAnnotations
              ++ paintBorders X S page flags scaledWidth scaledHeight limits))] := by
  simp only [paintPageOnPainter, hsel, hacc, paintWithPixmap, hbuf]
  simp [buildBackImage]

/-- C10 amended, checked on the example page with a red highlight and an opaque
blue square. -/
theorem buffered_flow_order_witness :
    findPixmap (examplePage [] [redHighlight 0 1, blueSquare 0 1]).m_pixmaps 0 2
      = some examplePixmap ∧
    drawsEmptyPage (some examplePixmap) 2 = false ∧
    useBackBuffer refExtern refSettings 32
      (findOverlays refExtern (examplePage [] [redHighlight 0 1, blueSquare 0 1]) 32 2 2
        wholePage) = true ∧
    (paintPageOnPainter refExtern refSettings none 2
        (examplePage [] [redHighlight 0 1, blueSquare 0 1]) 0 32 2 2 wholePage).dest.length
      = 1 :=
  ⟨by decide, by decide!, by decide!,
   congrArg List.length
     (buffered_flow_order refExtern refSettings none 2
       (examplePage [] [redHighlight 0 1, blueSquare 0 1]) 0 32 2 2 wholePage examplePixmap
       (by decide) (by decide!) (by decide!))⟩

end StageOrder

section Shapes

/-- C18: degenerate shapes. For every image, pen, brush, multiplier and blend
mode, `drawShapeOnImage` called with a path of fewer than 2 points returns
the image as it is; an ink annotation is then drawn as if the degenerate
stroke were not among its strokes, the strokes before and after it being
drawn all the same. -/
theorem drawShapeOnImage_degenerate (X : Extern) (image : QImage) (normPath : NormalizedPath)
    (closeShape : Bool) (pen : QPen) (brush : QBrush) (penWidthMultiplier : ℚ)
    (op : RasterOperation) (h : normPath.length < 2) :
    drawShapeOnImage X image normPath closeShape pen brush penWidthMultiplier op = image ∧
    ∀ (page : KPDFPage) (f : ImageFrame) (pageScale : ℚ) (flags : Nat)
      (boundary : NormalizedRect) (style : Style) (before after : List (List NormalizedPoint)),
      bufferedAnnotationBody X page f pageScale image
          ⟨flags, boundary, style, .ink (before ++ normPath :: after)⟩
        = bufferedAnnotationBody X page f pageScale image
          ⟨flags, boundary, style, .ink (before ++ after)⟩ := by
  have hskip : ∀ (img : QImage) (path : NormalizedPath) (c : Bool) (p : QPen) (b : QBrush)
      (m : ℚ) (o : RasterOperation), path.length < 2 →
      drawShapeOnImage X img path c p b m o = img := by
    intro img path c p b m o hp
    simp [drawShapeOnImage, hp]
  refine ⟨hskip _ _ _ _ _ _ _ h, ?_⟩
  intro page f pageScale flags boundary style before after
  simp only [bufferedAnnotationBody, List.foldl_append, List.foldl_cons]
  rw [hskip _ _ _ _ _ _ _ (by simpa using h)]

/-- C18, checked on a one-point path with a brush and a pen on the example image. -/
theorem drawShapeOnImage_degenerate_witness :
    ([⟨0, 0⟩] : NormalizedPath).length < 2 ∧
    drawShapeOnImage refExtern examplePixmap.toImage [⟨0, 0⟩] true ⟨QColor.gray, 3⟩
      (some QColor.gray) 1 RasterOperation.Multiply = examplePixmap.toImage :=
  ⟨by decide,
   (drawShapeOnImage_degenerate refExtern examplePixmap.toImage [⟨0, 0⟩] true ⟨QColor.gray, 3⟩
      (some QColor.gray) 1 RasterOperation.Multiply (by decide)).1⟩

theorem QPen_width_two (c : QColor) : (⟨c, 2⟩ : QPen).width = 2 := by
  simp only [QPen.width]
  rw [Int.floor_eq_iff]
  constructor <;> norm_num

/-- C19: underline geometry. For every highlight annotation and quad, the
Underline sub-style hands `drawShapeOnImage` the open path of the two points
`(p0 + 3*p3)/4` and `(p1 + 3*p2)/4` normalized to the image, with a pen of
the annotation's colour and width 2 and no brush; nothing is filled and the
stroke (of width 2 times the multiplier) is the only rendering. For the quad
(0,0),(1,0),(1,1/5),(0,1/5) and limits equal to the whole page scaled to
100 x 100 the two points are (0, 3/20) and (1, 3/20). -/
theorem underline_geometry (X : Extern) (f : ImageFrame) (pageScale : ℚ) (a : Annotation)
    (image : QImage) (quad : Quad) :
    drawHighlightQuad X f pageScale a .Underline image quad
      = drawShapeOnImage X image
          [f.normalize ⟨(quad.p0.x + 3 * quad.p3.x) / 4, (quad.p0.y + 3 * quad.p3.y) / 4⟩,
           f.normalize ⟨(quad.p1.x + 3 * quad.p2.x) / 4, (quad.p1.y + 3 * quad.p2.y) / 4⟩]
          false ⟨a.style.color, 2⟩ none pageScale defaultRasterOperation ∧
    (∀ p q : NormalizedPoint,
      drawShapeOnImage X image [p, q] false ⟨a.style.color, 2⟩ none pageScale
          defaultRasterOperation
        = if 2 * pageScale > 1 / 10 then
            X.aggStroke image
              ⟨[(p.x * (image.width : ℚ), p.y * (image.height : ℚ)),
                (q.x * (image.width : ℚ), q.y * (image.height : ℚ))], false⟩
              (2 * pageScale) a.style.color defaultRasterOperation
          else image) ∧
    drawHighlightQuad X (imageFrame 100 100 (QRect.ofSize 0 0 100 100)) pageScale a .Underline
        image ⟨⟨0, 0⟩, ⟨1, 0⟩, ⟨1, 1 / 5⟩, ⟨0, 1 / 5⟩⟩
      = drawShapeOnImage X image [⟨0, 3 / 20⟩, ⟨1, 3 / 20⟩] false ⟨a.style.color, 2⟩ none
          pageScale defaultRasterOperation := by
  refine ⟨?_, ?_, ?_⟩
  · simp only [drawHighlightQuad, Quad.points, ImageFrame.normalize]
    congr 1
    simp only [List.cons.injEq, NormalizedPoint.mk.injEq, and_true]
    refine ⟨⟨?_, ?_⟩, ⟨?_, ?_⟩⟩ <;> ring
  · intro p q
    simp [drawShapeOnImage, QPen_width_two]
  · simp only [drawHighlightQuad, Quad.points, ImageFrame.normalize, imageFrame, QRect.ofSize,
      QRect.left, QRect.top, QRect.width, QRect.height]
    congr 1
    simp only [List.cons.injEq, NormalizedPoint.mk.injEq, and_true]
    refine ⟨⟨?_, ?_⟩, ⟨?_, ?_⟩⟩ <;> norm_num

/-- C20: viewport-local coordinates. For a scaled size that is not zero (the
normalization divides by it) and limits of positive width and height, a page
point normalized to the image and scaled by
the width and height of the image (those of `limits`), as `drawShapeOnImage`
does, lands at `p.x * scaledWidth - limits.left` and
`p.y * scaledHeight - limits.top`; when `limits` is the whole scaled page the
normalization is the identity. -/
theorem viewport_local_coordinates (scaledWidth scaledHeight : Int) (limits : QRect)
    (hsw : scaledWidth ≠ 0) (hsh : scaledHeight ≠ 0)
    (hlw : 0 < limits.width) (hlh : 0 < limits.height) :
    (∀ p : NormalizedPoint,
      ((imageFrame scaledWidth scaledHeight limits).normalize p).x
          = (p.x - (limits.left : ℚ) / (scaledWidth : ℚ)) *
            ((scaledWidth : ℚ) / (limits.width : ℚ)) ∧
      ((imageFrame scaledWidth scaledHeight limits).normalize p).x * (limits.width : ℚ)
          = p.x * (scaledWidth : ℚ) - (limits.left : ℚ) ∧
      ((imageFrame scaledWidth scaledHeight limits).normalize p).y
          = (p.y - (limits.top : ℚ) / (scaledHeight : ℚ)) *
            ((scaledHeight : ℚ) / (limits.height : ℚ)) ∧
      ((imageFrame scaledWidth scaledHeight limits).normalize p).y * (limits.height : ℚ)
          = p.y * (scaledHeight : ℚ) - (limits.top : ℚ)) ∧
    (limits = QRect.ofSize 0 0 scaledWidth scaledHeight →
      ∀ p : NormalizedPoint, (imageFrame scaledWidth scaledHeight limits).normalize p = p) := by
  have h1 : (scaledWidth : ℚ) ≠ 0 := by exact_mod_cast hsw
  have h2 : (scaledHeight : ℚ) ≠ 0 := by exact_mod_cast hsh
  have h3 : (limits.width : ℚ) ≠ 0 := by exact_mod_cast (ne_of_gt hlw)
  have h4 : (limits.height : ℚ) ≠ 0 := by exact_mod_cast (ne_of_gt hlh)
  constructor
  · intro p
    refine ⟨rfl, ?_, rfl, ?_⟩
    · simp only [ImageFrame.normalize, imageFrame]
      field_simp
    · simp only [ImageFrame.normalize, imageFrame]
      field_simp
  · intro hl p
    subst hl
    obtain ⟨px, py⟩ := p
    simp only [ImageFrame.normalize, imageFrame, QRect.ofSize, QRect.left, QRect.top,
      QRect.width, QRect.height, NormalizedPoint.mk.injEq]
    constructor
    · have : ((0 + scaledWidth - 1 - 0 + 1 : Int) : ℚ) = (scaledWidth : ℚ) := by
        push_cast; ring
      rw [this]
      field_simp
    · have : ((0 + scaledHeight - 1 - 0 + 1 : Int) : ℚ) = (scaledHeight : ℚ) := by
        push_cast; ring
      rw [this]
      field_simp

/-- C20, checked on the page scaled to 200 x 100 with limits at (50, 20) of
size 100 x 40 and the point (1/2, 1/2). -/
theorem viewport_local_coordinates_witness :
    (200 : Int) ≠ 0 ∧ (100 : Int) ≠ 0 ∧ 0 < (QRect.ofSize 50 20 100 40).width ∧
    0 < (QRect.ofSize 50 20 100 40).height ∧
    ((imageFrame 200 100 (QRect.ofSize 50 20 100 40)).normalize ⟨1 / 2, 1 / 2⟩).x *
        (((QRect.ofSize 50 20 100 40).width : Int) : ℚ)
      = (1 / 2 : ℚ) * ((200 : Int) : ℚ) - (((QRect.ofSize 50 20 100 40).left : Int) : ℚ) :=
  ⟨by decide, by decide, by decide, by decide,
   ((viewport_local_coordinates 200 100 (QRect.ofSize 50 20 100 40) (by decide) (by decide)
      (by decide) (by decide)).1 ⟨1 / 2, 1 / 2⟩).2.1⟩

end Shapes

section Crop

/-- C13: crop is pixel-identity. For every pixmap, `cropPixmapOnImage` with the
rectangle `(0, 0, width, height)` of the pixmap returns the image of the
pixmap: same width, same height, same pixel data. -/
theorem cropPixmapOnImage_whole (src : QPixmap) :
    cropPixmapOnImage src (QRect.ofSize 0 0 src.width src.height) = src.toImage ∧
    (cropPixmapOnImage src (QRect.ofSize 0 0 src.width src.height)).width = src.width ∧
    (cropPixmapOnImage src (QRect.ofSize 0 0 src.width src.height)).height = src.height ∧
    (cropPixmapOnImage src (QRect.ofSize 0 0 src.width src.height)).pixels = src.pixels := by
  have h : cropPixmapOnImage src (QRect.ofSize 0 0 src.width src.height) = src.toImage := by
    simp [cropPixmapOnImage]
  rw [h]
  exact ⟨rfl, rfl, rfl, rfl⟩

end Crop

section BlackWhite

theorem tdiv_mono (a b c : Int) (hc : 0 < c) (h : a ≤ b) : a.tdiv c ≤ b.tdiv c := by
  by_cases ha : 0 ≤ a
  · rw [Int.tdiv_eq_ediv ha (le_of_lt hc), Int.tdiv_eq_ediv (le_trans ha h) (le_of_lt hc)]
    exact Int.ediv_le_ediv hc h
  · have ha2 : 0 ≤ -a := by omega
    have hna : a.tdiv c = -((-a).tdiv c) := by rw [Int.neg_tdiv, neg_neg]
    by_cases hb : 0 ≤ b
    · have h1 : 0 ≤ (-a).tdiv c := Int.tdiv_nonneg ha2 (le_of_lt hc)
      have h2 : 0 ≤ b.tdiv c := Int.tdiv_nonneg hb (le_of_lt hc)
      omega
    · have hb2 : 0 ≤ -b := by omega
      have hnb : b.tdiv c = -((-b).tdiv c) := by rw [Int.neg_tdiv, neg_neg]
      rw [hna, hnb, Int.tdiv_eq_ediv ha2 (le_of_lt hc), Int.tdiv_eq_ediv hb2 (le_of_lt hc)]
      have := Int.ediv_le_ediv hc (show -b ≤ -a by omega)
      omega

theorem wrapInt32_of_inRange (i : Int) (h0 : -2147483648 ≤ i) (h1 : i < 2147483648) :
    wrapInt32 i = i := by
  unfold wrapInt32
  omega

/-- The two branches of the remapping stay on their side of 128. -/
theorem remap_bounds (thr gray : Int) (ht0 : 0 ≤ thr) (ht1 : thr ≤ 255) (hg0 : 0 ≤ gray)
    (hg1 : gray ≤ 255) :
    (gray > thr → 0 ≤ Int.tdiv (127 * (gray - thr)) (255 - thr) ∧
      Int.tdiv (127 * (gray - thr)) (255 - thr) ≤ 127) ∧
    (gray < thr → 0 ≤ Int.tdiv (128 * gray) thr ∧ Int.tdiv (128 * gray) thr ≤ 127) := by
  constructor
  · intro h
    rw [Int.tdiv_eq_ediv (by omega) (by omega)]
    refine ⟨Int.ediv_nonneg (by omega) (by omega), ?_⟩
    have hle := Int.ediv_le_ediv (show 0 < 255 - thr by omega)
      (show 127 * (gray - thr) ≤ 127 * (255 - thr) by omega)
    rw [Int.mul_ediv_cancel 127 (show (255 - thr) ≠ 0 by omega)] at hle
    exact hle
  · intro h
    rw [Int.tdiv_eq_ediv (by omega) (by omega)]
    refine ⟨Int.ediv_nonneg (by omega) (by omega), ?_⟩
    have := Int.ediv_lt_of_lt_mul (show 0 < thr by omega)
      (show 128 * gray < 128 * thr by omega)
    omega

/-- The product of the contrast step fits an `int` for a contrast of at most
8421504 and a difference of two values in 0..255. -/
theorem contrast_product_fits (con d : Int) (hc0 : 0 ≤ con) (hc1 : con ≤ 8421504)
    (hd0 : -255 ≤ d) (hd1 : d ≤ 255) : wrapInt32 (con * d) = con * d := by
  have h1 : con * d ≤ con * 255 := mul_le_mul_of_nonneg_left hd1 hc0
  have h2 : con * (-255) ≤ con * d := mul_le_mul_of_nonneg_left hd0 hc0
  exact wrapInt32_of_inRange _ (by omega) (by omega)

/-- The contrast step of the `BlackWhite` loop does not swap two values while
its product fits an `int`. -/
theorem contrast_mono (con thr u1 u2 : Int) (hcon : con ≤ 8421504) (ht0 : 0 ≤ thr)
    (ht1 : thr ≤ 255) (hu1 : 0 ≤ u1) (h : u1 ≤ u2) (hu2 : u2 ≤ 255) :
    (if con > 2 then
        (if Int.tdiv (wrapInt32 (con * (u1 - thr))) 2 + thr > 255 then 255
         else if Int.tdiv (wrapInt32 (con * (u1 - thr))) 2 + thr < 0 then 0
         else Int.tdiv (wrapInt32 (con * (u1 - thr))) 2 + thr)
      else u1)
    ≤ (if con > 2 then
        (if Int.tdiv (wrapInt32 (con * (u2 - thr))) 2 + thr > 255 then 255
         else if Int.tdiv (wrapInt32 (con * (u2 - thr))) 2 + thr < 0 then 0
         else Int.tdiv (wrapInt32 (con * (u2 - thr))) 2 + thr)
      else u2) := by
  by_cases hc : con > 2
  · have hm : con * (u1 - thr) ≤ con * (u2 - thr) :=
      mul_le_mul_of_nonneg_left (by omega) (by omega)
    have ht := tdiv_mono _ _ 2 (by decide) hm
    rw [contrast_product_fits con (u1 - thr) (by omega) hcon (by omega) (by omega),
      contrast_product_fits con (u2 - thr) (by omega) hcon (by omega) (by omega)]
    simp only [hc, if_true]
    split_ifs <;> omega
  · simp only [hc, if_false]
    exact h

/-- The value the `BlackWhite` loop writes for a gray value equal to `thr`. -/
theorem blackWhiteValue_at_threshold (con thr : Int) (h0 : 0 ≤ thr) (h1 : thr ≤ 255) :
    blackWhiteValue con thr thr = thr := by
  simp only [blackWhiteValue, gt_iff_lt, lt_irrefl, if_false, sub_self, mul_zero,
    show wrapInt32 0 = 0 by decide, Int.zero_tdiv, zero_add]
  split_ifs <;> omega

/-- C14 fails on the code: with the threshold setting 55 (thr = 200) and the
contrast 2, a pixel of gray value 200 keeps the gray value 200 instead of
becoming 128, while its neighbours 199 and 201 become 127 and 130. -/
theorem blackWhite_threshold_kept :
    qGray (qRgba 200 200 200 255) = 200 ∧
    blackWhiteValue 2 (255 - 55) 200 = 200 ∧
    blackWhiteValue 2 (255 - 55) 199 = 127 ∧
    blackWhiteValue 2 (255 - 55) 201 = 130 ∧
    applyAccessibility refExtern
        { refSettings with renderMode := RenderMode.BlackWhite, bWContrast := 2,
                           bWThreshold := 55 }
        ⟨1, 1, [qRgba 200 200 200 255]⟩
      = ⟨1, 1, [qRgba 200 200 200 255]⟩ := by
  decide

/-- C15 as stated fails: the contrast product is an `int` product. With
thr = 255 and the contrast 8421505 the product 8421505 * (0 - 255) leaves the
`int` range, so the gray value 0 is written as 255 while 254 is written as 0;
with thr = 200 and the contrast 11000000 the gray value 0 is written as 255
while 199 is written as 0. -/
theorem blackWhiteValue_contrast_overflow :
    ((0 : Int) ≠ 255 ∧ (254 : Int) ≠ 255 ∧ (0 : Int) ≤ 254 ∧
      blackWhiteValue 8421505 255 0 = 255 ∧ blackWhiteValue 8421505 255 254 = 0 ∧
      ¬ (blackWhiteValue 8421505 255 0 ≤ blackWhiteValue 8421505 255 254)) ∧
    ((0 : Int) ≠ 200 ∧ (199 : Int) ≠ 200 ∧ (0 : Int) ≤ 199 ∧
      blackWhiteValue 11000000 200 0 = 255 ∧ blackWhiteValue 11000000 200 199 = 0 ∧
      ¬ (blackWhiteValue 11000000 200 0 ≤ blackWhiteValue 11000000 200 199)) := by
  decide

/-- C15, amended: monotonic away from the threshold while the contrast product
fits an `int`. For every `thr` in 0..255, every contrast `con` of at most
8421504 (so in particular every `con` with 0 <= con <= 8421504) and all gray
values `v1 <= v2` in 0..255 that both differ from `thr`, the value written
for `v1` is at most the value written for `v2`. -/
theorem blackWhiteValue_monotone (con thr v1 v2 : Int) (hcon : con ≤ 8421504)
    (hthr0 : 0 ≤ thr) (hthr1 : thr ≤ 255)
    (h1 : 0 ≤ v1) (h12 : v1 ≤ v2) (h2 : v2 ≤ 255)
    (hn1 : v1 ≠ thr) (hn2 : v2 ≠ thr) :
    blackWhiteValue con thr v1 ≤ blackWhiteValue con thr v2 := by
  obtain ⟨hhi1, hlo1⟩ := remap_bounds thr v1 hthr0 hthr1 h1 (by omega)
  obtain ⟨hhi2, hlo2⟩ := remap_bounds thr v2 hthr0 hthr1 (by omega) h2
  simp only [blackWhiteValue]
  by_cases ha : v1 > thr
  · have hb : v2 > thr := by omega
    obtain ⟨a0, a1⟩ := hhi1 ha
    obtain ⟨b0, b1⟩ := hhi2 hb
    simp only [ha, hb, if_true]
    have := tdiv_mono (127 * (v1 - thr)) (127 * (v2 - thr)) (255 - thr) (by omega) (by omega)
    exact contrast_mono con thr _ _ hcon hthr0 hthr1 (by omega) (by omega) (by omega)
  · have ha2 : v1 < thr := by omega
    obtain ⟨a0, a1⟩ := hlo1 ha2
    by_cases hb : v2 > thr
    · obtain ⟨b0, b1⟩ := hhi2 hb
      simp only [ha, ha2, hb, if_true, if_false]
      exact contrast_mono con thr _ _ hcon hthr0 hthr1 (by omega) (by omega) (by omega)
    · have hb2 : v2 < thr := by omega
      obtain ⟨b0, b1⟩ := hlo2 hb2
      simp only [ha, ha2, hb, hb2, if_true, if_false]
      exact contrast_mono con thr _ _ hcon hthr0 hthr1 (by omega)
        (tdiv_mono (128 * v1) (128 * v2) thr (by omega) (by omega)) (by omega)

/-- C15 amended, checked with thr = 200, contrast 4 and the gray values 150 and
220, and with the largest contrast 8421504 at thr = 255 on the gray values 0
and 254. -/
theorem blackWhiteValue_monotone_witness :
    (150 : Int) ≠ 200 ∧ (220 : Int) ≠ 200 ∧ (150 : Int) ≤ 220 ∧
    blackWhiteValue 4 200 150 ≤ blackWhiteValue 4 200 220 ∧
    blackWhiteValue 8421504 255 0 ≤ blackWhiteValue 8421504 255 254 :=
  ⟨by decide, by decide, by decide,
   blackWhiteValue_monotone 4 200 150 220 (by decide) (by decide) (by decide) (by decide)
     (by decide) (by decide) (by decide) (by decide),
   blackWhiteValue_monotone 8421504 255 0 254 (by decide) (by decide) (by decide) (by decide)
     (by decide) (by decide) (by decide) (by decide)⟩

end BlackWhite

section Resample

theorem toUInt32_of_inRange (i : Int) (h0 : 0 ≤ i) (h1 : i < 4294967296) :
    toUInt32 i = i.toNat := by
  unfold toUInt32
  omega

theorem toNat_mul_of_nonneg (a b : Int) (ha : 0 ≤ a) (hb : 0 ≤ b) :
    (a * b).toNat = a.toNat * b.toNat := by
  obtain ⟨m, rfl⟩ := Int.eq_ofNat_of_zero_le ha
  obtain ⟨n, rfl⟩ := Int.eq_ofNat_of_zero_le hb
  have h : ((m : Int) * (n : Int)) = ((m * n : Nat) : Int) := by push_cast; rfl
  rw [h]
  exact Int.toNat_ofNat (m * n)

/-- The element of a list of rows of equal length, read from the rows laid end to end. -/
theorem getElem?_flatten_uniform {α : Type} (W : Nat) :
    ∀ (rows : List (List α)) (y x : Nat), (∀ r ∈ rows, r.length = W) → x < W →
      rows.flatten[y * W + x]? = (rows[y]?).bind (fun r => r[x]?) := by
  intro rows
  induction rows with
  | nil => intro y x _ _; simp
  | cons r rs ih =>
    intro y x hlen hx
    have hr : r.length = W := hlen r (List.mem_cons_self _ _)
    cases y with
    | zero =>
      simp only [List.flatten_cons, Nat.zero_mul, Nat.zero_add, List.getElem?_cons_zero,
        Option.some_bind]
      exact List.getElem?_append_left (by omega)
    | succ y =>
      simp only [List.flatten_cons, List.getElem?_cons_succ]
      rw [List.getElem?_append_right (by rw [hr, Nat.succ_mul]; omega)]
      have hidx : (y + 1) * W + x - r.length = y * W + x := by
        rw [hr, Nat.succ_mul]; omega
      rw [hidx]
      exact ih y x (fun r' hr' => hlen r' (List.mem_cons_of_mem _ hr')) hx

/-- The pixel at column `x` and row `y` of the image made by `scalePixmapOnImage`. -/
theorem scalePixmapOnImage_getElem? (src : QPixmap) (scaledWidth scaledHeight : Int)
    (cropRect : QRect) (x y : Nat) (hx : x < cropRect.width.toNat)
    (hy : y < cropRect.height.toNat) :
    (scalePixmapOnImage src scaledWidth scaledHeight cropRect).pixels[
        y * cropRect.width.toNat + x]?
      = some (src.pixels.getD
          ((scaleSrcOffset src.width src.height scaledHeight cropRect.top y +
            toUInt32 (Int.tdiv (wrapInt32 (((x : Int) + cropRect.left) * src.width))
              scaledWidth)) % 4294967296) 0) := by
  simp only [scalePixmapOnImage, scaleXOffset, QPixmap.toImage, QRect.left, QRect.top,
    List.map_map]
  rw [getElem?_flatten_uniform cropRect.width.toNat _ y x (by
    intro r hr
    simp only [List.mem_map, List.mem_range] at hr
    obtain ⟨_, _, rfl⟩ := hr
    simp) hx]
  simp [List.getElem?_map, List.getElem?_range hy, List.getElem?_range hx]

/-- The sampled column (or row) of a coordinate inside the scaled page whose
product with the source size fits an `int`. -/
theorem sample_index (c srcSize scaledSize : Int) (hc0 : 0 ≤ c) (hc1 : c < scaledSize)
    (hs : 0 < srcSize) (hfit : scaledSize * srcSize < 2147483648) :
    Int.tdiv (wrapInt32 (c * srcSize)) scaledSize = c * srcSize / scaledSize ∧
    0 ≤ c * srcSize / scaledSize ∧ c * srcSize / scaledSize < srcSize := by
  have hp0 : 0 ≤ c * srcSize := mul_nonneg hc0 (le_of_lt hs)
  have hp1 : c * srcSize < scaledSize * srcSize := mul_lt_mul_of_pos_right hc1 hs
  rw [wrapInt32_of_inRange _ (by omega) (by omega),
    Int.tdiv_eq_ediv hp0 (by omega)]
  refine ⟨rfl, Int.ediv_nonneg hp0 (by omega), ?_⟩
  apply Int.ediv_lt_of_lt_mul (by omega)
  rw [mul_comm srcSize scaledSize]
  exact hp1

/-- Inside the `int` range the rescale is the reference definition: for every
source of positive size and crop rectangle lying in the scaled page, when the
products scaledWidth * srcWidth, scaledHeight * srcHeight and
srcWidth * srcHeight fit an `int`, `scalePixmapOnImage` yields the image of
the specification: of the size of the crop rectangle, its pixel at `(x, y)`
being the source pixel at column `floor((x + destLeft) * srcW / scaledW)` and
row `floor((y + destTop) * srcH / scaledH)`. -/
theorem scalePixmapOnImage_eq_spec (src : QPixmap) (scaledWidth scaledHeight : Int)
    (cropRect : QRect) (hW : 0 < src.width) (hH : 0 < src.height)
    (hl : 0 ≤ cropRect.left) (ht : 0 ≤ cropRect.top)
    (hr : cropRect.right < scaledWidth) (hb : cropRect.bottom < scaledHeight)
    (hfx : scaledWidth * src.width < 2147483648)
    (hfy : scaledHeight * src.height < 2147483648)
    (hfs : src.width * src.height < 2147483648) :
    scalePixmapOnImage src scaledWidth scaledHeight cropRect
      = rescaleBySpec src scaledWidth scaledHeight cropRect := by
  simp only [scalePixmapOnImage, rescaleBySpec, scaleXOffset, List.map_map, QImage.mk.injEq,
    true_and]
  congr 1
  apply List.map_congr_left
  intro y hy
  apply List.map_congr_left
  intro x hx
  simp only [List.mem_range] at hx hy
  simp only [QRect.width, QRect.height, QRect.left, QRect.top, QRect.right, QRect.bottom]
    at hx hy hl ht hr hb ⊢
  obtain ⟨hcx, hcx0, hcx1⟩ := sample_index ((x : Int) + cropRect.x1) src.width scaledWidth
    (by omega) (by omega) hW hfx
  obtain ⟨hcy, hcy0, hcy1⟩ := sample_index ((y : Int) + cropRect.y1) src.height scaledHeight
    (by omega) (by omega) hH hfy
  have hcy' : Int.tdiv (wrapInt32 ((cropRect.y1 + (y : Int)) * src.height)) scaledHeight
      = ((y : Int) + cropRect.y1) * src.height / scaledHeight := by
    rw [add_comm cropRect.y1 (y : Int)]; exact hcy
  have hrow : src.width * (((y : Int) + cropRect.y1) * src.height / scaledHeight)
      ≤ src.width * (src.height - 1) :=
    mul_le_mul_of_nonneg_left (by omega) (le_of_lt hW)
  have hrow0 : 0 ≤ src.width * (((y : Int) + cropRect.y1) * src.height / scaledHeight) :=
    mul_nonneg (le_of_lt hW) hcy0
  have hexp : src.width * (src.height - 1) = src.width * src.height - src.width := by ring
  simp only [Function.comp, scaleSrcOffset, QPixmap.toImage, hcx, hcy', QPixmap.pixelAt]
  rw [toUInt32_of_inRange _ hcx0 (by omega), toUInt32_of_inRange _ hrow0 (by omega)]
  rw [if_pos ⟨hcx0, hcx1, hcy0, hcy1⟩]
  congr 1
  rw [mul_comm (((y : Int) + cropRect.y1) * src.height / scaledHeight) src.width]
  have hsum : (src.width * (((y : Int) + cropRect.y1) * src.height / scaledHeight)).toNat
      + (((x : Int) + cropRect.x1) * src.width / scaledWidth).toNat < 4294967296 := by
    omega
  rw [Nat.mod_eq_of_lt hsum]
  omega

/-- The rescale of a source of 2 x 2 pixels scaled to 4 x 4 and cropped at
(1, 1, 3, 3) is the image of the reference definition. -/
theorem scalePixmapOnImage_eq_spec_example :
    scalePixmapOnImage ⟨2, 2, [1, 2, 3, 4]⟩ 4 4 (QRect.ofSize 1 1 3 3)
      = rescaleBySpec ⟨2, 2, [1, 2, 3, 4]⟩ 4 4 (QRect.ofSize 1 1 3 3) ∧
    (scalePixmapOnImage ⟨2, 2, [1, 2, 3, 4]⟩ 4 4 (QRect.ofSize 1 1 3 3)).pixels
      = [1, 2, 2, 3, 4, 4, 3, 4, 4] :=
  ⟨scalePixmapOnImage_eq_spec ⟨2, 2, [1, 2, 3, 4]⟩ 4 4 (QRect.ofSize 1 1 3 3) (by decide)
     (by decide) (by decide) (by decide) (by decide) (by decide) (by decide) (by decide)
     (by decide),
   by decide⟩

/-- The images of the total `scalePixmapOnImage` are resolution-consistent: for
every source, scaled size, rectangle `R` and sub-rectangle `S` of `R`, the
image for the crop rectangle `R` cropped at `S` (taken relative to the origin
of `R`) is pixel for pixel the image for the crop rectangle `S`.  Whether the
code yields these images is the matter of `scalePixmapOnImageChecked`. -/
theorem rescale_then_crop (src : QPixmap) (scaledWidth scaledHeight : Int) (R S : QRect)
    (hx1 : R.x1 ≤ S.x1) (hx2 : S.x2 ≤ R.x2) (hy1 : R.y1 ≤ S.y1) (hy2 : S.y2 ≤ R.y2) :
    cropPixmapOnImage (QPixmap.fromImage (scalePixmapOnImage src scaledWidth scaledHeight R))
        (S.translate (-R.left) (-R.top))
      = scalePixmapOnImage src scaledWidth scaledHeight S := by
  by_cases hfull : S.translate (-R.left) (-R.top)
      = QRect.ofSize 0 0
          (QPixmap.fromImage (scalePixmapOnImage src scaledWidth scaledHeight R)).width
          (QPixmap.fromImage (scalePixmapOnImage src scaledWidth scaledHeight R)).height
  · have hSR : S = R := by
      obtain ⟨a, b, c, d⟩ := S
      obtain ⟨a', b', c', d'⟩ := R
      simp only [QRect.translate, QRect.ofSize, QRect.left, QRect.top, QPixmap.fromImage,
        scalePixmapOnImage, QRect.width, QRect.height, QRect.mk.injEq] at hfull
      simp only [QRect.mk.injEq]
      omega
    simp only [cropPixmapOnImage, hfull, if_true]
    rw [hSR]
    rfl
  · simp only [cropPixmapOnImage, hfull, if_false]
    have hw : (S.translate (-R.left) (-R.top)).width = S.width := by
      simp only [QRect.translate, QRect.width]; omega
    have hh : (S.translate (-R.left) (-R.top)).height = S.height := by
      simp only [QRect.translate, QRect.height]; omega
    rw [hw, hh]
    have hrhs : scalePixmapOnImage src scaledWidth scaledHeight S
        = ⟨S.width, S.height,
            ((List.range S.height.toNat).map (fun (y : Nat) =>
              (List.range S.width.toNat).map (fun (x : Nat) =>
                src.pixels.getD
                  ((scaleSrcOffset src.width src.height scaledHeight S.top y +
                    toUInt32 (Int.tdiv (wrapInt32 (((x : Int) + S.left) * src.width))
                      scaledWidth)) % 4294967296) 0))).flatten⟩ := by
      simp only [scalePixmapOnImage, scaleXOffset, List.map_map, QPixmap.toImage]
      rfl
    rw [hrhs]
    simp only [QImage.mk.injEq, true_and]
    congr 1
    apply List.map_congr_left
    intro y hy
    apply List.map_congr_left
    intro x hx
    simp only [List.mem_range] at hx hy
    simp only [QRect.width, QRect.height] at hx hy
    have hX0 : 0 ≤ (S.translate (-R.left) (-R.top)).left + (x : Int) := by
      simp only [QRect.translate, QRect.left]; omega
    have hX1 : (S.translate (-R.left) (-R.top)).left + (x : Int) < R.width := by
      simp only [QRect.translate, QRect.left, QRect.width]; omega
    have hY0 : 0 ≤ (S.translate (-R.left) (-R.top)).top + (y : Int) := by
      simp only [QRect.translate, QRect.top]; omega
    have hY1 : (S.translate (-R.left) (-R.top)).top + (y : Int) < R.height := by
      simp only [QRect.translate, QRect.top, QRect.height]; omega
    have hpix := scalePixmapOnImage_getElem? src scaledWidth scaledHeight R
      ((S.translate (-R.left) (-R.top)).left + (x : Int)).toNat
      ((S.translate (-R.left) (-R.top)).top + (y : Int)).toNat (by omega) (by omega)
    have hwR : (QPixmap.fromImage (scalePixmapOnImage src scaledWidth scaledHeight R)).width
        = R.width := rfl
    have hhR : (QPixmap.fromImage (scalePixmapOnImage src scaledWidth scaledHeight R)).height
        = R.height := rfl
    have hpR : (QPixmap.fromImage (scalePixmapOnImage src scaledWidth scaledHeight R)).pixels
        = (scalePixmapOnImage src scaledWidth scaledHeight R).pixels := rfl
    simp only [QPixmap.pixelAt, hwR, hhR, hpR]
    rw [if_pos ⟨hX0, hX1, hY0, hY1⟩, List.getD_eq_getElem?_getD]
    have hidx : (((S.translate (-R.left) (-R.top)).top + (y : Int)) * R.width
          + ((S.translate (-R.left) (-R.top)).left + (x : Int))).toNat
        = ((S.translate (-R.left) (-R.top)).top + (y : Int)).toNat * R.width.toNat
          + ((S.translate (-R.left) (-R.top)).left + (x : Int)).toNat := by
      have hRw : 0 ≤ R.width := by omega
      rw [Int.toNat_add (mul_nonneg hY0 hRw) hX0, toNat_mul_of_nonneg _ _ hY0 hRw]
    rw [hidx, hpix]
    simp only [Option.getD_some]
    have hxx : ((((S.translate (-R.left) (-R.top)).left + (x : Int)).toNat : Int) + R.left)
        = (x : Int) + S.left := by
      rw [Int.toNat_of_nonneg hX0]
      simp only [QRect.translate, QRect.left]; omega
    have hyy : scaleSrcOffset src.width src.height scaledHeight R.top
          ((S.translate (-R.left) (-R.top)).top + (y : Int)).toNat
        = scaleSrcOffset src.width src.height scaledHeight S.top y := by
      simp only [scaleSrcOffset]
      have : R.top + ((((S.translate (-R.left) (-R.top)).top + (y : Int)).toNat : Nat) : Int)
          = S.top + (y : Int) := by
        rw [Int.toNat_of_nonneg hY0]
        simp only [QRect.translate, QRect.top]; omega
      rw [this]
    rw [hxx, hyy]

/-- On a source of 2 x 2 pixels scaled to 4 x 4: the rectangle (1, 1, 2, 2)
cropped from the rescale of (0, 0, 4, 4). -/
theorem rescale_then_crop_example :
    (QRect.ofSize 0 0 4 4).x1 ≤ (QRect.ofSize 1 1 2 2).x1 ∧
    (QRect.ofSize 1 1 2 2).x2 ≤ (QRect.ofSize 0 0 4 4).x2 ∧
    cropPixmapOnImage
        (QPixmap.fromImage (scalePixmapOnImage ⟨2, 2, [1, 2, 3, 4]⟩ 4 4 (QRect.ofSize 0 0 4 4)))
        ((QRect.ofSize 1 1 2 2).translate (-(QRect.ofSize 0 0 4 4).left)
          (-(QRect.ofSize 0 0 4 4).top))
      = scalePixmapOnImage ⟨2, 2, [1, 2, 3, 4]⟩ 4 4 (QRect.ofSize 1 1 2 2) ∧
    (scalePixmapOnImage ⟨2, 2, [1, 2, 3, 4]⟩ 4 4 (QRect.ofSize 1 1 2 2)).pixels
      = [1, 2, 3, 4] :=
  ⟨by decide, by decide,
   rescale_then_crop ⟨2, 2, [1, 2, 3, 4]⟩ 4 4 (QRect.ofSize 0 0 4 4) (QRect.ofSize 1 1 2 2)
     (by decide) (by decide) (by decide) (by decide),
   by decide⟩

end Resample

section Highlights

theorem channel_bounds (p : Nat) :
    0 ≤ qRed p ∧ qRed p ≤ 255 ∧ 0 ≤ qGreen p ∧ qGreen p ≤ 255 ∧ 0 ≤ qBlue p ∧ qBlue p ≤ 255 := by
  simp only [qRed, qGreen, qBlue]
  omega

theorem channels_qRgba (r g b a : Int) (hr0 : 0 ≤ r) (hr1 : r ≤ 255) (hg0 : 0 ≤ g)
    (hg1 : g ≤ 255) (hb0 : 0 ≤ b) (hb1 : b ≤ 255) (ha0 : 0 ≤ a) (ha1 : a ≤ 255) :
    qRed (qRgba r g b a) = r ∧ qGreen (qRgba r g b a) = g ∧ qBlue (qRgba r g b a) = b ∧
    qAlpha (qRgba r g b a) = a := by
  simp only [qRed, qGreen, qBlue, qAlpha, qRgba]
  omega

theorem qRgba_of_opaque (p : Nat) (h : IsOpaquePixel p) :
    qRgba (qRed p) (qGreen p) (qBlue p) 255 = p := by
  obtain ⟨ha, hp⟩ := h
  simp only [qRed, qGreen, qBlue, qAlpha, qRgba] at *
  omega

/-- The composition with white rewrites the three colour channels as they are. -/
theorem highlightPixel_white (p : Nat) :
    highlightPixel 255 255 255 p = qRgba (qRed p) (qGreen p) (qBlue p) 255 := by
  obtain ⟨h1, h2, h3, h4, h5, h6⟩ := channel_bounds p
  simp only [highlightPixel]
  rw [Int.tdiv_eq_ediv (by omega) (by omega), Int.tdiv_eq_ediv (by omega) (by omega),
    Int.tdiv_eq_ediv (by omega) (by omega)]
  have e1 : qRed p * 255 / 255 = qRed p := by omega
  have e2 : qGreen p * 255 / 255 = qGreen p := by omega
  have e3 : qBlue p * 255 / 255 = qBlue p := by omega
  rw [e1, e2, e3]

theorem updatePixel_getElem? (data : List Nat) (i : Int) (f : Nat → Nat) (j : Nat) :
    (updatePixel data i f)[j]? = if i = (j : Int) then (data[j]?).map f else data[j]? := by
  unfold updatePixel
  by_cases hi : 0 ≤ i
  · rw [if_pos hi, List.getElem?_modify]
    by_cases hij : i = (j : Int)
    · have : i.toNat = j := by omega
      simp [hij]
    · have : i.toNat ≠ j := by omega
      simp [hij, this]
  · rw [if_neg hi]
    have : i ≠ (j : Int) := by omega
    simp [this]

/-- Writing through a function that fixes every pixel of the buffer changes nothing. -/
theorem updatePixel_of_fixed (data : List Nat) (i : Int) (f : Nat → Nat)
    (hf : ∀ p ∈ data, f p = p) : updatePixel data i f = data := by
  apply List.ext_getElem?
  intro j
  rw [updatePixel_getElem?]
  split
  · cases hj : data[j]? with
    | none => rfl
    | some p =>
      have hp : p ∈ data := List.getElem?_mem hj
      simp [hf p hp]
  · rfl

/-- Writing through a function that keeps a projection of every pixel keeps
the projection of the buffer. -/
theorem updatePixel_map {β : Type} (g : Nat → β) (data : List Nat) (i : Int) (f : Nat → Nat)
    (hf : ∀ p, g (f p) = g p) : (updatePixel data i f).map g = data.map g := by
  apply List.ext_getElem?
  intro j
  rw [List.getElem?_map, List.getElem?_map, updatePixel_getElem?]
  split
  · cases data[j]? <;> simp [hf]
  · rfl

theorem highlightRectOnImage_of_fixed (backImage : QImage) (highlightRect : QRect)
    (rh gh bh : Int) (hf : ∀ p ∈ backImage.pixels, highlightPixel rh gh bh p = p) :
    highlightRectOnImage backImage highlightRect rh gh bh = backImage := by
  have hrow : ∀ (xs : List Int) (offset : Int),
      xs.foldl (fun data x => updatePixel data (x + offset) (highlightPixel rh gh bh))
        backImage.pixels = backImage.pixels := by
    intro xs offset
    induction xs with
    | nil => rfl
    | cons x xs ih => rw [List.foldl_cons, updatePixel_of_fixed _ _ _ hf, ih]
  have hall : ∀ (ys xs : List Int),
      ys.foldl (fun data y =>
        xs.foldl (fun data x =>
          updatePixel data (x + y * backImage.width) (highlightPixel rh gh bh)) data)
        backImage.pixels = backImage.pixels := by
    intro ys xs
    induction ys with
    | nil => rfl
    | cons y ys ih => rw [List.foldl_cons, hrow, ih]
  simp only [highlightRectOnImage, hall]

theorem highlightRectOnImage_map {β : Type} (g : Nat → β) (backImage : QImage)
    (highlightRect : QRect) (rh gh bh : Int) (hf : ∀ p, g (highlightPixel rh gh bh p) = g p) :
    (highlightRectOnImage backImage highlightRect rh gh bh).pixels.map g
      = backImage.pixels.map g := by
  have hrow : ∀ (xs : List Int) (offset : Int) (data : List Nat),
      (xs.foldl (fun data x => updatePixel data (x + offset) (highlightPixel rh gh bh))
        data).map g = data.map g := by
    intro xs offset
    induction xs with
    | nil => intro data; rfl
    | cons x xs ih =>
      intro data
      rw [List.foldl_cons, ih, updatePixel_map g _ _ _ hf]
  have hall : ∀ (ys xs : List Int) (data : List Nat),
      (ys.foldl (fun data y =>
        xs.foldl (fun data x =>
          updatePixel data (x + y * backImage.width) (highlightPixel rh gh bh)) data)
        data).map g = data.map g := by
    intro ys xs
    induction ys with
    | nil => intro data; rfl
    | cons y ys ih =>
      intro data
      rw [List.foldl_cons, ih, hrow]
  simp only [highlightRectOnImage, hall]

/-- C16 as stated fails: a white span over an image of one pixel whose alpha is
128 turns the pixel 0x80FFFFFF into 0xFFFFFFFF. -/
theorem white_span_sets_alpha :
    paintHighlights refExtern [(QColor.white, ⟨0, 0, 1, 1⟩)] 1 1 (QRect.ofSize 0 0 1 1)
        ⟨1, 1, [2164260863]⟩
      = ⟨1, 1, [4294967295]⟩ := by
  decide!

theorem mem_intRange (lo hi v : Int) : v ∈ intRange lo hi ↔ lo ≤ v ∧ v ≤ hi := by
  simp only [intRange, List.mem_map, List.mem_range]
  constructor
  · rintro ⟨k, hk, rfl⟩
    omega
  · rintro ⟨h1, h2⟩
    exact ⟨(v - lo).toNat, by omega, by omega⟩

theorem nodup_intRange (lo hi : Int) : (intRange lo hi).Nodup := by
  unfold intRange
  apply List.Nodup.map _ (List.nodup_range _)
  intro a b hab
  simp only at hab
  omega

/-- A pixel index inside a row of width `W` determines its row and its column. -/
theorem row_column_unique (W x x2 a b : Int) (hx0 : 0 ≤ x) (hx1 : x < W) (hy0 : 0 ≤ x2)
    (hy1 : x2 < W) (h : x + a * W = x2 + b * W) : a = b ∧ x = x2 := by
  have hab : a = b := by
    rcases lt_trichotomy a b with hlt | heq | hgt
    · exfalso
      have := mul_le_mul_of_nonneg_right (show 1 ≤ b - a by omega) (show 0 ≤ W by omega)
      nlinarith
    · exact heq
    · exfalso
      have := mul_le_mul_of_nonneg_right (show 1 ≤ a - b by omega) (show 0 ≤ W by omega)
      nlinarith
  subst hab
  exact ⟨rfl, by omega⟩

/-- The writes of a list of distinct indices: each listed pixel is rewritten once. -/
theorem foldl_updatePixel_getElem? (f : Nat → Nat) :
    ∀ (is : List Int) (data : List Nat) (j : Nat), is.Nodup →
      (is.foldl (fun d i => updatePixel d i f) data)[j]?
        = if (j : Int) ∈ is then (data[j]?).map f else data[j]? := by
  intro is
  induction is with
  | nil => intro data j _; simp
  | cons i is ih =>
    intro data j hnd
    rw [List.nodup_cons] at hnd
    rw [List.foldl_cons, ih _ j hnd.2, updatePixel_getElem?]
    by_cases hij : i = (j : Int)
    · have hj : (j : Int) ∉ is := by rw [← hij]; exact hnd.1
      simp [hij, hj]
    · have hji : ¬ (j : Int) = i := fun h => hij h.symm
      by_cases hj : (j : Int) ∈ is
      · simp [hij, hj]
      · simp [hij, hj, hji]

/-- The two nested loops of step 4B.3 as one pass over the indices they visit. -/
theorem nested_foldl_updatePixel (f : Nat → Nat) (W : Int) (xs : List Int) :
    ∀ (ys : List Int) (data : List Nat),
      ys.foldl (fun data y =>
          xs.foldl (fun data x => updatePixel data (x + y * W) f) data) data
        = (ys.flatMap (fun y => xs.map (fun x => x + y * W))).foldl
            (fun d i => updatePixel d i f) data := by
  intro ys
  induction ys with
  | nil => intro data; rfl
  | cons y ys ih =>
    intro data
    rw [List.foldl_cons, ih, List.flatMap_cons, List.foldl_append, List.foldl_map]

/-- The pixels of an image after the loops of step 4B.3, for a rectangle that
lies in the columns of the image. -/
theorem highlightRectOnImage_getElem? (backImage : QImage) (highlightRect : QRect)
    (rh gh bh : Int) (hl : 0 ≤ highlightRect.x1) (hr : highlightRect.x2 < backImage.width)
    (x y : Int) (hx0 : 0 ≤ x) (hx1 : x < backImage.width) (hy0 : 0 ≤ y) :
    (highlightRectOnImage backImage highlightRect rh gh bh).pixels[
        (y * backImage.width + x).toNat]?
      = if highlightRect.contains x y = true then
          (backImage.pixels[(y * backImage.width + x).toNat]?).map (highlightPixel rh gh bh)
        else backImage.pixels[(y * backImage.width + x).toNat]? := by
  have hW : 0 ≤ backImage.width := by omega
  have hnd : ((intRange highlightRect.top highlightRect.bottom).flatMap (fun y =>
      (intRange highlightRect.left highlightRect.right).map
        (fun x => x + y * backImage.width))).Nodup := by
    rw [List.nodup_flatMap]
    constructor
    · intro a _
      apply List.Nodup.map _ (nodup_intRange _ _)
      intro u v huv
      simp only at huv
      omega
    · apply List.Pairwise.imp _ (nodup_intRange _ _)
      intro a b hab
      simp only [Function.onFun]
      intro v hva hvb
      simp only [List.mem_map, mem_intRange, QRect.left, QRect.right] at hva hvb
      obtain ⟨u, hu, rfl⟩ := hva
      obtain ⟨w, hw, hwe⟩ := hvb
      exact hab (row_column_unique backImage.width u w a b (by omega) (by omega) (by omega)
        (by omega) hwe.symm).1
  have hidx : (((y * backImage.width + x).toNat : Nat) : Int) = x + y * backImage.width := by
    rw [Int.toNat_of_nonneg (add_nonneg (mul_nonneg hy0 hW) hx0)]
    ring
  simp only [highlightRectOnImage, nested_foldl_updatePixel]
  rw [foldl_updatePixel_getElem? _ _ _ _ hnd, hidx]
  have hmem : (x + y * backImage.width ∈
      (intRange highlightRect.top highlightRect.bottom).flatMap (fun y =>
        (intRange highlightRect.left highlightRect.right).map
          (fun x => x + y * backImage.width)))
      ↔ highlightRect.contains x y = true := by
    simp only [List.mem_flatMap, List.mem_map, mem_intRange, QRect.left, QRect.right,
      QRect.top, QRect.bottom, QRect.contains, Bool.and_eq_true, decide_eq_true_eq]
    constructor
    · rintro ⟨b, hb, u, hu, he⟩
      obtain ⟨h1, h2⟩ := row_column_unique backImage.width u x b y (by omega) (by omega) hx0
        hx1 he
      subst h1 h2
      exact ⟨⟨⟨hu.1, hu.2⟩, hb.1⟩, hb.2⟩
    · rintro ⟨⟨⟨h1, h2⟩, h3⟩, h4⟩
      exact ⟨y, ⟨h3, h4⟩, x, ⟨h1, h2⟩, rfl⟩
  by_cases hc : highlightRect.contains x y = true
  · rw [if_pos (hmem.2 hc), if_pos hc]
  · rw [if_neg (fun h => hc (hmem.1 h)), if_neg hc]

theorem highlightPixel_eq (rh gh bh : Int) (hr : 0 ≤ rh) (hg : 0 ≤ gh) (hb : 0 ≤ bh) (p : Nat) :
    highlightPixel rh gh bh p
      = qRgba (qRed p * rh / 255) (qGreen p * gh / 255) (qBlue p * bh / 255) 255 := by
  obtain ⟨h1, _, h3, _, h5, _⟩ := channel_bounds p
  simp only [highlightPixel]
  rw [Int.tdiv_eq_ediv (mul_nonneg h1 hr) (by decide),
    Int.tdiv_eq_ediv (mul_nonneg h3 hg) (by decide),
    Int.tdiv_eq_ediv (mul_nonneg h5 hb) (by decide)]

theorem highlightRectOnImage_of_empty (backImage : QImage) (highlightRect : QRect)
    (rh gh bh : Int) (h : highlightRect.y2 < highlightRect.y1) :
    highlightRectOnImage backImage highlightRect rh gh bh = backImage := by
  have hys : intRange highlightRect.top highlightRect.bottom = [] := by
    simp only [intRange, QRect.top, QRect.bottom]
    have : (highlightRect.y2 - highlightRect.y1 + 1).toNat = 0 := by omega
    rw [this]
    rfl
  simp only [highlightRectOnImage, hys, List.foldl_nil]

/-- A product of two channel values divided by 255 is a channel value. -/
theorem blend_bounds (v c : Int) (hv0 : 0 ≤ v) (hv1 : v ≤ 255) (hc0 : 0 ≤ c) (hc1 : c ≤ 255) :
    0 ≤ v * c / 255 ∧ v * c / 255 ≤ 255 := by
  have h0 : 0 ≤ v * c := mul_nonneg hv0 hc0
  have h1 : v * c ≤ 255 * 255 := mul_le_mul hv1 hc1 hc0 (by decide)
  constructor
  · exact Int.ediv_nonneg h0 (by decide)
  · have := Int.ediv_le_ediv (show (0 : Int) < 255 by decide) h1
    omega

/-- The loops of step 4B.3 keep the number of pixels of the buffer. -/
theorem highlightRectOnImage_length (backImage : QImage) (highlightRect : QRect)
    (rh gh bh : Int) :
    (highlightRectOnImage backImage highlightRect rh gh bh).pixels.length
      = backImage.pixels.length := by
  have h := congrArg List.length
    (highlightRectOnImage_map (fun _ => ()) backImage highlightRect rh gh bh (fun _ => rfl))
  simpa using h

/-- The spans are composed one after the other. -/
theorem paintHighlights_cons (X : Extern) (h : QColor × NormalizedRect)
    (hs : List (QColor × NormalizedRect)) (scaledWidth scaledHeight : Int) (limits : QRect)
    (backImage : QImage) :
    paintHighlights X (h :: hs) scaledWidth scaledHeight limits backImage
      = paintHighlights X hs scaledWidth scaledHeight limits
          (paintHighlights X [h] scaledWidth scaledHeight limits backImage) := rfl

/-- The pixel at `(x, y)` of a working image of the width of `limits` after one
span is composed: rewritten by `highlightPixel` where the page position lies
in the rectangle of the span clipped to `limits`, kept elsewhere. -/
theorem paintHighlights_single_getD (X : Extern) (h : QColor × NormalizedRect)
    (scaledWidth scaledHeight : Int) (limits : QRect) (backImage : QImage)
    (hw : backImage.width = limits.width)
    (hlen : backImage.pixels.length = (backImage.width * backImage.height).toNat)
    (x y : Int) (hx0 : 0 ≤ x) (hx1 : x < backImage.width) (hy0 : 0 ≤ y)
    (hy1 : y < backImage.height) :
    (paintHighlights X [h] scaledWidth scaledHeight limits backImage).pixels.getD
        (y * backImage.width + x).toNat 0
      = if ((X.geometry h.2 scaledWidth scaledHeight).intersect limits).contains
            (x + limits.left) (y + limits.top) = true then
          highlightPixel h.1.red h.1.green h.1.blue
            (backImage.pixels.getD (y * backImage.width + x).toNat 0)
        else backImage.pixels.getD (y * backImage.width + x).toNat 0 := by
  have hpaint : paintHighlights X [h] scaledWidth scaledHeight limits backImage
      = highlightRectOnImage backImage
          (((X.geometry h.2 scaledWidth scaledHeight).intersect limits).translate
            (-limits.left) (-limits.top)) h.1.red h.1.green h.1.blue := rfl
  rw [hpaint]
  have hW : 0 < backImage.width := by omega
  have hn : (y * backImage.width + x).toNat < backImage.pixels.length := by
    rw [hlen]
    have h1 : y * backImage.width ≤ (backImage.height - 1) * backImage.width :=
      mul_le_mul_of_nonneg_right (by omega) (le_of_lt hW)
    have h2 : (backImage.height - 1) * backImage.width
        = backImage.width * backImage.height - backImage.width := by ring
    have h3 : 0 ≤ y * backImage.width := mul_nonneg hy0 (le_of_lt hW)
    omega
  have hsome : backImage.pixels[(y * backImage.width + x).toNat]?
      = some (backImage.pixels.getD (y * backImage.width + x).toNat 0) := by
    rw [List.getD_eq_getElem?_getD, List.getElem?_eq_getElem hn]
    rfl
  by_cases hemp : (⟨max (X.geometry h.2 scaledWidth scaledHeight).x1 limits.x1,
      max (X.geometry h.2 scaledWidth scaledHeight).y1 limits.y1,
      min (X.geometry h.2 scaledWidth scaledHeight).x2 limits.x2,
      min (X.geometry h.2 scaledWidth scaledHeight).y2 limits.y2⟩ : QRect).isEmpty = true
  · have hint : (X.geometry h.2 scaledWidth scaledHeight).intersect limits = QRect.null := by
      simp only [QRect.intersect, hemp, if_true]
    rw [hint, highlightRectOnImage_of_empty _ _ _ _ _ (by
      simp only [QRect.translate, QRect.null]; omega)]
    have hc : QRect.null.contains (x + limits.left) (y + limits.top) = false := by
      simp only [QRect.contains, QRect.null, Bool.and_eq_false_iff, decide_eq_false_iff_not]
      omega
    rw [hc]
    simp
  · have hint : (X.geometry h.2 scaledWidth scaledHeight).intersect limits
        = ⟨max (X.geometry h.2 scaledWidth scaledHeight).x1 limits.x1,
           max (X.geometry h.2 scaledWidth scaledHeight).y1 limits.y1,
           min (X.geometry h.2 scaledWidth scaledHeight).x2 limits.x2,
           min (X.geometry h.2 scaledWidth scaledHeight).y2 limits.y2⟩ := by
      simp only [QRect.intersect, hemp]
      rfl
    rw [hint]
    have hl : 0 ≤ ((⟨max (X.geometry h.2 scaledWidth scaledHeight).x1 limits.x1,
           max (X.geometry h.2 scaledWidth scaledHeight).y1 limits.y1,
           min (X.geometry h.2 scaledWidth scaledHeight).x2 limits.x2,
           min (X.geometry h.2 scaledWidth scaledHeight).y2 limits.y2⟩ : QRect).translate
          (-limits.left) (-limits.top)).x1 := by
      simp only [QRect.translate, QRect.left]
      omega
    have hr : ((⟨max (X.geometry h.2 scaledWidth scaledHeight).x1 limits.x1,
           max (X.geometry h.2 scaledWidth scaledHeight).y1 limits.y1,
           min (X.geometry h.2 scaledWidth scaledHeight).x2 limits.x2,
           min (X.geometry h.2 scaledWidth scaledHeight).y2 limits.y2⟩ : QRect).translate
          (-limits.left) (-limits.top)).x2 < backImage.width := by
      simp only [QRect.translate, QRect.left, hw, QRect.width]
      omega
    rw [List.getD_eq_getElem?_getD,
      highlightRectOnImage_getElem? _ _ _ _ _ hl hr x y hx0 hx1 hy0, hsome]
    have hcon : ((⟨max (X.geometry h.2 scaledWidth scaledHeight).x1 limits.x1,
           max (X.geometry h.2 scaledWidth scaledHeight).y1 limits.y1,
           min (X.geometry h.2 scaledWidth scaledHeight).x2 limits.x2,
           min (X.geometry h.2 scaledWidth scaledHeight).y2 limits.y2⟩ : QRect).translate
          (-limits.left) (-limits.top)).contains x y
        = (⟨max (X.geometry h.2 scaledWidth scaledHeight).x1 limits.x1,
           max (X.geometry h.2 scaledWidth scaledHeight).y1 limits.y1,
           min (X.geometry h.2 scaledWidth scaledHeight).x2 limits.x2,
           min (X.geometry h.2 scaledWidth scaledHeight).y2 limits.y2⟩ : QRect).contains
          (x + limits.left) (y + limits.top) := by
      simp only [QRect.translate, QRect.contains, QRect.left, QRect.top]
      congr 1
      · congr 1
        · congr 1
          · apply decide_eq_decide.2; constructor <;> intro h <;> omega
          · apply decide_eq_decide.2; constructor <;> intro h <;> omega
        · apply decide_eq_decide.2; constructor <;> intro h <;> omega
      · apply decide_eq_decide.2; constructor <;> intro h <;> omega
    rw [hcon]
    split
    · simp only [Option.map_some', Option.getD_some]
    · simp only [Option.getD_some]

/-- Composing white on a pixel already composed with white changes nothing. -/
theorem highlightPixel_white_twice (p : Nat) :
    highlightPixel 255 255 255 (highlightPixel 255 255 255 p)
      = highlightPixel 255 255 255 p := by
  obtain ⟨h1, h2, h3, h4, h5, h6⟩ := channel_bounds p
  obtain ⟨e1, e2, e3, _⟩ := channels_qRgba (qRed p) (qGreen p) (qBlue p) 255 h1 h2 h3 h4 h5 h6
    (by decide) (by decide)
  rw [highlightPixel_white p, highlightPixel_white, e1, e2, e3]

/-- The pixel at `(x, y)` after white spans are composed: rewritten once by the
composition with white when a span covers it, kept when none does. -/
theorem white_spans_getD (X : Extern) (scaledWidth scaledHeight : Int) (limits : QRect) :
    ∀ (hs : List (QColor × NormalizedRect)) (backImage : QImage),
      (∀ h ∈ hs, h.1.red = 255 ∧ h.1.green = 255 ∧ h.1.blue = 255) →
      backImage.width = limits.width →
      backImage.pixels.length = (backImage.width * backImage.height).toNat →
      ∀ x y : Int, 0 ≤ x → x < backImage.width → 0 ≤ y → y < backImage.height →
        ((∃ h ∈ hs, ((X.geometry h.2 scaledWidth scaledHeight).intersect limits).contains
            (x + limits.left) (y + limits.top) = true) →
          (paintHighlights X hs scaledWidth scaledHeight limits backImage).pixels.getD
              (y * backImage.width + x).toNat 0
            = highlightPixel 255 255 255
                (backImage.pixels.getD (y * backImage.width + x).toNat 0)) ∧
        ((∀ h ∈ hs, ((X.geometry h.2 scaledWidth scaledHeight).intersect limits).contains
            (x + limits.left) (y + limits.top) = false) →
          (paintHighlights X hs scaledWidth scaledHeight limits backImage).pixels.getD
              (y * backImage.width + x).toNat 0
            = backImage.pixels.getD (y * backImage.width + x).toNat 0) := by
  intro hs
  induction hs with
  | nil =>
    intro backImage _ _ _ x y _ _ _ _
    refine ⟨?_, fun _ => rfl⟩
    rintro ⟨h, hh, _⟩
    exact absurd hh (List.not_mem_nil h)
  | cons h hs ih =>
    intro backImage hwhite hw hlen x y hx0 hx1 hy0 hy1
    obtain ⟨hr, hg, hb⟩ := hwhite h (List.mem_cons_self _ _)
    have hstep := paintHighlights_single_getD X h scaledWidth scaledHeight limits backImage hw
      hlen x y hx0 hx1 hy0 hy1
    rw [hr, hg, hb] at hstep
    have hlen2 : (paintHighlights X [h] scaledWidth scaledHeight limits backImage).pixels.length
        = ((paintHighlights X [h] scaledWidth scaledHeight limits backImage).width
            * (paintHighlights X [h] scaledWidth scaledHeight limits backImage).height).toNat := by
      have e : (paintHighlights X [h] scaledWidth scaledHeight limits backImage).pixels.length
          = backImage.pixels.length := highlightRectOnImage_length _ _ _ _ _
      rw [e, hlen]
      rfl
    obtain ⟨ih1, ih2⟩ := ih (paintHighlights X [h] scaledWidth scaledHeight limits backImage)
      (fun h' hh' => hwhite h' (List.mem_cons_of_mem _ hh')) hw hlen2 x y hx0 hx1 hy0 hy1
    have hwid : (paintHighlights X [h] scaledWidth scaledHeight limits backImage).width
        = backImage.width := rfl
    rw [hwid] at ih1 ih2
    rw [paintHighlights_cons]
    constructor
    · rintro ⟨h', hh', hc'⟩
      by_cases hrest : ∃ h'' ∈ hs,
          ((X.geometry h''.2 scaledWidth scaledHeight).intersect limits).contains
            (x + limits.left) (y + limits.top) = true
      · rw [ih1 hrest, hstep]
        split
        · exact highlightPixel_white_twice _
        · rfl
      · have hnone : ∀ h'' ∈ hs,
            ((X.geometry h''.2 scaledWidth scaledHeight).intersect limits).contains
              (x + limits.left) (y + limits.top) = false := by
          intro h'' hh''
          cases hcase : ((X.geometry h''.2 scaledWidth scaledHeight).intersect limits).contains
              (x + limits.left) (y + limits.top) with
          | false => rfl
          | true => exact absurd ⟨h'', hh'', hcase⟩ hrest
        have hfirst : ((X.geometry h.2 scaledWidth scaledHeight).intersect limits).contains
            (x + limits.left) (y + limits.top) = true := by
          rcases List.mem_cons.1 hh' with heq | hin
          · rw [← heq]; exact hc'
          · exact absurd ⟨h', hin, hc'⟩ hrest
        rw [ih2 hnone, hstep, if_pos hfirst]
    · intro hnone
      have hfirst := hnone h (List.mem_cons_self _ _)
      rw [ih2 (fun h'' hh'' => hnone h'' (List.mem_cons_of_mem _ hh'')), hstep, hfirst]
      simp

/-- C16, amended: composing highlight spans of colour (255,255,255) leaves the
red, green and blue channels of every pixel of the image unchanged; on a
working image of the width of `limits` holding width * height pixels, a pixel
whose page position lies in the clipped rectangle of one of the spans becomes
the word of its own red, green and blue with alpha 255, and a pixel no span
covers is unchanged; an image whose pixels are all opaque (alpha 255) is left
unchanged. -/
theorem white_span_keeps_colour (X : Extern) (hs : List (QColor × NormalizedRect))
    (scaledWidth scaledHeight : Int) (limits : QRect) (backImage : QImage)
    (hwhite : ∀ h ∈ hs, h.1.red = 255 ∧ h.1.green = 255 ∧ h.1.blue = 255) :
    (paintHighlights X hs scaledWidth scaledHeight limits backImage).pixels.map
        (fun p => (qRed p, qGreen p, qBlue p))
      = backImage.pixels.map (fun p => (qRed p, qGreen p, qBlue p)) ∧
    (backImage.width = limits.width →
      backImage.pixels.length = (backImage.width * backImage.height).toNat →
      ∀ x y : Int, 0 ≤ x → x < backImage.width → 0 ≤ y → y < backImage.height →
        ((∃ h ∈ hs, ((X.geometry h.2 scaledWidth scaledHeight).intersect limits).contains
            (x + limits.left) (y + limits.top) = true) →
          (paintHighlights X hs scaledWidth scaledHeight limits backImage).pixels.getD
              (y * backImage.width + x).toNat 0
            = qRgba (qRed (backImage.pixels.getD (y * backImage.width + x).toNat 0))
                (qGreen (backImage.pixels.getD (y * backImage.width + x).toNat 0))
                (qBlue (backImage.pixels.getD (y * backImage.width + x).toNat 0)) 255 ∧
          qAlpha ((paintHighlights X hs scaledWidth scaledHeight limits backImage).pixels.getD
              (y * backImage.width + x).toNat 0) = 255) ∧
        ((∀ h ∈ hs, ((X.geometry h.2 scaledWidth scaledHeight).intersect limits).contains
            (x + limits.left) (y + limits.top) = false) →
          (paintHighlights X hs scaledWidth scaledHeight limits backImage).pixels.getD
              (y * backImage.width + x).toNat 0
            = backImage.pixels.getD (y * backImage.width + x).toNat 0)) ∧
    ((∀ p ∈ backImage.pixels, IsOpaquePixel p) →
      paintHighlights X hs scaledWidth scaledHeight limits backImage = backImage) := by
  have hrgb : ∀ p, (fun p => (qRed p, qGreen p, qBlue p)) (highlightPixel 255 255 255 p)
      = (fun p => (qRed p, qGreen p, qBlue p)) p := by
    intro p
    obtain ⟨h1, h2, h3, h4, h5, h6⟩ := channel_bounds p
    obtain ⟨e1, e2, e3, _⟩ := channels_qRgba (qRed p) (qGreen p) (qBlue p) 255 h1 h2 h3 h4 h5 h6
      (by decide) (by decide)
    simp only [highlightPixel_white, e1, e2, e3]
  refine ⟨?_, ?_, ?_⟩
  · unfold paintHighlights
    induction hs generalizing backImage with
    | nil => rfl
    | cons h hs ih =>
      obtain ⟨hr, hg, hb⟩ := hwhite h (List.mem_cons_self _ _)
      rw [List.foldl_cons, ih _ (fun h' hh' => hwhite h' (List.mem_cons_of_mem _ hh'))]
      rw [hr, hg, hb]
      exact highlightRectOnImage_map _ _ _ _ _ _ hrgb
  · intro hw hlen x y hx0 hx1 hy0 hy1
    obtain ⟨hcov, hfree⟩ := white_spans_getD X scaledWidth scaledHeight limits hs backImage
      hwhite hw hlen x y hx0 hx1 hy0 hy1
    refine ⟨fun hex => ?_, hfree⟩
    obtain ⟨h1, h2, h3, h4, h5, h6⟩ := channel_bounds
      (backImage.pixels.getD (y * backImage.width + x).toNat 0)
    obtain ⟨_, _, _, e4⟩ := channels_qRgba
      (qRed (backImage.pixels.getD (y * backImage.width + x).toNat 0))
      (qGreen (backImage.pixels.getD (y * backImage.width + x).toNat 0))
      (qBlue (backImage.pixels.getD (y * backImage.width + x).toNat 0)) 255
      h1 h2 h3 h4 h5 h6 (by decide) (by decide)
    rw [hcov hex, highlightPixel_white]
    exact ⟨rfl, e4⟩
  · intro hop
    unfold paintHighlights
    induction hs with
    | nil => rfl
    | cons h hs ih =>
      obtain ⟨hr, hg, hb⟩ := hwhite h (List.mem_cons_self _ _)
      rw [List.foldl_cons, hr, hg, hb, highlightRectOnImage_of_fixed]
      · exact ih (fun h' hh' => hwhite h' (List.mem_cons_of_mem _ hh'))
      · intro p hp
        rw [highlightPixel_white]
        exact qRgba_of_opaque p (hop p hp)

/-- C16 amended, checked on the example image under a white span over the page,
and on an image of 2 x 2 pixels of alpha 128 under a white span over its left
column: the pixel at (0, 0) gets alpha 255, the pixel at (1, 0) is kept. -/
theorem white_span_keeps_colour_witness :
    ((∀ p ∈ examplePixmap.toImage.pixels, IsOpaquePixel p) ∧
      paintHighlights refExtern [(QColor.white, ⟨0, 0, 1, 1⟩)] 2 2 wholePage
          examplePixmap.toImage
        = examplePixmap.toImage) ∧
    qAlpha ((paintHighlights refExtern [(QColor.white, ⟨0, 0, 1 / 4, 1⟩)] 2 2 wholePage
        ⟨2, 2, [2164260863, 2164260863, 2164260863, 2164260863]⟩).pixels.getD
          ((0 : Int) * 2 + 0).toNat 0) = 255 ∧
    (paintHighlights refExtern [(QColor.white, ⟨0, 0, 1 / 4, 1⟩)] 2 2 wholePage
        ⟨2, 2, [2164260863, 2164260863, 2164260863, 2164260863]⟩).pixels.getD
          ((0 : Int) * 2 + 1).toNat 0 = 2164260863 :=
  ⟨⟨by decide,
    (white_span_keeps_colour refExtern [(QColor.white, ⟨0, 0, 1, 1⟩)] 2 2 wholePage
      examplePixmap.toImage (by decide)).2.2 (by decide)⟩,
   (((white_span_keeps_colour refExtern [(QColor.white, ⟨0, 0, 1 / 4, 1⟩)] 2 2 wholePage
      ⟨2, 2, [2164260863, 2164260863, 2164260863, 2164260863]⟩ (by decide)).2.1
      (by decide) (by decide) 0 0 (by decide) (by decide) (by decide) (by decide)).1
      ⟨(QColor.white, ⟨0, 0, 1 / 4, 1⟩), List.mem_cons_self _ _, by decide!⟩).2,
   ((white_span_keeps_colour refExtern [(QColor.white, ⟨0, 0, 1 / 4, 1⟩)] 2 2 wholePage
      ⟨2, 2, [2164260863, 2164260863, 2164260863, 2164260863]⟩ (by decide)).2.1
      (by decide) (by decide) 1 0 (by decide) (by decide) (by decide) (by decide)).2
      (by decide!)⟩

/-- C17: product blend of a highlight span. For every span colour with
channels in 0..255 and every working image of the width of `limits` holding
width * height pixels, after the span is composed the image has the same size,
every pixel whose page position lies in the rectangle of the span clipped to
`limits` is the word of channels `floor(R*rh/255)`, `floor(G*gh/255)`,
`floor(B*bh/255)` (each in 0..255) and alpha 255, and every other pixel is
unchanged; for a black span the covered pixels are `qRgba 0 0 0 255`. -/
theorem highlight_span_blend (X : Extern) (c : QColor) (r : NormalizedRect)
    (scaledWidth scaledHeight : Int) (limits : QRect) (backImage : QImage)
    (hw : backImage.width = limits.width)
    (hlen : backImage.pixels.length = (backImage.width * backImage.height).toNat)
    (hr0 : 0 ≤ c.red) (hr1 : c.red ≤ 255) (hg0 : 0 ≤ c.green) (hg1 : c.green ≤ 255)
    (hb0 : 0 ≤ c.blue) (hb1 : c.blue ≤ 255) :
    (paintHighlights X [(c, r)] scaledWidth scaledHeight limits backImage).width
      = backImage.width ∧
    (paintHighlights X [(c, r)] scaledWidth scaledHeight limits backImage).height
      = backImage.height ∧
    (∀ x y : Int, 0 ≤ x → x < backImage.width → 0 ≤ y → y < backImage.height →
      (paintHighlights X [(c, r)] scaledWidth scaledHeight limits backImage).pixels.getD
          (y * backImage.width + x).toNat 0
        = if ((X.geometry r scaledWidth scaledHeight).intersect limits).contains
              (x + limits.left) (y + limits.top) = true then
            qRgba
              (qRed (backImage.pixels.getD (y * backImage.width + x).toNat 0) * c.red / 255)
              (qGreen (backImage.pixels.getD (y * backImage.width + x).toNat 0) * c.green / 255)
              (qBlue (backImage.pixels.getD (y * backImage.width + x).toNat 0) * c.blue / 255)
              255
          else backImage.pixels.getD (y * backImage.width + x).toNat 0) ∧
    (∀ p : Nat,
      (0 ≤ qRed p * c.red / 255 ∧ qRed p * c.red / 255 ≤ 255) ∧
      (0 ≤ qGreen p * c.green / 255 ∧ qGreen p * c.green / 255 ≤ 255) ∧
      (0 ≤ qBlue p * c.blue / 255 ∧ qBlue p * c.blue / 255 ≤ 255)) ∧
    (c.red = 0 → c.green = 0 → c.blue = 0 →
      ∀ x y : Int, 0 ≤ x → x < backImage.width → 0 ≤ y → y < backImage.height →
        ((X.geometry r scaledWidth scaledHeight).intersect limits).contains
          (x + limits.left) (y + limits.top) = true →
        (paintHighlights X [(c, r)] scaledWidth scaledHeight limits backImage).pixels.getD
          (y * backImage.width + x).toNat 0 = qRgba 0 0 0 255) := by
  have hpaint : paintHighlights X [(c, r)] scaledWidth scaledHeight limits backImage
      = highlightRectOnImage backImage
          (((X.geometry r scaledWidth scaledHeight).intersect limits).translate
            (-limits.left) (-limits.top)) c.red c.green c.blue := rfl
  have hpix : ∀ x y : Int, 0 ≤ x → x < backImage.width → 0 ≤ y → y < backImage.height →
      (paintHighlights X [(c, r)] scaledWidth scaledHeight limits backImage).pixels.getD
          (y * backImage.width + x).toNat 0
        = if ((X.geometry r scaledWidth scaledHeight).intersect limits).contains
              (x + limits.left) (y + limits.top) = true then
            qRgba
              (qRed (backImage.pixels.getD (y * backImage.width + x).toNat 0) * c.red / 255)
              (qGreen (backImage.pixels.getD (y * backImage.width + x).toNat 0) * c.green / 255)
              (qBlue (backImage.pixels.getD (y * backImage.width + x).toNat 0) * c.blue / 255)
              255
          else backImage.pixels.getD (y * backImage.width + x).toNat 0 := by
    intro x y hx0 hx1 hy0 hy1
    rw [hpaint]
    -- the pixel exists in the buffer
    have hW : 0 < backImage.width := by omega
    have hn : (y * backImage.width + x).toNat < backImage.pixels.length := by
      rw [hlen]
      have h1 : y * backImage.width ≤ (backImage.height - 1) * backImage.width :=
        mul_le_mul_of_nonneg_right (by omega) (le_of_lt hW)
      have h2 : (backImage.height - 1) * backImage.width
          = backImage.width * backImage.height - backImage.width := by ring
      have h3 : 0 ≤ y * backImage.width := mul_nonneg hy0 (le_of_lt hW)
      omega
    have hsome : backImage.pixels[(y * backImage.width + x).toNat]?
        = some (backImage.pixels.getD (y * backImage.width + x).toNat 0) := by
      rw [List.getD_eq_getElem?_getD, List.getElem?_eq_getElem hn]
      rfl
    by_cases hemp : (⟨max (X.geometry r scaledWidth scaledHeight).x1 limits.x1,
        max (X.geometry r scaledWidth scaledHeight).y1 limits.y1,
        min (X.geometry r scaledWidth scaledHeight).x2 limits.x2,
        min (X.geometry r scaledWidth scaledHeight).y2 limits.y2⟩ : QRect).isEmpty = true
    · -- no common part: nothing is written
      have hint : (X.geometry r scaledWidth scaledHeight).intersect limits = QRect.null := by
        simp only [QRect.intersect, hemp, if_true]
      rw [hint, highlightRectOnImage_of_empty _ _ _ _ _ (by
        simp only [QRect.translate, QRect.null]; omega)]
      have hc : QRect.null.contains (x + limits.left) (y + limits.top) = false := by
        simp only [QRect.contains, QRect.null, Bool.and_eq_false_iff, decide_eq_false_iff_not]
        omega
      rw [hc]
      simp
    · have hint : (X.geometry r scaledWidth scaledHeight).intersect limits
          = ⟨max (X.geometry r scaledWidth scaledHeight).x1 limits.x1,
             max (X.geometry r scaledWidth scaledHeight).y1 limits.y1,
             min (X.geometry r scaledWidth scaledHeight).x2 limits.x2,
             min (X.geometry r scaledWidth scaledHeight).y2 limits.y2⟩ := by
        simp only [QRect.intersect, hemp]
        rfl
      rw [hint]
      have hl : 0 ≤ ((⟨max (X.geometry r scaledWidth scaledHeight).x1 limits.x1,
             max (X.geometry r scaledWidth scaledHeight).y1 limits.y1,
             min (X.geometry r scaledWidth scaledHeight).x2 limits.x2,
             min (X.geometry r scaledWidth scaledHeight).y2 limits.y2⟩ : QRect).translate
            (-limits.left) (-limits.top)).x1 := by
        simp only [QRect.translate, QRect.left]
        omega
      have hr : ((⟨max (X.geometry r scaledWidth scaledHeight).x1 limits.x1,
             max (X.geometry r scaledWidth scaledHeight).y1 limits.y1,
             min (X.geometry r scaledWidth scaledHeight).x2 limits.x2,
             min (X.geometry r scaledWidth scaledHeight).y2 limits.y2⟩ : QRect).translate
            (-limits.left) (-limits.top)).x2 < backImage.width := by
        simp only [QRect.translate, QRect.left, hw, QRect.width]
        omega
      rw [List.getD_eq_getElem?_getD,
        highlightRectOnImage_getElem? _ _ _ _ _ hl hr x y hx0 hx1 hy0, hsome]
      have hcon : ((⟨max (X.geometry r scaledWidth scaledHeight).x1 limits.x1,
             max (X.geometry r scaledWidth scaledHeight).y1 limits.y1,
             min (X.geometry r scaledWidth scaledHeight).x2 limits.x2,
             min (X.geometry r scaledWidth scaledHeight).y2 limits.y2⟩ : QRect).translate
            (-limits.left) (-limits.top)).contains x y
          = (⟨max (X.geometry r scaledWidth scaledHeight).x1 limits.x1,
             max (X.geometry r scaledWidth scaledHeight).y1 limits.y1,
             min (X.geometry r scaledWidth scaledHeight).x2 limits.x2,
             min (X.geometry r scaledWidth scaledHeight).y2 limits.y2⟩ : QRect).contains
            (x + limits.left) (y + limits.top) := by
        simp only [QRect.translate, QRect.contains, QRect.left, QRect.top]
        congr 1
        · congr 1
          · congr 1
            · apply decide_eq_decide.2; constructor <;> intro h <;> omega
            · apply decide_eq_decide.2; constructor <;> intro h <;> omega
          · apply decide_eq_decide.2; constructor <;> intro h <;> omega
        · apply decide_eq_decide.2; constructor <;> intro h <;> omega
      rw [hcon]
      split
      · simp only [Option.map_some', Option.getD_some]
        exact highlightPixel_eq _ _ _ hr0 hg0 hb0 _
      · simp only [Option.getD_some]
  refine ⟨by rw [hpaint]; rfl, by rw [hpaint]; rfl, hpix, ?_, ?_⟩
  · intro p
    obtain ⟨h1, h2, h3, h4, h5, h6⟩ := channel_bounds p
    exact ⟨blend_bounds _ _ h1 h2 hr0 hr1, blend_bounds _ _ h3 h4 hg0 hg1,
      blend_bounds _ _ h5 h6 hb0 hb1⟩
  · intro hr hg hb x y hx0 hx1 hy0 hy1 hc
    rw [hpix x y hx0 hx1 hy0 hy1, if_pos hc, hr, hg, hb]
    simp

/-- C17, checked on the example image under a gray span over the left column. -/
theorem highlight_span_blend_witness :
    examplePixmap.toImage.width = wholePage.width ∧
    examplePixmap.toImage.pixels.length
      = (examplePixmap.toImage.width * examplePixmap.toImage.height).toNat ∧
    (paintHighlights refExtern [(QColor.gray, ⟨0, 0, 1 / 4, 1⟩)] 2 2 wholePage
        examplePixmap.toImage).pixels
      = [qRgba 160 160 164 255, whitePixel, qRgba 160 160 164 255, whitePixel] ∧
    (paintHighlights refExtern [(QColor.gray, ⟨0, 0, 1 / 4, 1⟩)] 2 2 wholePage
        examplePixmap.toImage).width = examplePixmap.toImage.width :=
  ⟨by decide, by decide, by decide!,
   (highlight_span_blend refExtern QColor.gray ⟨0, 0, 1 / 4, 1⟩ 2 2 wholePage
      examplePixmap.toImage (by decide) (by decide) (by decide) (by decide) (by decide)
      (by decide) (by decide) (by decide)).1⟩

end Highlights

section FastDivision

/-- C21: accuracy of the fast division. For every integer `x` with
0 <= x <= 255*255, `q = qt_div_255 x` satisfies |255*q - x| <= 128 and lies
in 0..255; and `qt_div_255 (255*a) = a` for every `a` in 0..255. -/
theorem qt_div_255_accuracy (x : Int) (h0 : 0 ≤ x) (h1 : x ≤ 255 * 255) :
    |255 * qt_div_255 x - x| ≤ 128 ∧
    (0 ≤ qt_div_255 x ∧ qt_div_255 x ≤ 255) ∧
    (∀ a : Int, 0 ≤ a → a ≤ 255 → qt_div_255 (255 * a) = a) := by
  refine ⟨?_, ?_, ?_⟩
  · rw [abs_le]
    simp only [qt_div_255]
    constructor <;> omega
  · simp only [qt_div_255]
    constructor <;> omega
  · intro a ha0 ha1
    simp only [qt_div_255]
    omega

/-- C21, checked on x = 1000, whose quotient is 4. -/
theorem qt_div_255_accuracy_witness :
    (0 : Int) ≤ 1000 ∧ (1000 : Int) ≤ 255 * 255 ∧ qt_div_255 1000 = 4 ∧
    |255 * qt_div_255 1000 - 1000| ≤ 128 :=
  ⟨by decide, by decide, by decide,
   (qt_div_255_accuracy 1000 (by decide) (by decide)).1⟩

end FastDivision

section BlackWhiteRange

theorem qGray_bounds (p : Nat) : 0 ≤ qGray p ∧ qGray p ≤ 255 := by
  obtain ⟨h1, h2, h3, h4, h5, h6⟩ := channel_bounds p
  simp only [qGray]
  omega

/-- C22: total and in range. For every `thr` in 0..255 and every contrast, a
gray value in 0..255 reaches no division with a zero divisor (the remapping
with checked divisions yields the value of the remapping), the value written
lies in 0..255, and for every source pixel the written pixel has red, green
and blue equal to that value and alpha 255. -/
theorem blackWhite_total_in_range (con thr : Int) (ht0 : 0 ≤ thr) (ht1 : thr ≤ 255) :
    (∀ gray : Int, 0 ≤ gray → gray ≤ 255 →
      blackWhiteValueChecked con thr gray = some (blackWhiteValue con thr gray) ∧
      0 ≤ blackWhiteValue con thr gray ∧ blackWhiteValue con thr gray ≤ 255) ∧
    (∀ source : Nat,
      (0 ≤ qGray source ∧ qGray source ≤ 255) ∧
      qRed (blackWhitePixel con thr source) = blackWhiteValue con thr (qGray source) ∧
      qGreen (blackWhitePixel con thr source) = blackWhiteValue con thr (qGray source) ∧
      qBlue (blackWhitePixel con thr source) = blackWhiteValue con thr (qGray source) ∧
      qAlpha (blackWhitePixel con thr source) = 255) := by
  have hval : ∀ gray : Int, 0 ≤ gray → gray ≤ 255 →
      blackWhiteValueChecked con thr gray = some (blackWhiteValue con thr gray) ∧
      0 ≤ blackWhiteValue con thr gray ∧ blackWhiteValue con thr gray ≤ 255 := by
    intro gray hg0 hg1
    obtain ⟨hhi, hlo⟩ := remap_bounds thr gray ht0 ht1 hg0 hg1
    have h2 : (2 : Int) ≠ 0 := by decide
    by_cases hc : con > 2
    · by_cases ha : gray > thr
      · have hd : (255 - thr) ≠ 0 := by omega
        obtain ⟨b0, b1⟩ := hhi ha
        simp only [blackWhiteValueChecked, blackWhiteValue, checkedDiv, ha, hc, hd, h2,
          if_true, if_false, Option.map_some', Option.some_bind]
        refine ⟨trivial, ?_, ?_⟩ <;> split_ifs <;> omega
      · by_cases hb : gray < thr
        · have hd : thr ≠ 0 := by omega
          obtain ⟨b0, b1⟩ := hlo hb
          simp only [blackWhiteValueChecked, blackWhiteValue, checkedDiv, ha, hb, hc, hd, h2,
            if_true, if_false, Option.map_some', Option.some_bind]
          refine ⟨trivial, ?_, ?_⟩ <;> split_ifs <;> omega
        · simp only [blackWhiteValueChecked, blackWhiteValue, checkedDiv, ha, hb, hc, h2,
            if_true, if_false, Option.map_some', Option.some_bind]
          refine ⟨trivial, ?_, ?_⟩ <;> split_ifs <;> omega
    · by_cases ha : gray > thr
      · have hd : (255 - thr) ≠ 0 := by omega
        obtain ⟨b0, b1⟩ := hhi ha
        simp only [blackWhiteValueChecked, blackWhiteValue, checkedDiv, ha, hc, hd,
          if_true, if_false, Option.map_some', Option.some_bind]
        refine ⟨trivial, ?_, ?_⟩ <;> omega
      · by_cases hb : gray < thr
        · have hd : thr ≠ 0 := by omega
          obtain ⟨b0, b1⟩ := hlo hb
          simp only [blackWhiteValueChecked, blackWhiteValue, checkedDiv, ha, hb, hc, hd,
            if_true, if_false, Option.some_bind]
          refine ⟨trivial, ?_, ?_⟩ <;> omega
        · simp only [blackWhiteValueChecked, blackWhiteValue, ha, hb, hc,
            if_false, Option.some_bind]
          refine ⟨trivial, ?_, ?_⟩ <;> omega
  refine ⟨hval, ?_⟩
  intro source
  obtain ⟨hg0, hg1⟩ := qGray_bounds source
  obtain ⟨_, hv0, hv1⟩ := hval (qGray source) hg0 hg1
  obtain ⟨e1, e2, e3, e4⟩ := channels_qRgba (blackWhiteValue con thr (qGray source))
    (blackWhiteValue con thr (qGray source)) (blackWhiteValue con thr (qGray source)) 255
    hv0 hv1 hv0 hv1 hv0 hv1 (by decide) (by decide)
  exact ⟨⟨hg0, hg1⟩, e1, e2, e3, e4⟩

/-- C22, checked at the extreme thresholds 0 and 255 with contrast 6. -/
theorem blackWhite_total_in_range_witness :
    blackWhiteValueChecked 6 0 0 = some 0 ∧
    blackWhiteValueChecked 6 0 255 = some 255 ∧
    blackWhiteValueChecked 6 255 255 = some 255 ∧
    blackWhiteValueChecked 6 255 17 = some (blackWhiteValue 6 255 17) :=
  ⟨by decide, by decide, by decide,
   ((blackWhite_total_in_range 6 255 (by decide) (by decide)).1 17 (by decide)
      (by decide)).1⟩

end BlackWhiteRange

section ResampleBounds

/-- The entry of the lookup table `xOffset` for the column `x`. -/
theorem scaleXOffset_getD (srcWidth scaledWidth destLeft destWidth : Int) (x : Nat)
    (hx : x < destWidth.toNat) :
    (scaleXOffset srcWidth scaledWidth destLeft destWidth).getD x 0
      = toUInt32 (Int.tdiv (wrapInt32 (((x : Int) + destLeft) * srcWidth)) scaledWidth) := by
  simp [scaleXOffset, List.getD_eq_getElem?_getD, List.getElem?_map, List.getElem?_range hx]

/-- The number of pixels written by `scalePixmapOnImage`. -/
theorem scalePixmapOnImage_length (src : QPixmap) (scaledWidth scaledHeight : Int)
    (cropRect : QRect) :
    (scalePixmapOnImage src scaledWidth scaledHeight cropRect).pixels.length
      = cropRect.width.toNat * cropRect.height.toNat := by
  simp only [scalePixmapOnImage, scaleXOffset, List.length_flatten, List.map_map]
  have hconst : ∀ (l : List Nat) (f : Nat → List Nat) (n : Nat), (∀ y ∈ l, (f y).length = n) →
      (l.map (List.length ∘ f)).sum = n * l.length := by
    intro l f n
    induction l with
    | nil => intro _; simp
    | cons a t ih =>
      intro h
      simp only [List.map_cons, List.sum_cons, List.length_cons, Function.comp]
      have ha := h a (List.mem_cons_self _ _)
      have ht := ih (fun y hy => h y (List.mem_cons_of_mem _ hy))
      simp only [Function.comp] at ht
      rw [ha, ht]
      ring
  rw [hconst (List.range cropRect.height.toNat) _ cropRect.width.toNat (by
    intro y _
    simp)]
  simp

/-- C23 fails on the code: for a source of 10400 x 500 pixels scaled to
208000 x 10000 (a ratio of 20, which the policy of step 1B lets through, and
no more than 6000000 source pixels) and the crop rectangle
(207999, 0, 1, 1), which lies in the scaled page, the product
(0 + 207999) * 10400 does not fit an `int`; the table entry is 4294957048,
not below the source width, and the read index is not below 10400 * 500:
the read is outside the source. -/
theorem scaleXOffset_outside_source :
    rescaleRatioOutOfRange 208000 10400 = false ∧
    (0 ≤ (QRect.ofSize 207999 0 1 1).left ∧ (QRect.ofSize 207999 0 1 1).right < 208000 ∧
      0 ≤ (QRect.ofSize 207999 0 1 1).top ∧ (QRect.ofSize 207999 0 1 1).bottom < 10000) ∧
    scaleXOffset 10400 208000 (QRect.ofSize 207999 0 1 1).left (QRect.ofSize 207999 0 1 1).width
      = [4294957048] ∧
    scaleSrcOffset 10400 500 10000 (QRect.ofSize 207999 0 1 1).top 0 = 0 ∧
    ¬ ((scaleSrcOffset 10400 500 10000 (QRect.ofSize 207999 0 1 1).top 0 +
        (scaleXOffset 10400 208000 (QRect.ofSize 207999 0 1 1).left
          (QRect.ofSize 207999 0 1 1).width).getD 0 0) % 4294967296 < 10400 * 500) := by
  refine ⟨by decide!, by decide, by decide, by decide, by decide⟩

/-- Inside the `int` range every read is inside the source: for every source of
positive size and crop rectangle lying
in the scaled page, when the products scaledWidth * srcWidth,
scaledHeight * srcHeight and srcWidth * srcHeight fit an `int`: each entry of
the lookup table is the column floor((x + destLeft) * srcW / scaledWidth),
which lies in 0..srcW-1; each row offset is srcW times the row
floor((destTop + y) * srcH / scaledHeight), which lies in 0..srcH-1; every
read index srcOffset + xOffset[x] is below srcW * srcH; and exactly
destW * destH pixels are written. -/
theorem scalePixmapOnImage_reads_inside (src : QPixmap) (scaledWidth scaledHeight : Int)
    (cropRect : QRect) (hW : 0 < src.width) (hH : 0 < src.height)
    (hl : 0 ≤ cropRect.left) (ht : 0 ≤ cropRect.top)
    (hr : cropRect.right < scaledWidth) (hb : cropRect.bottom < scaledHeight)
    (hfx : scaledWidth * src.width < 2147483648)
    (hfy : scaledHeight * src.height < 2147483648)
    (hfs : src.width * src.height < 2147483648) :
    (∀ x : Nat, x < cropRect.width.toNat →
      (scaleXOffset src.width scaledWidth cropRect.left cropRect.width).getD x 0
        = ((((x : Int) + cropRect.left) * src.width) / scaledWidth).toNat ∧
      0 ≤ (((x : Int) + cropRect.left) * src.width) / scaledWidth ∧
      (((x : Int) + cropRect.left) * src.width) / scaledWidth < src.width) ∧
    (∀ y : Nat, y < cropRect.height.toNat →
      scaleSrcOffset src.width src.height scaledHeight cropRect.top y
        = (src.width * (((cropRect.top + (y : Int)) * src.height) / scaledHeight)).toNat ∧
      0 ≤ ((cropRect.top + (y : Int)) * src.height) / scaledHeight ∧
      ((cropRect.top + (y : Int)) * src.height) / scaledHeight < src.height) ∧
    (∀ x y : Nat, x < cropRect.width.toNat → y < cropRect.height.toNat →
      (scaleSrcOffset src.width src.height scaledHeight cropRect.top y +
        (scaleXOffset src.width scaledWidth cropRect.left cropRect.width).getD x 0)
          % 4294967296 < (src.width * src.height).toNat ∧
      (scalePixmapOnImage src scaledWidth scaledHeight cropRect).pixels[
          y * cropRect.width.toNat + x]?
        = some (src.pixels.getD
            ((scaleSrcOffset src.width src.height scaledHeight cropRect.top y +
              (scaleXOffset src.width scaledWidth cropRect.left cropRect.width).getD x 0)
                % 4294967296) 0)) ∧
    (scalePixmapOnImage src scaledWidth scaledHeight cropRect).pixels.length
      = cropRect.width.toNat * cropRect.height.toNat := by
  have hcol : ∀ x : Nat, x < cropRect.width.toNat →
      (scaleXOffset src.width scaledWidth cropRect.left cropRect.width).getD x 0
        = ((((x : Int) + cropRect.left) * src.width) / scaledWidth).toNat ∧
      0 ≤ (((x : Int) + cropRect.left) * src.width) / scaledWidth ∧
      (((x : Int) + cropRect.left) * src.width) / scaledWidth < src.width := by
    intro x hx
    have hx' : (x : Int) + cropRect.left < scaledWidth := by
      simp only [QRect.width, QRect.left, QRect.right] at hx hl hr ⊢
      omega
    obtain ⟨e, b0, b1⟩ := sample_index ((x : Int) + cropRect.left) src.width scaledWidth
      (by omega) hx' hW hfx
    have hwide : src.width * 1 ≤ src.width * src.height :=
      mul_le_mul_of_nonneg_left (by omega) (le_of_lt hW)
    rw [scaleXOffset_getD _ _ _ _ x hx, e, toUInt32_of_inRange _ b0 (by omega)]
    exact ⟨rfl, b0, b1⟩
  have hrow : ∀ y : Nat, y < cropRect.height.toNat →
      scaleSrcOffset src.width src.height scaledHeight cropRect.top y
        = (src.width * (((cropRect.top + (y : Int)) * src.height) / scaledHeight)).toNat ∧
      0 ≤ ((cropRect.top + (y : Int)) * src.height) / scaledHeight ∧
      ((cropRect.top + (y : Int)) * src.height) / scaledHeight < src.height ∧
      src.width * (((cropRect.top + (y : Int)) * src.height) / scaledHeight)
        ≤ src.width * src.height - src.width := by
    intro y hy
    have hy' : cropRect.top + (y : Int) < scaledHeight := by
      simp only [QRect.height, QRect.top, QRect.bottom] at hy ht hb ⊢
      omega
    obtain ⟨e, b0, b1⟩ := sample_index (cropRect.top + (y : Int)) src.height scaledHeight
      (by omega) hy' hH hfy
    have hle : src.width * (((cropRect.top + (y : Int)) * src.height) / scaledHeight)
        ≤ src.width * (src.height - 1) :=
      mul_le_mul_of_nonneg_left (by omega) (le_of_lt hW)
    have hexp : src.width * (src.height - 1) = src.width * src.height - src.width := by ring
    have h0 : 0 ≤ src.width * (((cropRect.top + (y : Int)) * src.height) / scaledHeight) :=
      mul_nonneg (le_of_lt hW) b0
    simp only [scaleSrcOffset]
    rw [e, toUInt32_of_inRange _ h0 (by omega)]
    exact ⟨rfl, b0, b1, by omega⟩
  refine ⟨hcol, fun y hy => ⟨(hrow y hy).1, (hrow y hy).2.1, (hrow y hy).2.2.1⟩, ?_,
    scalePixmapOnImage_length src scaledWidth scaledHeight cropRect⟩
  intro x y hx hy
  obtain ⟨ex, bx0, bx1⟩ := hcol x hx
  obtain ⟨ey, by0, by1, hle⟩ := hrow y hy
  have h0 : 0 ≤ src.width * (((cropRect.top + (y : Int)) * src.height) / scaledHeight) :=
    mul_nonneg (le_of_lt hW) by0
  constructor
  · rw [ex, ey]
    omega
  · rw [scalePixmapOnImage_getElem? src scaledWidth scaledHeight cropRect x y hx hy,
      scaleXOffset_getD _ _ _ _ x hx]

/-- On a source of 2 x 2 pixels scaled to 4 x 4 and cropped at (1, 1, 3, 3) the
last column and row read the source index 3. -/
theorem scalePixmapOnImage_reads_inside_example :
    (scaleSrcOffset 2 2 4 (QRect.ofSize 1 1 3 3).top 2 +
        (scaleXOffset 2 4 (QRect.ofSize 1 1 3 3).left (QRect.ofSize 1 1 3 3).width).getD 2 0)
          % 4294967296 = 3 ∧
    (scaleSrcOffset 2 2 4 (QRect.ofSize 1 1 3 3).top 2 +
        (scaleXOffset 2 4 (QRect.ofSize 1 1 3 3).left (QRect.ofSize 1 1 3 3).width).getD 2 0)
          % 4294967296 < ((2 : Int) * 2).toNat ∧
    (scalePixmapOnImage ⟨2, 2, [1, 2, 3, 4]⟩ 4 4 (QRect.ofSize 1 1 3 3)).pixels.length
      = (QRect.ofSize 1 1 3 3).width.toNat * (QRect.ofSize 1 1 3 3).height.toNat :=
  ⟨by decide,
   ((scalePixmapOnImage_reads_inside ⟨2, 2, [1, 2, 3, 4]⟩ 4 4 (QRect.ofSize 1 1 3 3)
      (by decide) (by decide) (by decide) (by decide) (by decide) (by decide) (by decide)
      (by decide) (by decide)).2.2.1 2 2 (by decide) (by decide)).1,
   (scalePixmapOnImage_reads_inside ⟨2, 2, [1, 2, 3, 4]⟩ 4 4 (QRect.ofSize 1 1 3 3)
      (by decide) (by decide) (by decide) (by decide) (by decide) (by decide) (by decide)
      (by decide) (by decide)).2.2.2⟩

end ResampleBounds

section ResampleChecked

/-- The indices read by the rescale are those of the columns and rows of the
crop rectangle. -/
theorem mem_scaleReadIndices (srcWidth srcHeight scaledWidth scaledHeight : Int)
    (cropRect : QRect) (i : Nat) :
    i ∈ scaleReadIndices srcWidth srcHeight scaledWidth scaledHeight cropRect ↔
      ∃ y : Nat, y < cropRect.height.toNat ∧ ∃ x : Nat, x < cropRect.width.toNat ∧
        i = (scaleSrcOffset srcWidth srcHeight scaledHeight cropRect.top y +
              toUInt32 (Int.tdiv (wrapInt32 (((x : Int) + cropRect.left) * srcWidth))
                scaledWidth)) % 4294967296 := by
  simp only [scaleReadIndices, scaleXOffset, List.map_map, List.mem_flatten, List.mem_map,
    List.mem_range, Function.comp]
  constructor
  · rintro ⟨l, ⟨y, hy, rfl⟩, hi⟩
    simp only [List.mem_map, List.mem_range] at hi
    obtain ⟨x, hx, rfl⟩ := hi
    exact ⟨y, hy, x, hx, rfl⟩
  · rintro ⟨y, hy, x, hx, rfl⟩
    refine ⟨_, ⟨y, hy, rfl⟩, ?_⟩
    simp only [List.mem_map, List.mem_range]
    exact ⟨x, hx, rfl⟩

/-- The number of pixels of `widePixmap`. -/
theorem widePixmap_length : widePixmap.toImage.pixels.length = 5200000 := by
  simp only [widePixmap, QPixmap.toImage, List.length_replicate]

/-- Every pixel of `widePixmap` is white. -/
theorem widePixmap_getD (i : Nat) (h : i < 5200000) :
    widePixmap.pixels.getD i 0 = whitePixel := by
  simp only [widePixmap, List.getD_eq_getElem?_getD, List.getElem?_replicate, h, if_true,
    Option.getD_some]

/-- Inside the `int` range the rescale fails nowhere: for a source holding
width * height pixels, of positive size, and a crop rectangle lying in the
scaled page, when the three products fit an `int`, no division by zero is
reached, every read is inside the source and the image is the one of
`scalePixmapOnImage`. -/
theorem scalePixmapOnImageChecked_of_inRange (src : QPixmap) (scaledWidth scaledHeight : Int)
    (cropRect : QRect) (hlen : src.pixels.length = (src.width * src.height).toNat)
    (hW : 0 < src.width) (hH : 0 < src.height)
    (hl : 0 ≤ cropRect.left) (ht : 0 ≤ cropRect.top)
    (hr : cropRect.right < scaledWidth) (hb : cropRect.bottom < scaledHeight)
    (hfx : scaledWidth * src.width < 2147483648)
    (hfy : scaledHeight * src.height < 2147483648)
    (hfs : src.width * src.height < 2147483648) :
    scalePixmapOnImageChecked src scaledWidth scaledHeight cropRect
      = some (scalePixmapOnImage src scaledWidth scaledHeight cropRect) := by
  have hdiv : ¬ ((0 < cropRect.width ∧ scaledWidth = 0) ∨
      (0 < cropRect.height ∧ scaledHeight = 0)) := by
    simp only [QRect.width, QRect.height, QRect.left, QRect.top, QRect.right, QRect.bottom]
      at hl ht hr hb ⊢
    omega
  have hall : (scaleReadIndices src.width src.height scaledWidth scaledHeight cropRect).all
      (fun i => decide (i < src.toImage.pixels.length)) = true := by
    rw [List.all_eq_true]
    intro i hi
    obtain ⟨y, hy, x, hx, rfl⟩ := (mem_scaleReadIndices _ _ _ _ _ _).1 hi
    have hin := ((scalePixmapOnImage_reads_inside src scaledWidth scaledHeight cropRect hW hH
      hl ht hr hb hfx hfy hfs).2.2.1 x y hx hy).1
    rw [scaleXOffset_getD _ _ _ _ x hx] at hin
    simp only [QPixmap.toImage, hlen, decide_eq_true_eq]
    exact hin
  rw [scalePixmapOnImageChecked, if_neg hdiv, if_pos hall]

/-- Where the rescale yields an image it is resolution-consistent: for every
source, scaled size, rectangle `R` and sub-rectangle `S` of `R`, when the
rescale with the crop rectangle `R` yields an image, the rescale with the
crop rectangle `S` yields the image cropped from it at `S` (taken relative to
the origin of `R`). -/
theorem rescale_then_crop_checked (src : QPixmap) (scaledWidth scaledHeight : Int)
    (R S : QRect) (imageR : QImage)
    (hx1 : R.x1 ≤ S.x1) (hx2 : S.x2 ≤ R.x2) (hy1 : R.y1 ≤ S.y1) (hy2 : S.y2 ≤ R.y2)
    (hR : scalePixmapOnImageChecked src scaledWidth scaledHeight R = some imageR) :
    scalePixmapOnImageChecked src scaledWidth scaledHeight S
      = some (cropPixmapOnImage (QPixmap.fromImage imageR)
          (S.translate (-R.left) (-R.top))) := by
  unfold scalePixmapOnImageChecked at hR
  by_cases hdivR : (0 < R.width ∧ scaledWidth = 0) ∨ (0 < R.height ∧ scaledHeight = 0)
  · rw [if_pos hdivR] at hR
    exact absurd hR (by simp)
  · rw [if_neg hdivR] at hR
    by_cases hallR : (scaleReadIndices src.width src.height scaledWidth scaledHeight R).all
        (fun i => decide (i < src.toImage.pixels.length)) = true
    · rw [if_pos hallR] at hR
      have himg : imageR = scalePixmapOnImage src scaledWidth scaledHeight R :=
        (Option.some.inj hR).symm
      have hdivS : ¬ ((0 < S.width ∧ scaledWidth = 0) ∨
          (0 < S.height ∧ scaledHeight = 0)) := by
        simp only [QRect.width, QRect.height] at hdivR ⊢
        omega
      have hallS : (scaleReadIndices src.width src.height scaledWidth scaledHeight S).all
          (fun i => decide (i < src.toImage.pixels.length)) = true := by
        rw [List.all_eq_true] at hallR ⊢
        intro i hi
        apply hallR
        obtain ⟨y, hy, x, hx, rfl⟩ := (mem_scaleReadIndices _ _ _ _ _ _).1 hi
        simp only [QRect.width, QRect.height] at hx hy
        refine (mem_scaleReadIndices _ _ _ _ _ _).2
          ⟨((y : Int) + S.y1 - R.y1).toNat, ?_, ((x : Int) + S.x1 - R.x1).toNat, ?_, ?_⟩
        · simp only [QRect.height]
          omega
        · simp only [QRect.width]
          omega
        · have ey : R.top + ((((y : Int) + S.y1 - R.y1).toNat : Nat) : Int)
              = S.top + (y : Int) := by
            simp only [QRect.top]
            omega
          have ex : ((((x : Int) + S.x1 - R.x1).toNat : Nat) : Int) + R.left
              = (x : Int) + S.left := by
            simp only [QRect.left]
            omega
          simp only [scaleSrcOffset]
          rw [ey, ex]
      rw [scalePixmapOnImageChecked, if_neg hdivS, if_pos hallS, himg,
        rescale_then_crop src scaledWidth scaledHeight R S hx1 hx2 hy1 hy2]
    · rw [if_neg hallR] at hR
      exact absurd hR (by simp)

/-- C11 fails on the code: the lookup table is filled with `int` products. For
the white source of 10400 x 500 pixels scaled to 208000 x 10000, which step 1B
lets through, and the crop rectangle (207999, 0, 1, 1), which lies in the
scaled page, the formula gives the column floor(207999 * 10400 / 208000) =
10399 and the specification the image of one white pixel; the product
207999 * 10400 leaves the `int` range, the table entry is 4294957048, the read
falls outside the source and the rescale yields no image. -/
theorem scalePixmapOnImage_column_overflow :
    drawsEmptyPage (some widePixmap) 208000 = false ∧
    (0 ≤ (QRect.ofSize 207999 0 1 1).left ∧ (QRect.ofSize 207999 0 1 1).right < 208000 ∧
      0 ≤ (QRect.ofSize 207999 0 1 1).top ∧ (QRect.ofSize 207999 0 1 1).bottom < 10000) ∧
    (((0 : Int) + (QRect.ofSize 207999 0 1 1).left) * widePixmap.width / 208000 = 10399 ∧
      ((0 : Int) + (QRect.ofSize 207999 0 1 1).top) * widePixmap.height / 10000 = 0) ∧
    rescaleBySpec widePixmap 208000 10000 (QRect.ofSize 207999 0 1 1)
      = ⟨1, 1, [whitePixel]⟩ ∧
    scaleXOffset widePixmap.width 208000 (QRect.ofSize 207999 0 1 1).left
        (QRect.ofSize 207999 0 1 1).width
      = [4294957048] ∧
    scalePixmapOnImageChecked widePixmap 208000 10000 (QRect.ofSize 207999 0 1 1) = none := by
  have hspec : rescaleBySpec widePixmap 208000 10000 (QRect.ofSize 207999 0 1 1)
      = ⟨1, 1, [whitePixel]⟩ := by
    have hr : rescaleBySpec widePixmap 208000 10000 (QRect.ofSize 207999 0 1 1)
        = ⟨1, 1, [widePixmap.pixelAt 10399 0]⟩ := rfl
    have hg : widePixmap.pixelAt 10399 0 = whitePixel := by
      simp only [QPixmap.pixelAt]
      rw [if_pos (by decide)]
      exact widePixmap_getD 10399 (by decide)
    rw [hr, hg]
  have hcode : scalePixmapOnImageChecked widePixmap 208000 10000 (QRect.ofSize 207999 0 1 1)
      = none := by
    have hi : scaleReadIndices widePixmap.width widePixmap.height 208000 10000
        (QRect.ofSize 207999 0 1 1) = [4294957048] := by decide
    have hc : ¬ ((0 < (QRect.ofSize 207999 0 1 1).width ∧ (208000 : Int) = 0) ∨
        (0 < (QRect.ofSize 207999 0 1 1).height ∧ (10000 : Int) = 0)) := by decide
    rw [scalePixmapOnImageChecked, if_neg hc, hi, widePixmap_length]
    rfl
  exact ⟨by decide!, by decide, by decide, hspec, by decide, hcode⟩

/-- C12 fails on the code: for the white source of 10400 x 500 pixels scaled to
208000 x 10000, which step 1B lets through, the rectangle R = (206488, 0, 2, 1)
of the scaled page and its sub-rectangle S = (206488, 0, 1, 1), the rescale
with the crop rectangle S reads the index 10324 and yields one white pixel,
while the rescale with the crop rectangle R reads the indices 10324 and
4294956972 (the product 206489 * 10400 leaves the `int` range), the second
outside the source, and yields no image to take the pixels of S from. -/
theorem rescale_then_crop_overflow :
    drawsEmptyPage (some widePixmap) 208000 = false ∧
    (0 ≤ (QRect.ofSize 206488 0 2 1).left ∧ (QRect.ofSize 206488 0 2 1).right < 208000 ∧
      0 ≤ (QRect.ofSize 206488 0 2 1).top ∧ (QRect.ofSize 206488 0 2 1).bottom < 10000) ∧
    ((QRect.ofSize 206488 0 2 1).x1 ≤ (QRect.ofSize 206488 0 1 1).x1 ∧
      (QRect.ofSize 206488 0 1 1).x2 ≤ (QRect.ofSize 206488 0 2 1).x2 ∧
      (QRect.ofSize 206488 0 2 1).y1 ≤ (QRect.ofSize 206488 0 1 1).y1 ∧
      (QRect.ofSize 206488 0 1 1).y2 ≤ (QRect.ofSize 206488 0 2 1).y2) ∧
    scaleReadIndices widePixmap.width widePixmap.height 208000 10000
        (QRect.ofSize 206488 0 1 1) = [10324] ∧
    scaleReadIndices widePixmap.width widePixmap.height 208000 10000
        (QRect.ofSize 206488 0 2 1) = [10324, 4294956972] ∧
    scalePixmapOnImageChecked widePixmap 208000 10000 (QRect.ofSize 206488 0 1 1)
      = some ⟨1, 1, [whitePixel]⟩ ∧
    scalePixmapOnImageChecked widePixmap 208000 10000 (QRect.ofSize 206488 0 2 1) = none := by
  have hS : scalePixmapOnImageChecked widePixmap 208000 10000 (QRect.ofSize 206488 0 1 1)
      = some ⟨1, 1, [whitePixel]⟩ := by
    have hi : scaleReadIndices widePixmap.width widePixmap.height 208000 10000
        (QRect.ofSize 206488 0 1 1) = [10324] := by decide
    have hc : ¬ ((0 < (QRect.ofSize 206488 0 1 1).width ∧ (208000 : Int) = 0) ∨
        (0 < (QRect.ofSize 206488 0 1 1).height ∧ (10000 : Int) = 0)) := by decide
    have himg : scalePixmapOnImage widePixmap 208000 10000 (QRect.ofSize 206488 0 1 1)
        = ⟨1, 1, [widePixmap.pixels.getD 10324 0]⟩ := rfl
    rw [scalePixmapOnImageChecked, if_neg hc, hi, widePixmap_length, himg,
      widePixmap_getD 10324 (by decide)]
    rfl
  have hR : scalePixmapOnImageChecked widePixmap 208000 10000 (QRect.ofSize 206488 0 2 1)
      = none := by
    have hi : scaleReadIndices widePixmap.width widePixmap.height 208000 10000
        (QRect.ofSize 206488 0 2 1) = [10324, 4294956972] := by decide
    have hc : ¬ ((0 < (QRect.ofSize 206488 0 2 1).width ∧ (208000 : Int) = 0) ∨
        (0 < (QRect.ofSize 206488 0 2 1).height ∧ (10000 : Int) = 0)) := by decide
    rw [scalePixmapOnImageChecked, if_neg hc, hi, widePixmap_length]
    rfl
  exact ⟨by decide!, by decide, by decide, by decide, by decide, hS, hR⟩

end ResampleChecked

end PagePainter
